import Mathlib

/-!
# MPFF codec (libavcodec/mpffenc.c, libavcodec/mpffdec.c)

A shallow embedding of the MPFF encoder and decoder.

* C `int` / `unsigned int` values are `Int`s; every conversion or operation
  that can leave the 32-bit range is written with an explicit wrap
  (`toInt32`, `toUInt32`).
* A C byte pointer is modelled by the memory it can reach: a total map
  from signed byte offsets (relative to the pointer) to bytes.  The C code
  performs no bounds checks, and neither does the model: whether an access
  stays inside a buffer is a property to be stated, not a side condition
  of the definitions.
* The collaborators that live outside the two source files
  (`ff_alloc_packet2`, `ff_get_buffer`) are parameters.
-/

namespace MPFF

/-! ## Machine integers and bytes -/

abbrev Byte := Fin 256

/-- Memory reachable from a base pointer, indexed by byte offset. -/
abbrev Mem := Int → Byte

/-- Conversion to `unsigned int` (32 bit). -/
def toUInt32 (x : Int) : Int := x % 4294967296

/-- Conversion to `int` (32 bit, two's complement). -/
def toInt32 (x : Int) : Int := (x + 2147483648) % 4294967296 - 2147483648

/-- Conversion to `size_t` (64 bit). -/
def toSizeT (x : Int) : Int := x % 18446744073709551616

/-- Truncation of an integer to `uint8_t`. -/
def toByte (x : Int) : Byte := ⟨(x % 256).toNat, by omega⟩

/-- C `a & b` on 32-bit `int` operands (two's complement bit patterns). -/
def and32 (a b : Int) : Int :=
  toInt32 ((Nat.land (toUInt32 a).toNat (toUInt32 b).toNat : Nat) : Int)

/-- C `~a` on a 32-bit `int` operand (two's complement). -/
def not32 (a : Int) : Int := toInt32 (-a - 1)

/-- C `a & b` on 32-bit `unsigned int` operands. -/
def uand32 (a b : Int) : Int :=
  ((Nat.land (toUInt32 a).toNat (toUInt32 b).toNat : Nat) : Int)

/-! ## Memory primitives -/

/-- Store of one byte: `p[i] = v`. -/
def store (m : Mem) (i : Int) (v : Byte) : Mem :=
  fun j => if j = i then v else m j

/-- C `memcpy(dst + d, src + s, n)`, the buffers being distinct objects;
`n` is the byte count after conversion to `size_t`. -/
def memcpy (dst : Mem) (d : Int) (src : Mem) (s : Int) (n : Int) : Mem :=
  fun j => if d ≤ j ∧ j < d + n then src (s + (j - d)) else dst j

/-- C `memset(dst + d, c, n)`. -/
def memset (dst : Mem) (d : Int) (c : Int) (n : Int) : Mem :=
  fun j => if d ≤ j ∧ j < d + n then toByte c else dst j

/-! ## bytestream.h accessors

The header `bytestream.h` is included by `mpff.h`; its accessors read or
write at a cursor and advance it.  Here the cursor is the explicit offset
argument, and the caller advances it by the width of the access. -/

/-- Read of `bytestream_get_byte` at offset `p`. -/
def bytestream_get_byte (m : Mem) (p : Int) : Int := ((m p).val : Int)

/-- Read of `bytestream_get_le16` at offset `p`. -/
def bytestream_get_le16 (m : Mem) (p : Int) : Int :=
  ((m p).val : Int) + 256 * ((m (p + 1)).val : Int)

/-- Read of `bytestream_get_le32` at offset `p` (an `unsigned int`). -/
def bytestream_get_le32 (m : Mem) (p : Int) : Int :=
  ((m p).val : Int) + 256 * ((m (p + 1)).val : Int)
    + 65536 * ((m (p + 2)).val : Int) + 16777216 * ((m (p + 3)).val : Int)

/-- Write of `bytestream_put_byte` at offset `p`. -/
def bytestream_put_byte (m : Mem) (p : Int) (v : Int) : Mem :=
  store m p (toByte v)

/-- Write of `bytestream_put_le16` at offset `p`. -/
def bytestream_put_le16 (m : Mem) (p : Int) (v : Int) : Mem :=
  store (store m p (toByte v)) (p + 1) (toByte (v / 256))

/-- Write of `bytestream_put_le32` at offset `p`. -/
def bytestream_put_le32 (m : Mem) (p : Int) (v : Int) : Mem :=
  store (store (store (store m p (toByte v)) (p + 1) (toByte (v / 256)))
    (p + 2) (toByte (v / 65536))) (p + 3) (toByte (v / 16777216))

/-! ## libavcodec data types (the fields the codec touches) -/

inductive AVPictureType where
  | AV_PICTURE_TYPE_NONE
  | AV_PICTURE_TYPE_I
  deriving DecidableEq

inductive AVPixelFormat where
  | AV_PIX_FMT_NONE
  | AV_PIX_FMT_RGB8
  deriving DecidableEq

/-- Fields of `AVFrame`: `data[0]`, `linesize[0]`, `pict_type`, `key_frame`. -/
structure AVFrame where
  data : Mem
  linesize : Int
  pict_type : AVPictureType
  key_frame : Int

/-- Fields of `AVPacket`: `data`, `size`, `flags`. -/
structure AVPacket where
  data : Mem
  size : Int
  flags : Nat

/-- Fields of `AVCodecContext`. -/
structure AVCodecContext where
  width : Int
  height : Int
  pix_fmt : AVPixelFormat
  bits_per_coded_sample : Int
  coded_frame : AVFrame

/-- Value of `AVERROR_INVALIDDATA`, that is `-MKTAG('I','N','D','A')`
(libavutil/error.h). -/
def AVERROR_INVALIDDATA : Int := -1094995529

/-- Value of `AV_PKT_FLAG_KEY` (libavcodec/avcodec.h). -/
def AV_PKT_FLAG_KEY : Nat := 1

/-! ## Encoder (mpffenc.c) -/

/-- Locals computed by the "Calculate sizes" block of `mpff_encode_frame`. -/
structure EncSizes where
  image_row_size : Int
  padding_row_size : Int
  image_size : Int
  file_header_size : Int
  info_header_size : Int
  header_size : Int
  file_size : Int

/-- The "Calculate sizes" block of `mpff_encode_frame` (mpffenc.c 58-70).
The row size is computed in `int64_t`, where it cannot overflow for `int`
operands, and then narrowed to `int`. -/
def mpff_encode_sizes (avctx : AVCodecContext) : EncSizes :=
  let depth := avctx.bits_per_coded_sample
  let image_row_size := toInt32 ((avctx.width * depth + 7) / 8)
  let padding_row_size := and32 (toInt32 (4 - image_row_size)) 3
  let image_size := toInt32 (avctx.height * toInt32 (image_row_size + padding_row_size))
  let file_header_size := 12
  let info_header_size := 14
  let header_size := toInt32 (file_header_size + info_header_size)
  let file_size := toInt32 (image_size + header_size)
  { image_row_size := image_row_size
    padding_row_size := padding_row_size
    image_size := image_size
    file_header_size := file_header_size
    info_header_size := info_header_size
    header_size := header_size
    file_size := file_size }

/-- The row loop of `mpff_encode_frame` (mpffenc.c 103-116), `n` iterations
left; `buffer` and `image_data` are the two cursors. -/
def mpff_encode_rows (src : Mem) (linesize image_row_size padding_row_size : Int) :
    Nat → Mem → Int → Int → Mem
  | 0, out, _, _ => out
  | n + 1, out, buffer, image_data =>
    let out := memcpy out buffer src image_data (toSizeT image_row_size)
    let buffer := buffer + image_row_size
    let out := memset out buffer 0 (toSizeT padding_row_size)
    let buffer := buffer + padding_row_size
    let image_data := image_data + linesize
    mpff_encode_rows src linesize image_row_size padding_row_size n out buffer image_data

/-- The "Writing header data" block of `mpff_encode_frame` (mpffenc.c 80-94),
applied to the packet memory; the cursor starts at offset 0.  The `int`
arguments are converted to the `unsigned int` parameter of the writers. -/
def mpff_encode_header (b : Mem) (sz : EncSizes) (width height depth : Int) : Mem :=
  let b := bytestream_put_byte b 0 77
  let b := bytestream_put_byte b 1 80
  let b := bytestream_put_byte b 2 70
  let b := bytestream_put_byte b 3 70
  let b := bytestream_put_le32 b 4 (toUInt32 sz.file_size)
  let b := bytestream_put_le32 b 8 (toUInt32 sz.header_size)
  let b := bytestream_put_le32 b 12 (toUInt32 sz.info_header_size)
  let b := bytestream_put_le32 b 16 (toUInt32 width)
  let b := bytestream_put_le32 b 20 (toUInt32 height)
  let b := bytestream_put_le16 b 24 (toUInt32 depth)
  b

/-- The "Set properties" block of `mpff_encode_frame` (mpffenc.c 52-56): the
coded frame is marked as an intra picture and a key frame. -/
def mpff_encode_props (avctx : AVCodecContext) : AVCodecContext :=
  { avctx with
    coded_frame := { avctx.coded_frame with
      pict_type := AVPictureType.AV_PICTURE_TYPE_I, key_frame := 1 } }

/-- State left by `mpff_encode_frame`: return value, context, packet and
`*got_packet`. -/
structure EncodeResult where
  ret : Int
  avctx : AVCodecContext
  pkt : AVPacket
  got_packet : Int

/-- Model of `mpff_encode_frame` (mpffenc.c 40-124).  `ff_alloc_packet2` is the
external packet allocator: it returns its status and the packet it set
up. -/
def mpff_encode_frame (ff_alloc_packet2 : AVCodecContext → AVPacket → Int → Int × AVPacket)
    (avctx : AVCodecContext) (pkt : AVPacket) (pict : AVFrame) (got_packet : Int) :
    EncodeResult :=
  let depth := avctx.bits_per_coded_sample
  let avctx := mpff_encode_props avctx
  let sz := mpff_encode_sizes avctx
  let alloc := ff_alloc_packet2 avctx pkt sz.file_size
  let output_size := alloc.1
  let pkt := alloc.2
  if output_size < 0 then
    { ret := output_size, avctx := avctx, pkt := pkt, got_packet := got_packet }
  else
    let b := mpff_encode_header pkt.data sz avctx.width avctx.height depth
    let b := mpff_encode_rows pict.data pict.linesize sz.image_row_size sz.padding_row_size
      avctx.height.toNat b sz.header_size 0
    { ret := 0
      avctx := avctx
      pkt := { pkt with data := b, flags := pkt.flags ||| AV_PKT_FLAG_KEY }
      got_packet := 1 }

/-! ## Decoder (mpffdec.c) -/

/-- The `av_log` calls of `mpff_decode_frame`, with their arguments. -/
inductive LogEvent where
  | buffer_size_too_small (buffer_size : Int)
  | incorrect_magic_number
  | expected_more_data (buffer_size file_size : Int)
  | invalid_header_size (header_size : Int)
  | file_size_less_than_header (file_size header_size : Int)
  deriving DecidableEq

/-- Locals `file_size`, `header_size`, `info_header_size` as they stand once
the error-checking block of `mpff_decode_frame` has been passed. -/
structure DecHeader where
  file_size : Int
  header_size : Int
  info_header_size : Int
  deriving DecidableEq

/-- Local `file_size` of `mpff_decode_frame` after the "Checking buffer vs.
file size" step (mpffdec.c 54-62).  The comparison converts the `int`
`buffer_size` to `unsigned int`. -/
def mpff_decode_clamped_file_size (avpkt : AVPacket) : Int :=
  let buffer_size := avpkt.size
  let file_size := bytestream_get_le32 avpkt.data 4
  if toUInt32 buffer_size < file_size then toUInt32 buffer_size else file_size

/-- Local `file_size` of `mpff_decode_frame` after the "set a real size" step
(mpffdec.c 78-79); `info_header_size + 12` is `unsigned int` arithmetic. -/
def mpff_decode_file_size (avpkt : AVPacket) : Int :=
  let buffer_size := avpkt.size
  let file_size := mpff_decode_clamped_file_size avpkt
  let info_header_size := bytestream_get_le32 avpkt.data 12
  if file_size = 12 ∨ file_size = toUInt32 (info_header_size + 12) then
    toUInt32 (buffer_size - 2)
  else file_size

/-- The "Error checking" block of `mpff_decode_frame` (mpffdec.c 36-89): the
messages logged, and either the returned error code or the three size
locals.  The magic test is a short-circuit `||`; the header-size test is
done in `long long`, so it does not wrap. -/
def mpff_decode_header (avpkt : AVPacket) : List LogEvent × Except Int DecHeader :=
  let buffer := avpkt.data
  let buffer_size := avpkt.size
  if buffer_size < 12 then
    ([LogEvent.buffer_size_too_small buffer_size], Except.error AVERROR_INVALIDDATA)
  else if bytestream_get_byte buffer 0 ≠ 77 ∨ bytestream_get_byte buffer 1 ≠ 80 ∨
      bytestream_get_byte buffer 2 ≠ 70 ∨ bytestream_get_byte buffer 3 ≠ 70 then
    ([LogEvent.incorrect_magic_number], Except.error AVERROR_INVALIDDATA)
  else
    let file_size := bytestream_get_le32 buffer 4
    let log :=
      if toUInt32 buffer_size < file_size then
        [LogEvent.expected_more_data buffer_size file_size]
      else []
    let header_size := bytestream_get_le32 buffer 8
    let info_header_size := bytestream_get_le32 buffer 12
    if info_header_size + 12 > header_size then
      (log ++ [LogEvent.invalid_header_size header_size], Except.error AVERROR_INVALIDDATA)
    else
      let file_size := mpff_decode_file_size avpkt
      if file_size ≤ header_size then
        (log ++ [LogEvent.file_size_less_than_header file_size header_size],
          Except.error AVERROR_INVALIDDATA)
      else
        (log, Except.ok
          { file_size := file_size, header_size := header_size,
            info_header_size := info_header_size })

/-- The row loop of `mpff_decode_frame` (mpffdec.c 123-135), `n` iterations
left; `image_array` and `buffer` are the two cursors. -/
def mpff_decode_rows (src : Mem) (linesize buffer_linesize : Int) :
    Nat → Mem → Int → Int → Mem
  | 0, img, _, _ => img
  | n + 1, img, image_array, buffer =>
    let img := memcpy img image_array src buffer (toSizeT buffer_linesize)
    let buffer := buffer + buffer_linesize
    let image_array := image_array + linesize
    mpff_decode_rows src linesize buffer_linesize n img image_array buffer

/-- The on-wire line size computed by the decoder (mpffdec.c 114), in
`unsigned int` arithmetic because `depth` is unsigned, then stored in an
`int`. -/
def mpff_decode_linesize (width depth : Int) : Int :=
  toInt32 (uand32 (toUInt32 (toUInt32 (toUInt32 width * depth) + 31) / 8) (not32 3))

/-- The "Get dimensions of image" and "Set up raw image dimensions" steps of
`mpff_decode_frame` (mpffdec.c 91-99): `width` and `height` are the 32-bit
fields at offsets 16 and 20 converted to `int`; the context receives the
width, the height made positive by negation, and the pixel format. -/
def mpff_decode_dims (avctx : AVCodecContext) (avpkt : AVPacket) : AVCodecContext :=
  let buffer := avpkt.data
  let width := toInt32 (bytestream_get_le32 buffer 16)
  let height := toInt32 (bytestream_get_le32 buffer 20)
  { avctx with
    width := width
    height := if height > 0 then height else toInt32 (-height)
    pix_fmt := AVPixelFormat.AV_PIX_FMT_RGB8 }

/-- State left by `mpff_decode_frame`: return value, context, the frame
behind `data`, `*got_frame`, and the messages logged. -/
structure DecodeResult where
  ret : Int
  avctx : AVCodecContext
  picture : AVFrame
  got_frame : Int
  log : List LogEvent

/-- Model of `mpff_decode_frame` (mpffdec.c 21-141).  `ff_get_buffer` is the
external frame allocator: it returns its status and the frame it set up. -/
def mpff_decode_frame (ff_get_buffer : AVCodecContext → AVFrame → Int × AVFrame)
    (avctx : AVCodecContext) (data : AVFrame) (got_frame : Int) (avpkt : AVPacket) :
    DecodeResult :=
  match mpff_decode_header avpkt with
  | (log, Except.error e) =>
    { ret := e, avctx := avctx, picture := data, got_frame := got_frame, log := log }
  | (log, Except.ok hdr) =>
    let buffer := avpkt.data
    let buffer_size := avpkt.size
    let depth := bytestream_get_le16 buffer 24
    let avctx := mpff_decode_dims avctx avpkt
    let gb := ff_get_buffer avctx data
    let ret := gb.1
    let picture := gb.2
    if ret < 0 then
      { ret := ret, avctx := avctx, picture := picture, got_frame := got_frame, log := log }
    else
      let picture := { picture with
        pict_type := AVPictureType.AV_PICTURE_TYPE_I, key_frame := 1 }
      let buffer_linesize := mpff_decode_linesize avctx.width depth
      let img := mpff_decode_rows buffer picture.linesize buffer_linesize
        avctx.height.toNat picture.data 0 hdr.header_size
      { ret := buffer_size
        avctx := avctx
        picture := { picture with data := img }
        got_frame := 1
        log := log }

/-- The source ranges `(offset, length)` handed to `memcpy` by the row loop of
`mpff_decode_frame` (mpffdec.c 123-135), `n` iterations left; `buffer` is the
read cursor. -/
def mpff_decode_row_reads (buffer_linesize : Int) : Nat → Int → List (Int × Int)
  | 0, _ => []
  | n + 1, buffer =>
    (buffer, toSizeT buffer_linesize)
      :: mpff_decode_row_reads buffer_linesize n (buffer + buffer_linesize)

/-- The input ranges read by the row loop of a call of `mpff_decode_frame`
that reaches it: the cursor starts at `buffer_start + header_size`. -/
def mpff_decode_reads (avctx : AVCodecContext) (avpkt : AVPacket) : List (Int × Int) :=
  let buffer := avpkt.data
  let header_size := bytestream_get_le32 buffer 8
  let depth := bytestream_get_le16 buffer 24
  let avctx := mpff_decode_dims avctx avpkt
  mpff_decode_row_reads (mpff_decode_linesize avctx.width depth) avctx.height.toNat
    header_size

/-- The first `n` bytes behind a pointer, as a list. -/
def bytes (m : Mem) (n : Nat) : List Byte :=
  List.map (fun (i : Nat) => m (i : Int)) (List.range n)

/-! ## Wire format, collaborator contracts -/

/-- The four bytes of a 32-bit value, least significant byte first. -/
def le32 (v : Int) : List Byte :=
  [toByte v, toByte (v / 256), toByte (v / 65536), toByte (v / 16777216)]

/-- The two bytes of a 16-bit value, least significant byte first. -/
def le16 (v : Int) : List Byte := [toByte v, toByte (v / 256)]

/-- The 26 header bytes of the wire format as the specification lays them
out: magic "MPFF", then `file_size`, `header_size`, `info_header_size`,
`width`, `height` as little-endian 32-bit fields and `depth` as a
little-endian 16-bit field. -/
def wire_header (file_size header_size info_header_size width height depth : Int) :
    List Byte :=
  [77, 80, 70, 70] ++ le32 file_size ++ le32 header_size ++ le32 info_header_size
    ++ le32 width ++ le32 height ++ le16 depth

/-- The four magic bytes "MPFF" at the start of the packet. -/
def MagicOk (avpkt : AVPacket) : Prop :=
  avpkt.data 0 = 77 ∧ avpkt.data 1 = 80 ∧ avpkt.data 2 = 70 ∧ avpkt.data 3 = 70

instance (avpkt : AVPacket) : Decidable (MagicOk avpkt) := by
  unfold MagicOk; infer_instance

deriving instance DecidableEq for Except

/-- Contract of a successful `ff_alloc_packet2(avctx, pkt, size)`: a
non-negative status and a packet whose `size` field is the requested size. -/
def AllocGrants (alloc : AVCodecContext → AVPacket → Int → Int × AVPacket) (size : Int) :
    Prop :=
  ∀ c p, 0 ≤ (alloc c p size).1 ∧ (alloc c p size).2.size = size

/-- Contract of a successful `ff_get_buffer` for a `w` x `h` frame: a
non-negative status and a frame whose line size is at least the width. -/
def GetBufferGrants (gb : AVCodecContext → AVFrame → Int × AVFrame) (w h : Int) : Prop :=
  ∀ c f, c.width = w → c.height = h → 0 ≤ (gb c f).1 ∧ w ≤ (gb c f).2.linesize

/-- An input index is read when it lies in one of the ranges. -/
def IsRead (reads : List (Int × Int)) (i : Int) : Prop :=
  ∃ p ∈ reads, p.1 ≤ i ∧ i < p.1 + p.2

instance (reads : List (Int × Int)) (i : Int) : Decidable (IsRead reads i) := by
  unfold IsRead; infer_instance

/-- The `align_up_to_4` of the specification: the least multiple of 4 that is
not below `x`. -/
def align_up_to_4 (x : Int) : Int := (x + 3) / 4 * 4

/-- The `pixelsPerRowStride` of the specification,
`align_up_to_4(ceil(width * depth / 8))`, written from the specification's
words for comparison with `mpff_decode_linesize`. -/
def pixelsPerRowStride (width depth : Int) : Int :=
  align_up_to_4 ⌈((width : ℚ) * (depth : ℚ)) / 8⌉

/-- The two `file_size` adjustments of `mpff_decode_frame` taken in the other
order, for comparison with `mpff_decode_file_size`: the "set a real size"
test is made on the declared `file_size`, and the "Checking buffer vs. file
size" clamp comes afterwards. -/
def file_size_quirk_then_clamp (avpkt : AVPacket) : Int :=
  let buffer_size := avpkt.size
  let file_size := bytestream_get_le32 avpkt.data 4
  let info_header_size := bytestream_get_le32 avpkt.data 12
  let file_size :=
    if file_size = 12 ∨ file_size = toUInt32 (info_header_size + 12) then
      toUInt32 (buffer_size - 2)
    else file_size
  if toUInt32 buffer_size < file_size then toUInt32 buffer_size else file_size

/-! ## Concrete inputs -/

/-- A frame with zeroed pixel memory. -/
def frame0 : AVFrame :=
  { data := fun _ => 0, linesize := 0,
    pict_type := AVPictureType.AV_PICTURE_TYPE_NONE, key_frame := 0 }

/-- An encoder context for a `width` x `height` image at 8 bits per sample. -/
def ctx8 (width height : Int) : AVCodecContext :=
  { width := width, height := height, pix_fmt := AVPixelFormat.AV_PIX_FMT_RGB8,
    bits_per_coded_sample := 8, coded_frame := frame0 }

/-- A packet with zeroed memory. -/
def pkt0 : AVPacket := { data := fun _ => 0, size := 0, flags := 0 }

/-- An allocator that grants every request, leaving the memory behind the
packet as it was. -/
def alloc_any (_ : AVCodecContext) (p : AVPacket) (size : Int) : Int × AVPacket :=
  (0, { p with size := size })

/-- A frame allocator that grants every request with a line size equal to
the width, leaving the pixel memory as it was. -/
def get_buffer_any (c : AVCodecContext) (f : AVFrame) : Int × AVFrame :=
  (0, { f with linesize := c.width })

/-- A packet whose first bytes are the list `l` (zero elsewhere) and whose
declared size is `size`. -/
def packet_of (l : List Byte) (size : Int) : AVPacket :=
  { data := fun i => if 0 ≤ i then l.getD i.toNat 0 else 0, size := size, flags := 0 }

/-- Header bytes declaring `file_size = 26`, `header_size = 26`,
`info_header_size = 14`, for a 4 x 2 image at depth 8. -/
def quirk_header : List Byte :=
  [77, 80, 70, 70, 26, 0, 0, 0, 26, 0, 0, 0, 14, 0, 0, 0,
   4, 0, 0, 0, 2, 0, 0, 0, 8, 0]

/-- Header bytes declaring `file_size = 5000`, `header_size = 26`,
`info_header_size = 14`, for a 4 x 2 image at depth 8. -/
def long_header : List Byte :=
  [77, 80, 70, 70, 136, 19, 0, 0, 26, 0, 0, 0, 14, 0, 0, 0,
   4, 0, 0, 0, 2, 0, 0, 0, 8, 0]

/-- A source frame whose byte at offset `i` is `i mod 256`, with the given
line size. -/
def ramp_frame (linesize : Int) : AVFrame :=
  { data := fun i => toByte i, linesize := linesize,
    pict_type := AVPictureType.AV_PICTURE_TYPE_NONE, key_frame := 0 }

/-- A source frame all of whose bytes are `p`, with line size 1. -/
def solid_frame (p : Byte) : AVFrame :=
  { data := fun _ => p, linesize := 1,
    pict_type := AVPictureType.AV_PICTURE_TYPE_NONE, key_frame := 0 }

/-- Header bytes declaring `file_size = 1024`, `header_size = 26`,
`info_header_size = 4294967295`, for a 4 x 2 image at depth 8. -/
def oversize_header : List Byte :=
  [77, 80, 70, 70, 0, 4, 0, 0, 26, 0, 0, 0, 255, 255, 255, 255,
   4, 0, 0, 0, 2, 0, 0, 0, 8, 0]

/-- A frame allocator that grants every request with line size `s`, leaving
the pixel memory as it was. -/
def get_buffer_stride (s : Int) (_ : AVCodecContext) (f : AVFrame) : Int × AVFrame :=
  (0, { f with linesize := s })

/-- A frame allocator that refuses every request with status `-12`. -/
def get_buffer_none (_ : AVCodecContext) (f : AVFrame) : Int × AVFrame := (-12, f)

/-- Header bytes declaring `file_size = 1000`, `header_size = 26`,
`info_header_size = 14`, for a 4 x 2 image at depth 16. -/
def depth16_header : List Byte :=
  [77, 80, 70, 70, 232, 3, 0, 0, 26, 0, 0, 0, 14, 0, 0, 0,
   4, 0, 0, 0, 2, 0, 0, 0, 16, 0]

/-- Header bytes declaring `file_size = 1000`, `header_size = 26`,
`info_header_size = 14`, width 4, depth 8 and the height field
`0x80000000`. -/
def min_height_header : List Byte :=
  [77, 80, 70, 70, 232, 3, 0, 0, 26, 0, 0, 0, 14, 0, 0, 0,
   4, 0, 0, 0, 0, 0, 0, 128, 8, 0]

/-- Header bytes as `quirk_header`, but declaring `file_size = 1000` and the
height `-2`. -/
def neg_height_header : List Byte :=
  [77, 80, 70, 70, 232, 3, 0, 0, 26, 0, 0, 0, 14, 0, 0, 0,
   4, 0, 0, 0, 254, 255, 255, 255, 8, 0]

/-- A complete 30-byte file: the header of a 1 x 1 image at depth 8, the
pixel 200 and the padding bytes 1, 2, 3. -/
def padded_image : List Byte :=
  [77, 80, 70, 70, 30, 0, 0, 0, 26, 0, 0, 0, 14, 0, 0, 0,
   1, 0, 0, 0, 1, 0, 0, 0, 8, 0, 200, 1, 2, 3]

/-- Sixteen bytes declaring `file_size = 16`, `header_size = 12` and
`info_header_size = 0`. -/
def short_header : List Byte :=
  [77, 80, 70, 70, 16, 0, 0, 0, 12, 0, 0, 0, 0, 0, 0, 0]

/-- Header bytes as `quirk_header` with `file_size = 1000`,
`header_size = 40` and `info_header_size = 28`. -/
def wide_info_header : List Byte :=
  [77, 80, 70, 70, 232, 3, 0, 0, 40, 0, 0, 0, 28, 0, 0, 0,
   4, 0, 0, 0, 2, 0, 0, 0, 8, 0]

/-- A packet with its `info_header_size` field (offsets 12..15) overwritten
by the little-endian bytes of `v`. -/
def with_info_header_size (p : AVPacket) (v : Int) : AVPacket :=
  { p with data := bytestream_put_le32 p.data 12 v }

/-- A source frame all of whose bytes are `p`, with the given line size. -/
def flat_frame (p : Byte) (linesize : Int) : AVFrame :=
  { data := fun _ => p, linesize := linesize,
    pict_type := AVPictureType.AV_PICTURE_TYPE_NONE, key_frame := 0 }

/-- Bytes of a file declaring `file_size = 1000`, `header_size = 26`,
`info_header_size = 14`, width `0x20000000`, height 1 and depth 8, with the
first pixel byte 11. -/
def wide_image : List Byte :=
  [77, 80, 70, 70, 232, 3, 0, 0, 26, 0, 0, 0, 14, 0, 0, 0,
   0, 0, 0, 32, 1, 0, 0, 0, 8, 0, 11]

/-! ## Arithmetic of the wrap and bit operations -/

theorem toInt32_of_range (x : Int) (h0 : -2147483648 ≤ x) (h1 : x ≤ 2147483647) :
    toInt32 x = x := by
  unfold toInt32; omega

theorem toUInt32_of_range (x : Int) (h0 : 0 ≤ x) (h1 : x < 4294967296) :
    toUInt32 x = x := by
  unfold toUInt32; omega

theorem toSizeT_of_range (x : Int) (h0 : 0 ≤ x) (h1 : x < 4294967296) :
    toSizeT x = x := by
  unfold toSizeT; omega

theorem land_three (n : Nat) : Nat.land n 3 = n % 4 :=
  Nat.and_pow_two_sub_one_eq_mod n 2

theorem and32_three (a : Int) : and32 a 3 = a % 4 := by
  unfold and32
  have h3 : (toUInt32 3).toNat = 3 := by decide
  rw [h3, land_three]
  unfold toUInt32 toInt32
  omega

theorem land_mask (n : Nat) (h : n < 4294967296) :
    Nat.land n 4294967292 = 4 * (n / 4) := by
  show n &&& 4294967292 = 4 * (n / 4)
  apply Nat.eq_of_testBit_eq
  intro i
  have e1 : (4294967292 : Nat) = 2 ^ 2 * (2 ^ 30 - 1) := by norm_num
  have e2 : (4 : Nat) = 2 ^ 2 := by norm_num
  rw [Nat.testBit_and, e1, e2, Nat.testBit_mul_pow_two, Nat.testBit_mul_pow_two,
    Nat.testBit_two_pow_sub_one]
  by_cases h2 : 2 ≤ i
  · by_cases h32 : i < 32
    · have : i - 2 < 30 := by omega
      have e3 : n / 2 ^ 2 = n >>> 2 := (Nat.shiftRight_eq_div_pow n 2).symm
      rw [e3, Nat.testBit_shiftRight]
      have : 2 + (i - 2) = i := by omega
      simp [*]
    · have hn : n.testBit i = false := by
        apply Nat.testBit_lt_two_pow
        calc n < 2 ^ 32 := by simpa using h
          _ ≤ 2 ^ i := Nat.pow_le_pow_right (by norm_num) (by omega)
      have hm : (n / 2 ^ 2).testBit (i - 2) = false := by
        apply Nat.testBit_lt_two_pow
        have : n / 2 ^ 2 < 2 ^ 30 := by
          have : n < 2 ^ 32 := by simpa using h
          omega
        calc n / 2 ^ 2 < 2 ^ 30 := this
          _ ≤ 2 ^ (i - 2) := Nat.pow_le_pow_right (by norm_num) (by omega)
      have hm2 : (n / 4).testBit (i - 2) = false := by simpa using hm
      simp [hn, hm2]
  · simp [h2]

theorem uand32_not_three (x : Int) (h0 : 0 ≤ x) (h1 : x < 4294967296) :
    uand32 x (not32 3) = 4 * (x / 4) := by
  unfold uand32
  have hm : (toUInt32 (not32 3)).toNat = 4294967292 := by decide
  have hx : (toUInt32 x).toNat < 4294967296 := by unfold toUInt32; omega
  rw [hm, land_mask _ hx]
  unfold toUInt32
  omega

/-- The decoder's line size is the bit count of a row (reduced modulo 2^32)
rounded up to whole bytes and then up to a multiple of four. -/
theorem decode_linesize_eq (width depth : Int) :
    mpff_decode_linesize width depth
      = 4 * ((toUInt32 (toUInt32 (toUInt32 width * depth) + 31) / 8) / 4) := by
  unfold mpff_decode_linesize
  have hb : 0 ≤ toUInt32 (toUInt32 (toUInt32 width * depth) + 31) / 8 ∧
      toUInt32 (toUInt32 (toUInt32 width * depth) + 31) / 8 < 536870912 := by
    generalize toUInt32 (toUInt32 width * depth) + 31 = y
    unfold toUInt32; omega
  rw [uand32_not_three _ hb.1 (by omega)]
  generalize toUInt32 (toUInt32 (toUInt32 width * depth) + 31) / 8 = z at hb ⊢
  unfold toInt32; omega

theorem decode_linesize_depth8 (w : Int) (h0 : 0 ≤ w) (h1 : w * 8 + 31 < 4294967296) :
    mpff_decode_linesize w 8 = 4 * ((w + 3) / 4) := by
  rw [decode_linesize_eq]
  unfold toUInt32; omega

/-- The sizes of the encoder at depth 8, for a width that is an `int`. -/
theorem encode_sizes_depth8 (avctx : AVCodecContext)
    (hd : avctx.bits_per_coded_sample = 8)
    (h0 : -2147483648 ≤ avctx.width) (h1 : avctx.width ≤ 2147483647) :
    (mpff_encode_sizes avctx).image_row_size = avctx.width ∧
    (mpff_encode_sizes avctx).padding_row_size = (4 - avctx.width) % 4 ∧
    (mpff_encode_sizes avctx).header_size = 26 := by
  simp only [mpff_encode_sizes, hd, and32_three]
  unfold toInt32
  omega

/-! ## Bytes and little-endian fields -/

theorem toByte_val (x : Int) : (((toByte x).val : Nat) : Int) = x % 256 := by
  unfold toByte
  simp only
  omega

theorem byte_val_bounds (b : Byte) : 0 ≤ ((b.val : Nat) : Int) ∧ ((b.val : Nat) : Int) < 256 := by
  have := b.isLt
  omega

theorem get_le32_bounds (m : Mem) (p : Int) :
    0 ≤ bytestream_get_le32 m p ∧ bytestream_get_le32 m p < 4294967296 := by
  unfold bytestream_get_le32
  have h0 := byte_val_bounds (m p)
  have h1 := byte_val_bounds (m (p + 1))
  have h2 := byte_val_bounds (m (p + 2))
  have h3 := byte_val_bounds (m (p + 3))
  omega

/-- Reading back a little-endian 32-bit field from the four bytes that encode it. -/
theorem get_le32_of_bytes (m : Mem) (p v : Int) (hv0 : 0 ≤ v) (hv1 : v < 4294967296)
    (h0 : m p = toByte v) (h1 : m (p + 1) = toByte (v / 256))
    (h2 : m (p + 2) = toByte (v / 65536)) (h3 : m (p + 3) = toByte (v / 16777216)) :
    bytestream_get_le32 m p = v := by
  unfold bytestream_get_le32
  rw [h0, h1, h2, h3, toByte_val, toByte_val, toByte_val, toByte_val]
  omega

theorem get_le16_of_bytes (m : Mem) (p v : Int) (hv0 : 0 ≤ v) (hv1 : v < 65536)
    (h0 : m p = toByte v) (h1 : m (p + 1) = toByte (v / 256)) :
    bytestream_get_le16 m p = v := by
  unfold bytestream_get_le16
  rw [h0, h1, toByte_val, toByte_val]
  omega

/-! ## The row loops -/

theorem encode_rows_below (src : Mem) (ls irs prs : Int)
    (hi0 : 0 ≤ irs) (hi1 : irs < 4294967296) (hp0 : 0 ≤ prs) (hp1 : prs < 4294967296)
    (n : Nat) : ∀ (out : Mem) (buffer image_data j : Int), j < buffer →
      mpff_encode_rows src ls irs prs n out buffer image_data j = out j := by
  induction n with
  | zero => intro out buffer image_data j _; rfl
  | succ n ih =>
    intro out buffer image_data j hj
    simp only [mpff_encode_rows]
    rw [ih _ _ _ _ (by omega)]
    simp only [memset, memcpy, toSizeT_of_range _ hi0 hi1, toSizeT_of_range _ hp0 hp1]
    rw [if_neg (by omega), if_neg (by omega)]

theorem encode_rows_above (src : Mem) (ls irs prs : Int)
    (hi0 : 0 ≤ irs) (hi1 : irs < 4294967296) (hp0 : 0 ≤ prs) (hp1 : prs < 4294967296)
    (n : Nat) : ∀ (out : Mem) (buffer image_data j : Int),
      buffer + (n : Int) * (irs + prs) ≤ j →
      mpff_encode_rows src ls irs prs n out buffer image_data j = out j := by
  induction n with
  | zero => intro out buffer image_data j _; rfl
  | succ n ih =>
    intro out buffer image_data j hj
    have hn : (0 : Int) ≤ (n : Int) * (irs + prs) :=
      Int.mul_nonneg (Int.ofNat_nonneg n) (by omega)
    have hj2 : buffer + irs + prs + (n : Int) * (irs + prs) ≤ j := by
      have e : ((n + 1 : Nat) : Int) * (irs + prs) = (n : Int) * (irs + prs) + (irs + prs) := by
        push_cast; ring
      omega
    simp only [mpff_encode_rows]
    rw [ih _ _ _ _ hj2]
    simp only [memset, memcpy, toSizeT_of_range _ hi0 hi1, toSizeT_of_range _ hp0 hp1]
    rw [if_neg (by omega), if_neg (by omega)]

theorem encode_rows_pixel (src : Mem) (ls irs prs : Int)
    (hi0 : 0 ≤ irs) (hi1 : irs < 4294967296) (hp0 : 0 ≤ prs) (hp1 : prs < 4294967296)
    (n : Nat) : ∀ (out : Mem) (buffer image_data : Int) (r : Nat) (c : Int),
      r < n → 0 ≤ c → c < irs →
      mpff_encode_rows src ls irs prs n out buffer image_data
          (buffer + (r : Int) * (irs + prs) + c)
        = src (image_data + (r : Int) * ls + c) := by
  induction n with
  | zero => intro out buffer image_data r c hr; omega
  | succ n ih =>
    intro out buffer image_data r c hr hc0 hc1
    simp only [mpff_encode_rows]
    cases r with
    | zero =>
      rw [encode_rows_below src ls irs prs hi0 hi1 hp0 hp1 n _ _ _ _ (by simp; omega)]
      simp only [memset, memcpy, toSizeT_of_range _ hi0 hi1, toSizeT_of_range _ hp0 hp1]
      rw [if_neg (by simp; omega), if_pos (by simp; omega)]
      congr 1
      simp
    | succ r =>
      have e1 : buffer + ((r + 1 : Nat) : Int) * (irs + prs) + c
          = (buffer + irs + prs) + (r : Int) * (irs + prs) + c := by push_cast; ring
      have e2 : image_data + ((r + 1 : Nat) : Int) * ls + c
          = (image_data + ls) + (r : Int) * ls + c := by push_cast; ring
      rw [e1, e2]
      exact ih _ _ _ r c (by omega) hc0 hc1

theorem encode_rows_padding (src : Mem) (ls irs prs : Int)
    (hi0 : 0 ≤ irs) (hi1 : irs < 4294967296) (hp0 : 0 ≤ prs) (hp1 : prs < 4294967296)
    (n : Nat) : ∀ (out : Mem) (buffer image_data : Int) (r : Nat) (c : Int),
      r < n → irs ≤ c → c < irs + prs →
      mpff_encode_rows src ls irs prs n out buffer image_data
          (buffer + (r : Int) * (irs + prs) + c)
        = 0 := by
  induction n with
  | zero => intro out buffer image_data r c hr; omega
  | succ n ih =>
    intro out buffer image_data r c hr hc0 hc1
    simp only [mpff_encode_rows]
    cases r with
    | zero =>
      rw [encode_rows_below src ls irs prs hi0 hi1 hp0 hp1 n _ _ _ _ (by simp; omega)]
      simp only [memset, memcpy, toSizeT_of_range _ hi0 hi1, toSizeT_of_range _ hp0 hp1]
      rw [if_pos (by simp; omega)]
      rfl
    | succ r =>
      have e1 : buffer + ((r + 1 : Nat) : Int) * (irs + prs) + c
          = (buffer + irs + prs) + (r : Int) * (irs + prs) + c := by push_cast; ring
      rw [e1]
      exact ih _ _ _ r c (by omega) hc0 hc1

theorem decode_rows_below (src : Mem) (ls bls : Int)
    (hl : 0 ≤ ls) (hb0 : 0 ≤ bls) (hb1 : bls < 4294967296)
    (n : Nat) : ∀ (img : Mem) (image_array buffer j : Int), j < image_array →
      mpff_decode_rows src ls bls n img image_array buffer j = img j := by
  induction n with
  | zero => intro img image_array buffer j _; rfl
  | succ n ih =>
    intro img image_array buffer j hj
    simp only [mpff_decode_rows]
    rw [ih _ _ _ _ (by omega)]
    simp only [memcpy, toSizeT_of_range _ hb0 hb1]
    rw [if_neg (by omega)]

theorem decode_rows_pixel (src : Mem) (ls bls : Int)
    (hl : 0 ≤ ls) (hb0 : 0 ≤ bls) (hb1 : bls < 4294967296)
    (n : Nat) : ∀ (img : Mem) (image_array buffer : Int) (r : Nat) (c : Int),
      r < n → 0 ≤ c → c < bls → c < ls →
      mpff_decode_rows src ls bls n img image_array buffer
          (image_array + (r : Int) * ls + c)
        = src (buffer + (r : Int) * bls + c) := by
  induction n with
  | zero => intro img image_array buffer r c hr; omega
  | succ n ih =>
    intro img image_array buffer r c hr hc0 hc1 hc2
    simp only [mpff_decode_rows]
    cases r with
    | zero =>
      rw [decode_rows_below src ls bls hl hb0 hb1 n _ _ _ _ (by simp; omega)]
      simp only [memcpy, toSizeT_of_range _ hb0 hb1]
      rw [if_pos (by simp; omega)]
      congr 1
      simp
    | succ r =>
      have e1 : image_array + ((r + 1 : Nat) : Int) * ls + c
          = (image_array + ls) + (r : Int) * ls + c := by push_cast; ring
      have e2 : buffer + ((r + 1 : Nat) : Int) * bls + c
          = (buffer + bls) + (r : Int) * bls + c := by push_cast; ring
      rw [e1, e2]
      exact ih _ _ _ r c (by omega) hc0 hc1 hc2

/-! ## The encoder: header and result state -/

theorem encode_header_bytes (b : Mem) (sz : EncSizes) (width height depth : Int) :
    bytes (mpff_encode_header b sz width height depth) 26 =
      [77, 80, 70, 70,
       toByte (toUInt32 sz.file_size), toByte (toUInt32 sz.file_size / 256),
       toByte (toUInt32 sz.file_size / 65536), toByte (toUInt32 sz.file_size / 16777216),
       toByte (toUInt32 sz.header_size), toByte (toUInt32 sz.header_size / 256),
       toByte (toUInt32 sz.header_size / 65536), toByte (toUInt32 sz.header_size / 16777216),
       toByte (toUInt32 sz.info_header_size), toByte (toUInt32 sz.info_header_size / 256),
       toByte (toUInt32 sz.info_header_size / 65536),
       toByte (toUInt32 sz.info_header_size / 16777216),
       toByte (toUInt32 width), toByte (toUInt32 width / 256),
       toByte (toUInt32 width / 65536), toByte (toUInt32 width / 16777216),
       toByte (toUInt32 height), toByte (toUInt32 height / 256),
       toByte (toUInt32 height / 65536), toByte (toUInt32 height / 16777216),
       toByte (toUInt32 depth), toByte (toUInt32 depth / 256)] := by
  simp [bytes, List.range_succ, mpff_encode_header, bytestream_put_byte, bytestream_put_le32,
    bytestream_put_le16, store]
  decide

theorem encode_header_frame (b : Mem) (sz : EncSizes) (width height depth : Int) (j : Int)
    (hj : j < 0 ∨ 26 ≤ j) :
    mpff_encode_header b sz width height depth j = b j := by
  simp only [mpff_encode_header, bytestream_put_byte, bytestream_put_le32,
    bytestream_put_le16, store]
  repeat rw [if_neg (by omega)]

theorem encode_sizes_file_size (avctx : AVCodecContext) :
    (mpff_encode_sizes avctx).file_size
      = toInt32 (toInt32 (avctx.height * toInt32 ((mpff_encode_sizes avctx).image_row_size
          + (mpff_encode_sizes avctx).padding_row_size))
          + (mpff_encode_sizes avctx).header_size) := rfl

theorem bytes_length (m : Mem) (n : Nat) : (bytes m n).length = n := by
  simp [bytes]

theorem bytes_congr (m k : Mem) (n : Nat) (h : ∀ j : Int, 0 ≤ j → j < n → m j = k j) :
    bytes m n = bytes k n := by
  unfold bytes
  apply List.map_congr_left
  intro i hi
  have := List.mem_range.mp hi
  exact h i (by omega) (by omega)

theorem encode_props_fields (avctx : AVCodecContext) :
    (mpff_encode_props avctx).width = avctx.width ∧
    (mpff_encode_props avctx).height = avctx.height ∧
    (mpff_encode_props avctx).bits_per_coded_sample = avctx.bits_per_coded_sample ∧
    mpff_encode_sizes (mpff_encode_props avctx) = mpff_encode_sizes avctx :=
  ⟨rfl, rfl, rfl, rfl⟩

/-- The state returned by the encoder when the allocation succeeds. -/
theorem encode_frame_ok
    (alloc : AVCodecContext → AVPacket → Int → Int × AVPacket)
    (avctx : AVCodecContext) (pkt : AVPacket) (pict : AVFrame) (gp : Int)
    (h : 0 ≤ (alloc (mpff_encode_props avctx) pkt (mpff_encode_sizes avctx).file_size).1) :
    mpff_encode_frame alloc avctx pkt pict gp =
      { ret := 0
        avctx := mpff_encode_props avctx
        pkt :=
          { data := mpff_encode_rows pict.data pict.linesize
              (mpff_encode_sizes avctx).image_row_size
              (mpff_encode_sizes avctx).padding_row_size avctx.height.toNat
              (mpff_encode_header
                (alloc (mpff_encode_props avctx) pkt (mpff_encode_sizes avctx).file_size).2.data
                (mpff_encode_sizes avctx) avctx.width avctx.height
                avctx.bits_per_coded_sample)
              (mpff_encode_sizes avctx).header_size 0
            size :=
              (alloc (mpff_encode_props avctx) pkt (mpff_encode_sizes avctx).file_size).2.size
            flags :=
              (alloc (mpff_encode_props avctx) pkt (mpff_encode_sizes avctx).file_size).2.flags
                ||| AV_PKT_FLAG_KEY }
        got_packet := 1 } := by
  simp only [mpff_encode_frame, (encode_props_fields avctx).2.2.2]
  rw [if_neg (by omega)]
  rfl

theorem padding_bounds (avctx : AVCodecContext) :
    0 ≤ (mpff_encode_sizes avctx).padding_row_size ∧
    (mpff_encode_sizes avctx).padding_row_size ≤ 3 := by
  simp only [mpff_encode_sizes, and32_three]
  omega

theorem encode_header_wire (b : Mem) (avctx : AVCodecContext)
    (hd : avctx.bits_per_coded_sample = 8) :
    bytes (mpff_encode_header b (mpff_encode_sizes avctx) avctx.width avctx.height
        avctx.bits_per_coded_sample) 26
      = wire_header (toUInt32 (mpff_encode_sizes avctx).file_size) 26 14
          (toUInt32 avctx.width) (toUInt32 avctx.height) 8 := by
  rw [encode_header_bytes, hd]
  have e3 : (mpff_encode_sizes avctx).header_size = 26 := by
    simp only [mpff_encode_sizes]; decide
  have e4 : (mpff_encode_sizes avctx).info_header_size = 14 := rfl
  rw [e3, e4]
  have t1 : toUInt32 26 = 26 := by decide
  have t2 : toUInt32 14 = 14 := by decide
  have t3 : toUInt32 8 = 8 := by decide
  rw [t1, t2, t3]
  rfl

/-- The packet memory returned by a successful encode, below the pixel rows. -/
theorem encode_frame_data_header
    (alloc : AVCodecContext → AVPacket → Int → Int × AVPacket)
    (avctx : AVCodecContext) (pkt : AVPacket) (pict : AVFrame) (gp : Int)
    (hd : avctx.bits_per_coded_sample = 8)
    (hret : 0 ≤ (alloc (mpff_encode_props avctx) pkt (mpff_encode_sizes avctx).file_size).1)
    (hw : (0 ≤ avctx.width ∧ avctx.width ≤ 2147483647) ∨ avctx.height ≤ 0)
    (j : Int) (hj : j < 26) :
    (mpff_encode_frame alloc avctx pkt pict gp).pkt.data j
      = mpff_encode_header
          (alloc (mpff_encode_props avctx) pkt (mpff_encode_sizes avctx).file_size).2.data
          (mpff_encode_sizes avctx) avctx.width avctx.height avctx.bits_per_coded_sample j := by
  rw [encode_frame_ok alloc avctx pkt pict gp hret]
  simp only
  rcases hw with hw | hh
  · obtain ⟨e1, e2, e3⟩ := encode_sizes_depth8 avctx hd (by omega) hw.2
    have hp := padding_bounds avctx
    rw [encode_rows_below _ _ _ _ (by omega) (by omega) hp.1 (by omega) _ _ _ _ _ (by omega)]
  · have : avctx.height.toNat = 0 := by omega
    rw [this]
    rfl

theorem bytes_get (m : Mem) (n k : Nat) (h : k < n) :
    (bytes m n)[k]? = some (m (k : Int)) := by
  simp [bytes, List.getElem?_map, List.getElem?_range h]

theorem bytes_eq_pointwise (m k : Mem) (n : Nat) (h : bytes m n = bytes k n)
    (j : Int) (h0 : 0 ≤ j) (h1 : j < n) : m j = k j := by
  have hj : j.toNat < n := by omega
  have e1 := bytes_get m n j.toNat hj
  have e2 := bytes_get k n j.toNat hj
  rw [h, e2] at e1
  have e3 : ((j.toNat : Nat) : Int) = j := by omega
  rw [e3] at e1
  exact (Option.some.inj e1).symm

/-- Inside the rows region the result of the row loop does not depend on
what the output memory held before. -/
theorem encode_rows_covered (src : Mem) (ls irs prs : Int)
    (hi0 : 0 ≤ irs) (hi1 : irs < 4294967296) (hp0 : 0 ≤ prs) (hp1 : prs < 4294967296)
    (n : Nat) : ∀ (out out2 : Mem) (buffer image_data j : Int),
      buffer ≤ j → j < buffer + (n : Int) * (irs + prs) →
      mpff_encode_rows src ls irs prs n out buffer image_data j
        = mpff_encode_rows src ls irs prs n out2 buffer image_data j := by
  induction n with
  | zero => intro out out2 buffer image_data j h0 h1; simp at h1; omega
  | succ n ih =>
    intro out out2 buffer image_data j h0 h1
    simp only [mpff_encode_rows]
    by_cases hj : j < buffer + irs + prs
    · rw [encode_rows_below src ls irs prs hi0 hi1 hp0 hp1 n _ _ _ _ hj,
        encode_rows_below src ls irs prs hi0 hi1 hp0 hp1 n _ _ _ _ hj]
      have key : ∀ o : Mem,
          memset (memcpy o buffer src image_data (toSizeT irs)) (buffer + irs) 0 (toSizeT prs) j
            = if j < buffer + irs then src (image_data + (j - buffer)) else toByte 0 := by
        intro o
        simp only [memset, memcpy, toSizeT_of_range _ hi0 hi1, toSizeT_of_range _ hp0 hp1]
        split_ifs <;> first | rfl | omega
      rw [key, key]
    · have e : ((n + 1 : Nat) : Int) * (irs + prs) = (n : Int) * (irs + prs) + (irs + prs) := by
        push_cast; ring
      exact ih _ _ _ _ _ (by omega) (by omega)

/-! ## The decoder: checking block and result state -/

theorem get_byte_eq_iff (m : Mem) (p : Int) (v : Byte) (n : Int)
    (hn : ((v.val : Nat) : Int) = n) :
    bytestream_get_byte m p = n ↔ m p = v := by
  unfold bytestream_get_byte
  constructor
  · intro h
    apply Fin.ext
    omega
  · intro h
    rw [h, hn]

theorem magic_test_iff (avpkt : AVPacket) :
    (bytestream_get_byte avpkt.data 0 ≠ 77 ∨ bytestream_get_byte avpkt.data 1 ≠ 80 ∨
      bytestream_get_byte avpkt.data 2 ≠ 70 ∨ bytestream_get_byte avpkt.data 3 ≠ 70)
      ↔ ¬ MagicOk avpkt := by
  have h0 := get_byte_eq_iff avpkt.data 0 77 77 (by decide)
  have h1 := get_byte_eq_iff avpkt.data 1 80 80 (by decide)
  have h2 := get_byte_eq_iff avpkt.data 2 70 70 (by decide)
  have h3 := get_byte_eq_iff avpkt.data 3 70 70 (by decide)
  unfold MagicOk
  rw [← h0, ← h1, ← h2, ← h3]
  tauto

/-- The messages logged by the decoder are those of its checking block. -/
theorem decode_frame_log
    (gb : AVCodecContext → AVFrame → Int × AVFrame)
    (avctx : AVCodecContext) (data : AVFrame) (gf : Int) (avpkt : AVPacket) :
    (mpff_decode_frame gb avctx data gf avpkt).log = (mpff_decode_header avpkt).1 := by
  unfold mpff_decode_frame
  split
  · next log e h => rw [h]
  · next log hdr h =>
    rw [h]
    dsimp only
    split_ifs <;> rfl

/-- An error of the checking block is returned as it is, with every piece of
state left as it was. -/
theorem decode_frame_of_header_error
    (gb : AVCodecContext → AVFrame → Int × AVFrame)
    (avctx : AVCodecContext) (data : AVFrame) (gf : Int) (avpkt : AVPacket)
    (log : List LogEvent) (e : Int)
    (h : mpff_decode_header avpkt = (log, Except.error e)) :
    mpff_decode_frame gb avctx data gf avpkt =
      { ret := e, avctx := avctx, picture := data, got_frame := gf, log := log } := by
  unfold mpff_decode_frame
  rw [h]

/-- The checking block on a packet with wrong magic bytes. -/
theorem decode_header_bad_magic (avpkt : AVPacket) (hsize : 12 ≤ avpkt.size)
    (hmagic : ¬ MagicOk avpkt) :
    mpff_decode_header avpkt
      = ([LogEvent.incorrect_magic_number], Except.error AVERROR_INVALIDDATA) := by
  unfold mpff_decode_header
  simp only
  rw [if_neg (by omega), if_pos ((magic_test_iff avpkt).mpr hmagic)]

/-- The checking block once the size and magic tests are passed. -/
theorem decode_header_after_magic (avpkt : AVPacket) (hsize : 12 ≤ avpkt.size)
    (hmagic : MagicOk avpkt) :
    mpff_decode_header avpkt =
      if bytestream_get_le32 avpkt.data 12 + 12 > bytestream_get_le32 avpkt.data 8 then
        ((if toUInt32 avpkt.size < bytestream_get_le32 avpkt.data 4 then
            [LogEvent.expected_more_data avpkt.size (bytestream_get_le32 avpkt.data 4)]
          else []) ++ [LogEvent.invalid_header_size (bytestream_get_le32 avpkt.data 8)],
          Except.error AVERROR_INVALIDDATA)
      else if mpff_decode_file_size avpkt ≤ bytestream_get_le32 avpkt.data 8 then
        ((if toUInt32 avpkt.size < bytestream_get_le32 avpkt.data 4 then
            [LogEvent.expected_more_data avpkt.size (bytestream_get_le32 avpkt.data 4)]
          else []) ++ [LogEvent.file_size_less_than_header (mpff_decode_file_size avpkt)
            (bytestream_get_le32 avpkt.data 8)],
          Except.error AVERROR_INVALIDDATA)
      else
        ((if toUInt32 avpkt.size < bytestream_get_le32 avpkt.data 4 then
            [LogEvent.expected_more_data avpkt.size (bytestream_get_le32 avpkt.data 4)]
          else []),
          Except.ok
            { file_size := mpff_decode_file_size avpkt
              header_size := bytestream_get_le32 avpkt.data 8
              info_header_size := bytestream_get_le32 avpkt.data 12 }) := by
  unfold mpff_decode_header
  simp only
  rw [if_neg (by omega), if_neg (fun h => (magic_test_iff avpkt).mp h hmagic)]

theorem bytes_succ (m : Mem) (n : Nat) : bytes m (n + 1) = bytes m n ++ [m (n : Int)] := by
  simp [bytes, List.range_succ]

/-- The state returned by the decoder when the checking block is passed and
the frame allocation succeeds. -/
theorem decode_frame_ok
    (gb : AVCodecContext → AVFrame → Int × AVFrame)
    (avctx : AVCodecContext) (data : AVFrame) (gf : Int) (avpkt : AVPacket)
    (log : List LogEvent) (hdr : DecHeader)
    (h : mpff_decode_header avpkt = (log, Except.ok hdr))
    (hret : 0 ≤ (gb (mpff_decode_dims avctx avpkt) data).1) :
    mpff_decode_frame gb avctx data gf avpkt =
      { ret := avpkt.size
        avctx := mpff_decode_dims avctx avpkt
        picture :=
          { data := mpff_decode_rows avpkt.data
              (gb (mpff_decode_dims avctx avpkt) data).2.linesize
              (mpff_decode_linesize (mpff_decode_dims avctx avpkt).width
                (bytestream_get_le16 avpkt.data 24))
              (mpff_decode_dims avctx avpkt).height.toNat
              (gb (mpff_decode_dims avctx avpkt) data).2.data 0 hdr.header_size
            linesize := (gb (mpff_decode_dims avctx avpkt) data).2.linesize
            pict_type := AVPictureType.AV_PICTURE_TYPE_I
            key_frame := 1 }
        got_frame := 1
        log := log } := by
  unfold mpff_decode_frame
  rw [h]
  dsimp only
  rw [if_neg (by omega)]

/-- The fields a reader finds in memory that starts with a wire header. -/
theorem fields_of_wire_header (m : Mem) (fs hs ihs w h d : Int)
    (hfs : 0 ≤ fs ∧ fs < 4294967296) (hhs : 0 ≤ hs ∧ hs < 4294967296)
    (hihs : 0 ≤ ihs ∧ ihs < 4294967296) (hw : 0 ≤ w ∧ w < 4294967296)
    (hh : 0 ≤ h ∧ h < 4294967296) (hd : 0 ≤ d ∧ d < 65536)
    (hb : bytes m 26 = wire_header fs hs ihs w h d) :
    (m 0 = 77 ∧ m 1 = 80 ∧ m 2 = 70 ∧ m 3 = 70) ∧
    bytestream_get_le32 m 4 = fs ∧ bytestream_get_le32 m 8 = hs ∧
    bytestream_get_le32 m 12 = ihs ∧ bytestream_get_le32 m 16 = w ∧
    bytestream_get_le32 m 20 = h ∧ bytestream_get_le16 m 24 = d := by
  have hk : ∀ k : Nat, k < 26 → (wire_header fs hs ihs w h d)[k]? = some (m (k : Int)) :=
    fun k hk => by rw [← hb]; exact bytes_get m 26 k hk
  have g : ∀ (k : Nat) (v : Byte), (wire_header fs hs ihs w h d)[k]? = some v → k < 26 →
      m (k : Int) = v := by
    intro k v hv hlt
    rw [hk k hlt] at hv
    exact Option.some.inj hv
  refine ⟨⟨g 0 77 rfl (by decide), g 1 80 rfl (by decide), g 2 70 rfl (by decide),
    g 3 70 rfl (by decide)⟩, ?_, ?_, ?_, ?_, ?_, ?_⟩
  · exact get_le32_of_bytes m 4 fs hfs.1 hfs.2 (g 4 _ rfl (by decide)) (g 5 _ rfl (by decide))
      (g 6 _ rfl (by decide)) (g 7 _ rfl (by decide))
  · exact get_le32_of_bytes m 8 hs hhs.1 hhs.2 (g 8 _ rfl (by decide)) (g 9 _ rfl (by decide))
      (g 10 _ rfl (by decide)) (g 11 _ rfl (by decide))
  · exact get_le32_of_bytes m 12 ihs hihs.1 hihs.2 (g 12 _ rfl (by decide))
      (g 13 _ rfl (by decide)) (g 14 _ rfl (by decide)) (g 15 _ rfl (by decide))
  · exact get_le32_of_bytes m 16 w hw.1 hw.2 (g 16 _ rfl (by decide))
      (g 17 _ rfl (by decide)) (g 18 _ rfl (by decide)) (g 19 _ rfl (by decide))
  · exact get_le32_of_bytes m 20 h hh.1 hh.2 (g 20 _ rfl (by decide))
      (g 21 _ rfl (by decide)) (g 22 _ rfl (by decide)) (g 23 _ rfl (by decide))
  · exact get_le16_of_bytes m 24 d hd.1 hd.2 (g 24 _ rfl (by decide)) (g 25 _ rfl (by decide))

/-! ## Encoder output as decoder input -/

theorem encode_image_row_size_ceil (avctx : AVCodecContext)
    (hd : avctx.bits_per_coded_sample = 8)
    (hw0 : -2147483648 ≤ avctx.width) (hw1 : avctx.width ≤ 2147483647) :
    (mpff_encode_sizes avctx).image_row_size = ⌈((avctx.width : ℚ) * 8) / 8⌉ := by
  rw [(encode_sizes_depth8 avctx hd hw0 hw1).1]
  have : ((avctx.width : ℚ) * 8) / 8 = ((avctx.width : Int) : ℚ) := by
    field_simp
  rw [this, Int.ceil_intCast]

/-- The file size computed by the encoder when no intermediate size leaves
the range of `int`. -/
theorem encode_file_size_eq (avctx : AVCodecContext)
    (hd : avctx.bits_per_coded_sample = 8)
    (hw0 : 0 ≤ avctx.width) (hw1 : avctx.width ≤ 2147483647)
    (hrow : (mpff_encode_sizes avctx).image_row_size
        + (mpff_encode_sizes avctx).padding_row_size ≤ 2147483647)
    (himg : -2147483648 ≤ avctx.height * ((mpff_encode_sizes avctx).image_row_size
        + (mpff_encode_sizes avctx).padding_row_size))
    (hfile : 26 + avctx.height * ((mpff_encode_sizes avctx).image_row_size
        + (mpff_encode_sizes avctx).padding_row_size) ≤ 2147483647) :
    (mpff_encode_sizes avctx).file_size
      = 26 + avctx.height * ((mpff_encode_sizes avctx).image_row_size
          + (mpff_encode_sizes avctx).padding_row_size) := by
  obtain ⟨e1, e2, e3⟩ := encode_sizes_depth8 avctx hd (by omega) hw1
  have hwire0 : 0 ≤ (mpff_encode_sizes avctx).image_row_size
      + (mpff_encode_sizes avctx).padding_row_size := by
    rw [e1, e2]; omega
  rw [encode_sizes_file_size, e3]
  generalize (mpff_encode_sizes avctx).image_row_size
    + (mpff_encode_sizes avctx).padding_row_size = wire at hrow himg hfile hwire0 ⊢
  rw [toInt32_of_range wire (by omega) hrow,
    toInt32_of_range (avctx.height * wire) himg (by omega),
    toInt32_of_range _ (by omega) (by omega)]
  omega

/-- Pixel bytes in the packet written by a successful encode. -/
theorem encode_frame_pixel_at
    (alloc : AVCodecContext → AVPacket → Int → Int × AVPacket)
    (avctx : AVCodecContext) (pkt : AVPacket) (pict : AVFrame) (gp : Int)
    (hd : avctx.bits_per_coded_sample = 8)
    (hw0 : 0 ≤ avctx.width) (hw1 : avctx.width ≤ 2147483647)
    (hret : 0 ≤ (alloc (mpff_encode_props avctx) pkt (mpff_encode_sizes avctx).file_size).1)
    (r : Nat) (c : Int) (hr : (r : Int) < avctx.height) (hc0 : 0 ≤ c)
    (hc1 : c < (mpff_encode_sizes avctx).image_row_size) :
    (mpff_encode_frame alloc avctx pkt pict gp).pkt.data
        (26 + (r : Int) * ((mpff_encode_sizes avctx).image_row_size
          + (mpff_encode_sizes avctx).padding_row_size) + c)
      = pict.data ((r : Int) * pict.linesize + c) := by
  obtain ⟨e1, e2, e3⟩ := encode_sizes_depth8 avctx hd (by omega) hw1
  have hp := padding_bounds avctx
  rw [encode_frame_ok alloc avctx pkt pict gp hret]
  simp only
  rw [e3]
  have := encode_rows_pixel pict.data pict.linesize _ _
    (show 0 ≤ (mpff_encode_sizes avctx).image_row_size by omega)
    (show (mpff_encode_sizes avctx).image_row_size < 4294967296 by omega) hp.1 (by omega)
    avctx.height.toNat
    (mpff_encode_header
      (alloc (mpff_encode_props avctx) pkt (mpff_encode_sizes avctx).file_size).2.data
      (mpff_encode_sizes avctx) avctx.width avctx.height avctx.bits_per_coded_sample)
    26 0 r c (by omega) hc0 hc1
  rw [this, Int.zero_add]

/-- Padding bytes in the packet written by a successful encode. -/
theorem encode_frame_padding_at
    (alloc : AVCodecContext → AVPacket → Int → Int × AVPacket)
    (avctx : AVCodecContext) (pkt : AVPacket) (pict : AVFrame) (gp : Int)
    (hd : avctx.bits_per_coded_sample = 8)
    (hw0 : 0 ≤ avctx.width) (hw1 : avctx.width ≤ 2147483647)
    (hret : 0 ≤ (alloc (mpff_encode_props avctx) pkt (mpff_encode_sizes avctx).file_size).1)
    (r : Nat) (c : Int) (hr : (r : Int) < avctx.height)
    (hc0 : (mpff_encode_sizes avctx).image_row_size ≤ c)
    (hc1 : c < (mpff_encode_sizes avctx).image_row_size
      + (mpff_encode_sizes avctx).padding_row_size) :
    (mpff_encode_frame alloc avctx pkt pict gp).pkt.data
        (26 + (r : Int) * ((mpff_encode_sizes avctx).image_row_size
          + (mpff_encode_sizes avctx).padding_row_size) + c)
      = 0 := by
  obtain ⟨e1, e2, e3⟩ := encode_sizes_depth8 avctx hd (by omega) hw1
  have hp := padding_bounds avctx
  rw [encode_frame_ok alloc avctx pkt pict gp hret]
  simp only
  rw [e3]
  exact encode_rows_padding pict.data pict.linesize _ _
    (show 0 ≤ (mpff_encode_sizes avctx).image_row_size by omega)
    (show (mpff_encode_sizes avctx).image_row_size < 4294967296 by omega) hp.1 (by omega)
    avctx.height.toNat _ 26 0 r c (by omega) hc0 hc1

/-- The header bytes of the packet written by a successful encode. -/
theorem encode_frame_header_bytes
    (alloc : AVCodecContext → AVPacket → Int → Int × AVPacket)
    (avctx : AVCodecContext) (pkt : AVPacket) (pict : AVFrame) (gp : Int)
    (hd : avctx.bits_per_coded_sample = 8)
    (hret : 0 ≤ (alloc (mpff_encode_props avctx) pkt (mpff_encode_sizes avctx).file_size).1)
    (hw : (0 ≤ avctx.width ∧ avctx.width ≤ 2147483647) ∨ avctx.height ≤ 0) :
    bytes (mpff_encode_frame alloc avctx pkt pict gp).pkt.data 26
      = wire_header (toUInt32 (mpff_encode_sizes avctx).file_size) 26 14
          (toUInt32 avctx.width) (toUInt32 avctx.height) 8 := by
  rw [← encode_header_wire
    (alloc (mpff_encode_props avctx) pkt (mpff_encode_sizes avctx).file_size).2.data avctx hd]
  apply bytes_congr
  intro j _ hj1
  exact encode_frame_data_header alloc avctx pkt pict gp hd hret hw j (by omega)

/-- The packet produced by the encoder passes the decoder's checking block,
and its header fields read back as the dimensions that were encoded. -/
theorem decode_header_of_encode
    (alloc : AVCodecContext → AVPacket → Int → Int × AVPacket)
    (avctx : AVCodecContext) (pkt : AVPacket) (pict : AVFrame) (gp : Int)
    (hd : avctx.bits_per_coded_sample = 8)
    (hw : 0 < avctx.width) (hh : 0 < avctx.height)
    (hw1 : avctx.width ≤ 2147483647)
    (hfile : 26 + avctx.height * ((mpff_encode_sizes avctx).image_row_size
        + (mpff_encode_sizes avctx).padding_row_size) ≤ 2147483647)
    (halloc : AllocGrants alloc (mpff_encode_sizes avctx).file_size) :
    (mpff_encode_frame alloc avctx pkt pict gp).ret = 0 ∧
    (mpff_encode_frame alloc avctx pkt pict gp).pkt.size
      = 26 + avctx.height * ((mpff_encode_sizes avctx).image_row_size
          + (mpff_encode_sizes avctx).padding_row_size) ∧
    mpff_decode_header (mpff_encode_frame alloc avctx pkt pict gp).pkt
      = ([], Except.ok ⟨(mpff_encode_sizes avctx).file_size, 26, 14⟩) ∧
    bytestream_get_le16 (mpff_encode_frame alloc avctx pkt pict gp).pkt.data 24 = 8 ∧
    (∀ dctx : AVCodecContext,
      (mpff_decode_dims dctx (mpff_encode_frame alloc avctx pkt pict gp).pkt).width
        = avctx.width ∧
      (mpff_decode_dims dctx (mpff_encode_frame alloc avctx pkt pict gp).pkt).height
        = avctx.height) := by
  obtain ⟨e1, e2, e3⟩ := encode_sizes_depth8 avctx hd (by omega) (by omega)
  have hp := padding_bounds avctx
  have hret := (halloc (mpff_encode_props avctx) pkt).1
  have hsize := (halloc (mpff_encode_props avctx) pkt).2
  have hwire : (mpff_encode_sizes avctx).image_row_size
      + (mpff_encode_sizes avctx).padding_row_size = 4 * ((avctx.width + 3) / 4) := by
    rw [e1, e2]; omega
  have hwire_pos : 0 < (mpff_encode_sizes avctx).image_row_size
      + (mpff_encode_sizes avctx).padding_row_size := by omega
  have hprod : (mpff_encode_sizes avctx).image_row_size
      + (mpff_encode_sizes avctx).padding_row_size
      ≤ avctx.height * ((mpff_encode_sizes avctx).image_row_size
        + (mpff_encode_sizes avctx).padding_row_size) := by
    nlinarith
  have hfs := encode_file_size_eq avctx hd (by omega) (by omega) (by omega) (by omega) hfile
  have hhmax : avctx.height ≤ 2147483647 := by nlinarith
  -- the encoded packet
  generalize henc : mpff_encode_frame alloc avctx pkt pict gp = enc
  have hencok := encode_frame_ok alloc avctx pkt pict gp hret
  rw [henc] at hencok
  have hesize : enc.pkt.size = (mpff_encode_sizes avctx).file_size := by
    rw [hencok]; exact hsize
  have hhdr := encode_frame_header_bytes alloc avctx pkt pict gp hd hret (Or.inl ⟨by omega, by omega⟩)
  rw [henc] at hhdr
  have hfu : toUInt32 (mpff_encode_sizes avctx).file_size = (mpff_encode_sizes avctx).file_size :=
    toUInt32_of_range _ (by omega) (by omega)
  have hwu : toUInt32 avctx.width = avctx.width := toUInt32_of_range _ (by omega) (by omega)
  have hhu : toUInt32 avctx.height = avctx.height := toUInt32_of_range _ (by omega) (by omega)
  rw [hfu, hwu, hhu] at hhdr
  obtain ⟨hmagic, f4, f8, f12, f16, f20, f24⟩ := fields_of_wire_header enc.pkt.data _ _ _ _ _ _
    (by omega) (by omega) (by omega) (by omega) (by omega) (by omega) hhdr
  -- the checking block
  have hu : toUInt32 enc.pkt.size = enc.pkt.size := toUInt32_of_range _ (by omega) (by omega)
  have hdfs : mpff_decode_file_size enc.pkt = (mpff_encode_sizes avctx).file_size := by
    have t : toUInt32 (14 + 12) = 26 := by decide
    simp only [mpff_decode_file_size, mpff_decode_clamped_file_size, f4, f12]
    rw [hesize, hfu, t]
    split_ifs <;> omega
  have hdh : mpff_decode_header enc.pkt
      = ([], Except.ok ⟨(mpff_encode_sizes avctx).file_size, 26, 14⟩) := by
    rw [decode_header_after_magic enc.pkt (by omega) hmagic, f4, f8, f12, hu, hdfs, hesize]
    rw [if_neg (by omega), if_neg (by omega), if_neg (by omega)]
  refine ⟨congrArg (fun x => x.ret) hencok, hesize.trans hfs, hdh, f24, ?_⟩
  intro dctx
  constructor
  · simp only [mpff_decode_dims, f16]
    exact toInt32_of_range _ (by omega) (by omega)
  · simp only [mpff_decode_dims, f20]
    rw [toInt32_of_range _ (by omega) (by omega), if_pos (by omega)]

theorem decode_linesize_bounds (w d : Int) :
    0 ≤ mpff_decode_linesize w d ∧ mpff_decode_linesize w d < 4294967296 := by
  rw [decode_linesize_eq]
  generalize toUInt32 (toUInt32 w * d) + 31 = y
  unfold toUInt32
  omega

theorem result_picture_linesize (a : Int) (b : AVCodecContext) (d : Mem) (l : Int)
    (t : AVPictureType) (k g : Int) (lg : List LogEvent) :
    (DecodeResult.mk a b (AVFrame.mk d l t k) g lg).picture.linesize = l := rfl

theorem result_picture_data (a : Int) (b : AVCodecContext) (d : Mem) (l : Int)
    (t : AVPictureType) (k g : Int) (lg : List LogEvent) :
    (DecodeResult.mk a b (AVFrame.mk d l t k) g lg).picture.data = d := rfl

/-- Pixels of the frame returned by a successful decode: row `r`, column `c`
of the output holds the input byte at `header_size + r * buffer_linesize + c`,
as long as the column lies inside both line sizes. -/
theorem decode_frame_pixel
    (gb : AVCodecContext → AVFrame → Int × AVFrame)
    (avctx : AVCodecContext) (data : AVFrame) (gf : Int) (avpkt : AVPacket)
    (log : List LogEvent) (hdr : DecHeader) (w h d : Int)
    (hh : mpff_decode_header avpkt = (log, Except.ok hdr))
    (hret : 0 ≤ (gb (mpff_decode_dims avctx avpkt) data).1)
    (hw : (mpff_decode_dims avctx avpkt).width = w)
    (hht : (mpff_decode_dims avctx avpkt).height = h)
    (hd : bytestream_get_le16 avpkt.data 24 = d)
    (hl0 : 0 ≤ (gb (mpff_decode_dims avctx avpkt) data).2.linesize)
    (r : Nat) (c : Int) (hr : (r : Int) < h) (hc0 : 0 ≤ c)
    (hc1 : c < mpff_decode_linesize w d)
    (hc2 : c < (gb (mpff_decode_dims avctx avpkt) data).2.linesize) :
    (mpff_decode_frame gb avctx data gf avpkt).picture.data
        ((r : Int) * (mpff_decode_frame gb avctx data gf avpkt).picture.linesize + c)
      = avpkt.data (hdr.header_size + (r : Int) * mpff_decode_linesize w d + c) := by
  have hdec := decode_frame_ok gb avctx data gf avpkt log hdr hh hret
  have hb := decode_linesize_bounds w d
  generalize mpff_decode_frame gb avctx data gf avpkt = dec at hdec ⊢
  generalize mpff_decode_dims avctx avpkt = D at hret hw hht hl0 hc2 hdec
  generalize gb D data = G at hret hl0 hc2 hdec
  have hls : dec.picture.linesize = G.2.linesize := by
    subst hdec; exact result_picture_linesize _ _ _ _ _ _ _ _
  have hpic : dec.picture.data
      = mpff_decode_rows avpkt.data G.2.linesize
          (mpff_decode_linesize D.width (bytestream_get_le16 avpkt.data 24))
          D.height.toNat G.2.data 0 hdr.header_size := by
    subst hdec; exact result_picture_data _ _ _ _ _ _ _ _
  rw [hw, hht, hd] at hpic
  rw [hls, hpic]
  have htn : r < h.toNat := by omega
  have := decode_rows_pixel avpkt.data G.2.linesize (mpff_decode_linesize w d) hl0 hb.1 hb.2
    h.toNat G.2.data 0 hdr.header_size r c htn hc0 hc1 hc2
  rw [Int.zero_add] at this
  exact this

theorem result_fields (a : Int) (b : AVCodecContext) (d : Mem) (l : Int)
    (t : AVPictureType) (k g : Int) (lg : List LogEvent) :
    (DecodeResult.mk a b (AVFrame.mk d l t k) g lg).ret = a ∧
    (DecodeResult.mk a b (AVFrame.mk d l t k) g lg).avctx = b ∧
    (DecodeResult.mk a b (AVFrame.mk d l t k) g lg).got_frame = g ∧
    (DecodeResult.mk a b (AVFrame.mk d l t k) g lg).log = lg ∧
    (DecodeResult.mk a b (AVFrame.mk d l t k) g lg).picture.pict_type = t ∧
    (DecodeResult.mk a b (AVFrame.mk d l t k) g lg).picture.key_frame = k :=
  ⟨rfl, rfl, rfl, rfl, rfl, rfl⟩

/-- The scalar state left by a successful decode. -/
theorem decode_frame_ok_fields
    (gb : AVCodecContext → AVFrame → Int × AVFrame)
    (avctx : AVCodecContext) (data : AVFrame) (gf : Int) (avpkt : AVPacket)
    (log : List LogEvent) (hdr : DecHeader)
    (hh : mpff_decode_header avpkt = (log, Except.ok hdr))
    (hret : 0 ≤ (gb (mpff_decode_dims avctx avpkt) data).1) :
    (mpff_decode_frame gb avctx data gf avpkt).ret = avpkt.size ∧
    (mpff_decode_frame gb avctx data gf avpkt).avctx = mpff_decode_dims avctx avpkt ∧
    (mpff_decode_frame gb avctx data gf avpkt).got_frame = 1 ∧
    (mpff_decode_frame gb avctx data gf avpkt).log = log ∧
    (mpff_decode_frame gb avctx data gf avpkt).picture.pict_type
      = AVPictureType.AV_PICTURE_TYPE_I ∧
    (mpff_decode_frame gb avctx data gf avpkt).picture.key_frame = 1 := by
  have hdec := decode_frame_ok gb avctx data gf avpkt log hdr hh hret
  generalize mpff_decode_frame gb avctx data gf avpkt = dec at hdec ⊢
  generalize mpff_decode_dims avctx avpkt = D at hret hdec
  generalize gb D data = G at hret hdec
  subst hdec
  exact result_fields _ _ _ _ _ _ _ _

/-- Decoding the packet produced by the encoder: the header is accepted, the
dimensions come back and every pixel is recovered. -/
theorem decode_encode
    (alloc : AVCodecContext → AVPacket → Int → Int × AVPacket)
    (gb : AVCodecContext → AVFrame → Int × AVFrame)
    (avctx : AVCodecContext) (pkt : AVPacket) (pict : AVFrame) (gp : Int)
    (dctx : AVCodecContext) (data : AVFrame) (gf : Int)
    (hd : avctx.bits_per_coded_sample = 8)
    (hw : 0 < avctx.width) (hh : 0 < avctx.height)
    (hbits : avctx.width * 8 + 31 < 4294967296)
    (hfile : 26 + avctx.height * ((mpff_encode_sizes avctx).image_row_size
        + (mpff_encode_sizes avctx).padding_row_size) ≤ 2147483647)
    (halloc : AllocGrants alloc (mpff_encode_sizes avctx).file_size)
    (hgb : GetBufferGrants gb avctx.width avctx.height) :
    (mpff_encode_frame alloc avctx pkt pict gp).ret = 0 ∧
    (mpff_encode_frame alloc avctx pkt pict gp).pkt.size
      = 26 + avctx.height * ((mpff_encode_sizes avctx).image_row_size
          + (mpff_encode_sizes avctx).padding_row_size) ∧
    (mpff_decode_frame gb dctx data gf (mpff_encode_frame alloc avctx pkt pict gp).pkt).ret
      = (mpff_encode_frame alloc avctx pkt pict gp).pkt.size ∧
    (mpff_decode_frame gb dctx data gf
      (mpff_encode_frame alloc avctx pkt pict gp).pkt).got_frame = 1 ∧
    (mpff_decode_frame gb dctx data gf
      (mpff_encode_frame alloc avctx pkt pict gp).pkt).log = [] ∧
    (mpff_decode_frame gb dctx data gf
      (mpff_encode_frame alloc avctx pkt pict gp).pkt).avctx.width = avctx.width ∧
    (mpff_decode_frame gb dctx data gf
      (mpff_encode_frame alloc avctx pkt pict gp).pkt).avctx.height = avctx.height ∧
    (∀ (r : Nat) (c : Int), (r : Int) < avctx.height → 0 ≤ c → c < avctx.width →
      (mpff_decode_frame gb dctx data gf
        (mpff_encode_frame alloc avctx pkt pict gp).pkt).picture.data
          ((r : Int) * (mpff_decode_frame gb dctx data gf
            (mpff_encode_frame alloc avctx pkt pict gp).pkt).picture.linesize + c)
        = pict.data ((r : Int) * pict.linesize + c)) := by
  obtain ⟨e1, e2, e3⟩ := encode_sizes_depth8 avctx hd (by omega) (by omega)
  have hwire : (mpff_encode_sizes avctx).image_row_size
      + (mpff_encode_sizes avctx).padding_row_size = 4 * ((avctx.width + 3) / 4) := by
    rw [e1, e2]; omega
  have hlin : mpff_decode_linesize avctx.width 8
      = (mpff_encode_sizes avctx).image_row_size
        + (mpff_encode_sizes avctx).padding_row_size :=
    (decode_linesize_depth8 avctx.width (by omega) (by omega)).trans hwire.symm
  have hwle : avctx.width ≤ mpff_decode_linesize avctx.width 8 := by
    rw [hlin, hwire]; omega
  have hret := (halloc (mpff_encode_props avctx) pkt).1
  have hpix := fun (r : Nat) (c : Int) (h1 : (r : Int) < avctx.height) (h2 : 0 ≤ c)
      (h3 : c < avctx.width) =>
    encode_frame_pixel_at alloc avctx pkt pict gp hd (by omega) (by omega) hret r c h1 h2
      (by rw [e1]; exact h3)
  obtain ⟨a1, a2, a3, a4, a5⟩ :=
    decode_header_of_encode alloc avctx pkt pict gp hd hw hh (by omega) hfile halloc
  generalize mpff_encode_frame alloc avctx pkt pict gp = enc at a1 a2 a3 a4 a5 hpix ⊢
  obtain ⟨hdw, hdhh⟩ := a5 dctx
  obtain ⟨hgret, hgls⟩ := hgb (mpff_decode_dims dctx enc.pkt) data hdw hdhh
  obtain ⟨f1, f2, f3, f4, -, -⟩ := decode_frame_ok_fields gb dctx data gf enc.pkt _ _ a3 hgret
  have hP := fun (r : Nat) (c : Int) (h1 : (r : Int) < avctx.height) (h2 : 0 ≤ c)
      (h3 : c < avctx.width) =>
    decode_frame_pixel gb dctx data gf enc.pkt _ _ avctx.width avctx.height 8 a3 hgret
      hdw hdhh a4 (Int.le_trans (Int.le_of_lt hw) hgls) r c h1 h2
      (Int.lt_of_lt_of_le h3 hwle) (Int.lt_of_lt_of_le h3 hgls)
  rw [hlin] at hP
  generalize mpff_decode_frame gb dctx data gf enc.pkt = dec at f1 f2 f3 f4 hP ⊢
  refine ⟨a1, a2, f1, f3, f4, (congrArg AVCodecContext.width f2).trans hdw,
    (congrArg AVCodecContext.height f2).trans hdhh, ?_⟩
  intro r c hr hc0 hc1
  exact (hP r c hr hc0 hc1).trans (hpix r c hr hc0 hc1)

/-! ## The decoder: accepted headers, reads and writes of the row loop -/

/-- What an accepted header tells: the tests of the checking block that were
passed, the size locals it yields and the messages it logged. -/
theorem decode_header_ok_inv (avpkt : AVPacket) (log : List LogEvent) (hdr : DecHeader)
    (hh : mpff_decode_header avpkt = (log, Except.ok hdr)) :
    12 ≤ avpkt.size ∧ MagicOk avpkt ∧
    bytestream_get_le32 avpkt.data 12 + 12 ≤ bytestream_get_le32 avpkt.data 8 ∧
    bytestream_get_le32 avpkt.data 8 < mpff_decode_file_size avpkt ∧
    hdr = ⟨mpff_decode_file_size avpkt, bytestream_get_le32 avpkt.data 8,
      bytestream_get_le32 avpkt.data 12⟩ ∧
    log = (if toUInt32 avpkt.size < bytestream_get_le32 avpkt.data 4 then
        [LogEvent.expected_more_data avpkt.size (bytestream_get_le32 avpkt.data 4)]
      else []) := by
  by_cases hsize : avpkt.size < 12
  · exfalso
    unfold mpff_decode_header at hh
    simp only at hh
    rw [if_pos hsize] at hh
    cases hh
  · have hsize2 : 12 ≤ avpkt.size := by omega
    by_cases hmagic : MagicOk avpkt
    · have hdr2 := decode_header_after_magic avpkt hsize2 hmagic
      rw [hh] at hdr2
      by_cases h1 : bytestream_get_le32 avpkt.data 12 + 12 > bytestream_get_le32 avpkt.data 8
      · rw [if_pos h1] at hdr2
        injection hdr2 with e1 e2
        cases e2
      · rw [if_neg h1] at hdr2
        by_cases h2 : mpff_decode_file_size avpkt ≤ bytestream_get_le32 avpkt.data 8
        · rw [if_pos h2] at hdr2
          injection hdr2 with e1 e2
          cases e2
        · rw [if_neg h2] at hdr2
          injection hdr2 with e1 e2
          injection e2 with e3
          exact ⟨hsize2, hmagic, by omega, by omega, e3, e1⟩
    · exfalso
      rw [decode_header_bad_magic avpkt hsize2 hmagic] at hh
      cases hh

/-- The effective `file_size` never exceeds the packet size. -/
theorem decode_file_size_le (avpkt : AVPacket) (h0 : 12 ≤ avpkt.size)
    (h1 : avpkt.size ≤ 2147483647) :
    mpff_decode_file_size avpkt ≤ avpkt.size := by
  have hu : toUInt32 avpkt.size = avpkt.size := toUInt32_of_range _ (by omega) (by omega)
  have hu2 : toUInt32 (avpkt.size - 2) = avpkt.size - 2 :=
    toUInt32_of_range _ (by omega) (by omega)
  simp only [mpff_decode_file_size, mpff_decode_clamped_file_size, hu, hu2]
  split_ifs <;> omega

/-- The state returned by the decoder when the checking block is passed and
the frame allocation fails. -/
theorem decode_frame_alloc_fail
    (gb : AVCodecContext → AVFrame → Int × AVFrame)
    (avctx : AVCodecContext) (data : AVFrame) (gf : Int) (avpkt : AVPacket)
    (log : List LogEvent) (hdr : DecHeader)
    (h : mpff_decode_header avpkt = (log, Except.ok hdr))
    (hret : (gb (mpff_decode_dims avctx avpkt) data).1 < 0) :
    mpff_decode_frame gb avctx data gf avpkt =
      { ret := (gb (mpff_decode_dims avctx avpkt) data).1
        avctx := mpff_decode_dims avctx avpkt
        picture := (gb (mpff_decode_dims avctx avpkt) data).2
        got_frame := gf
        log := log } := by
  unfold mpff_decode_frame
  rw [h]
  dsimp only
  rw [if_pos hret]

theorem result_fail_fields (a : Int) (b : AVCodecContext) (p : AVFrame) (g : Int)
    (lg : List LogEvent) :
    (DecodeResult.mk a b p g lg).ret = a ∧
    (DecodeResult.mk a b p g lg).avctx = b ∧
    (DecodeResult.mk a b p g lg).picture = p ∧
    (DecodeResult.mk a b p g lg).got_frame = g ∧
    (DecodeResult.mk a b p g lg).log = lg :=
  ⟨rfl, rfl, rfl, rfl, rfl⟩

/-- The state left by a decode whose frame allocation fails. -/
theorem decode_frame_alloc_fail_fields
    (gb : AVCodecContext → AVFrame → Int × AVFrame)
    (avctx : AVCodecContext) (data : AVFrame) (gf : Int) (avpkt : AVPacket)
    (log : List LogEvent) (hdr : DecHeader)
    (hh : mpff_decode_header avpkt = (log, Except.ok hdr))
    (hret : (gb (mpff_decode_dims avctx avpkt) data).1 < 0) :
    (mpff_decode_frame gb avctx data gf avpkt).ret
      = (gb (mpff_decode_dims avctx avpkt) data).1 ∧
    (mpff_decode_frame gb avctx data gf avpkt).avctx = mpff_decode_dims avctx avpkt ∧
    (mpff_decode_frame gb avctx data gf avpkt).picture
      = (gb (mpff_decode_dims avctx avpkt) data).2 ∧
    (mpff_decode_frame gb avctx data gf avpkt).got_frame = gf ∧
    (mpff_decode_frame gb avctx data gf avpkt).log = log := by
  have hdec := decode_frame_alloc_fail gb avctx data gf avpkt log hdr hh hret
  generalize mpff_decode_frame gb avctx data gf avpkt = dec at hdec ⊢
  generalize mpff_decode_dims avctx avpkt = D at hret hdec
  generalize gb D data = G at hret hdec
  subst hdec
  exact result_fail_fields _ _ _ _ _

/-- The pixel memory left by a successful decode is the result of the row
loop on the memory of the allocated frame. -/
theorem decode_frame_ok_data
    (gb : AVCodecContext → AVFrame → Int × AVFrame)
    (avctx : AVCodecContext) (data : AVFrame) (gf : Int) (avpkt : AVPacket)
    (log : List LogEvent) (hdr : DecHeader)
    (hh : mpff_decode_header avpkt = (log, Except.ok hdr))
    (hret : 0 ≤ (gb (mpff_decode_dims avctx avpkt) data).1) :
    (mpff_decode_frame gb avctx data gf avpkt).picture.linesize
      = (gb (mpff_decode_dims avctx avpkt) data).2.linesize ∧
    (mpff_decode_frame gb avctx data gf avpkt).picture.data
      = mpff_decode_rows avpkt.data (gb (mpff_decode_dims avctx avpkt) data).2.linesize
          (mpff_decode_linesize (mpff_decode_dims avctx avpkt).width
            (bytestream_get_le16 avpkt.data 24))
          (mpff_decode_dims avctx avpkt).height.toNat
          (gb (mpff_decode_dims avctx avpkt) data).2.data 0 hdr.header_size := by
  have hdec := decode_frame_ok gb avctx data gf avpkt log hdr hh hret
  generalize mpff_decode_frame gb avctx data gf avpkt = dec at hdec ⊢
  generalize mpff_decode_dims avctx avpkt = D at hret hdec ⊢
  generalize gb D data = G at hret hdec ⊢
  subst hdec
  exact ⟨result_picture_linesize _ _ _ _ _ _ _ _, result_picture_data _ _ _ _ _ _ _ _⟩

theorem decode_dims_fields (avctx : AVCodecContext) (avpkt : AVPacket) :
    (mpff_decode_dims avctx avpkt).width = toInt32 (bytestream_get_le32 avpkt.data 16) ∧
    (mpff_decode_dims avctx avpkt).height
      = (if toInt32 (bytestream_get_le32 avpkt.data 20) > 0 then
          toInt32 (bytestream_get_le32 avpkt.data 20)
        else toInt32 (-toInt32 (bytestream_get_le32 avpkt.data 20))) ∧
    (mpff_decode_dims avctx avpkt).pix_fmt = AVPixelFormat.AV_PIX_FMT_RGB8 := by
  refine ⟨?_, ?_, ?_⟩ <;> simp only [mpff_decode_dims]

/-- The height stored by the decoder is the absolute value of the height
field, except for the one value whose negation is not an `int`. -/
theorem decode_dims_height_abs (avctx : AVCodecContext) (avpkt : AVPacket)
    (hmin : -2147483648 < toInt32 (bytestream_get_le32 avpkt.data 20)) :
    (mpff_decode_dims avctx avpkt).height = |toInt32 (bytestream_get_le32 avpkt.data 20)| := by
  rw [(decode_dims_fields avctx avpkt).2.1]
  have hb : toInt32 (bytestream_get_le32 avpkt.data 20) ≤ 2147483647 := by
    unfold toInt32; omega
  generalize toInt32 (bytestream_get_le32 avpkt.data 20) = h at hmin hb ⊢
  split_ifs with hp
  · rw [abs_of_pos hp]
  · rw [abs_of_nonpos (by omega), toInt32_of_range _ (by omega) (by omega)]

/-- Every index read by the row loop lies in the block of `n` rows of
`bls` bytes that starts at the initial cursor. -/
theorem decode_row_reads_range (bls : Int) (hb0 : 0 ≤ bls) (hb1 : bls < 4294967296)
    (n : Nat) : ∀ (buffer i : Int), IsRead (mpff_decode_row_reads bls n buffer) i →
      buffer ≤ i ∧ i < buffer + (n : Int) * bls := by
  induction n with
  | zero =>
    intro buffer i h
    obtain ⟨p, hp, -⟩ := h
    simp [mpff_decode_row_reads] at hp
  | succ n ih =>
    intro buffer i h
    obtain ⟨p, hp, h1, h2⟩ := h
    have hn : (0 : Int) ≤ (n : Int) * bls := Int.mul_nonneg (Int.ofNat_nonneg n) hb0
    have e : ((n + 1 : Nat) : Int) * bls = (n : Int) * bls + bls := by push_cast; ring
    rw [e]
    simp only [mpff_decode_row_reads, List.mem_cons] at hp
    rcases hp with hp | hp
    · subst hp
      simp only [toSizeT_of_range _ hb0 hb1] at h1 h2
      omega
    · have := ih (buffer + bls) i ⟨p, hp, h1, h2⟩
      omega

/-- Row `r` of the row loop reads the `bls` bytes at `buffer + r * bls`. -/
theorem decode_row_reads_row (bls : Int) (hb0 : 0 ≤ bls) (hb1 : bls < 4294967296)
    (n : Nat) : ∀ (buffer : Int) (r : Nat) (c : Int), r < n → 0 ≤ c → c < bls →
      IsRead (mpff_decode_row_reads bls n buffer) (buffer + (r : Int) * bls + c) := by
  induction n with
  | zero => intro buffer r c hr; omega
  | succ n ih =>
    intro buffer r c hr hc0 hc1
    cases r with
    | zero =>
      refine ⟨(buffer, toSizeT bls), ?_, ?_, ?_⟩
      · simp [mpff_decode_row_reads]
      · simp only [Nat.cast_zero, Int.zero_mul, Int.add_zero]; omega
      · simp only [Nat.cast_zero, Int.zero_mul, Int.add_zero, toSizeT_of_range _ hb0 hb1]
        omega
    | succ r =>
      have e : buffer + ((r + 1 : Nat) : Int) * bls + c
          = (buffer + bls) + (r : Int) * bls + c := by push_cast; ring
      rw [e]
      obtain ⟨p, hp, h1, h2⟩ := ih (buffer + bls) r c (by omega) hc0 hc1
      exact ⟨p, by simp only [mpff_decode_row_reads, List.mem_cons]; exact Or.inr hp, h1, h2⟩

/-- The row loop of the decoder leaves alone every output offset that lies
in none of the `n` written blocks `[image_array + r * ls, ... + bls)`. -/
theorem decode_rows_untouched (src : Mem) (ls bls : Int)
    (hb0 : 0 ≤ bls) (hb1 : bls < 4294967296)
    (n : Nat) : ∀ (img : Mem) (image_array buffer j : Int),
      (∀ r : Nat, r < n →
        ¬ (image_array + (r : Int) * ls ≤ j ∧ j < image_array + (r : Int) * ls + bls)) →
      mpff_decode_rows src ls bls n img image_array buffer j = img j := by
  induction n with
  | zero => intro img image_array buffer j _; rfl
  | succ n ih =>
    intro img image_array buffer j hj
    simp only [mpff_decode_rows]
    rw [ih _ _ _ _ (fun r hr => by
      have := hj (r + 1) (by omega)
      have e : image_array + ((r + 1 : Nat) : Int) * ls
          = image_array + ls + (r : Int) * ls := by push_cast; ring
      rw [e] at this
      exact this)]
    have h0 := hj 0 (by omega)
    simp only [Nat.cast_zero, Int.zero_mul, Int.add_zero] at h0
    simp only [memcpy, toSizeT_of_range _ hb0 hb1]
    rw [if_neg h0]

/-- The row loop of the decoder reads its source only at offsets from the
initial cursor on. -/
theorem decode_rows_congr (src1 src2 : Mem) (ls bls : Int)
    (hb0 : 0 ≤ bls) (hb1 : bls < 4294967296)
    (n : Nat) : ∀ (img : Mem) (image_array buffer : Int),
      (∀ j : Int, buffer ≤ j → src1 j = src2 j) →
      mpff_decode_rows src1 ls bls n img image_array buffer
        = mpff_decode_rows src2 ls bls n img image_array buffer := by
  induction n with
  | zero => intro img image_array buffer _; rfl
  | succ n ih =>
    intro img image_array buffer h
    simp only [mpff_decode_rows]
    have hm : memcpy img image_array src1 buffer (toSizeT bls)
        = memcpy img image_array src2 buffer (toSizeT bls) := by
      funext j
      simp only [memcpy]
      split_ifs with hc
      · exact h _ (by omega)
      · rfl
    rw [hm]
    exact ih _ _ _ (fun j hj => h j (by omega))

theorem ceil_div_eight (n : Int) : ⌈(n : ℚ) / 8⌉ = (n + 7) / 8 := by
  rw [Int.ceil_eq_iff]
  have h1 : 8 * ((n + 7) / 8) - 8 < n := by omega
  have h2 : n ≤ 8 * ((n + 7) / 8) := by omega
  have h1q : (8 : ℚ) * (((n + 7) / 8 : Int) : ℚ) - 8 < (n : ℚ) := by exact_mod_cast h1
  have h2q : (n : ℚ) ≤ 8 * (((n + 7) / 8 : Int) : ℚ) := by exact_mod_cast h2
  constructor
  · rw [lt_div_iff₀ (by norm_num)]
    linarith
  · rw [div_le_iff₀ (by norm_num)]
    linarith

/-- The stride of the specification in integer arithmetic. -/
theorem pixelsPerRowStride_eq (width depth : Int) :
    pixelsPerRowStride width depth = ((width * depth + 7) / 8 + 3) / 4 * 4 := by
  unfold pixelsPerRowStride align_up_to_4
  have : ((width : ℚ) * (depth : ℚ)) = ((width * depth : Int) : ℚ) := by push_cast; ring
  rw [this, ceil_div_eight]

theorem toUInt32_mul (w d : Int) : toUInt32 (toUInt32 w * d) = toUInt32 (w * d) := by
  unfold toUInt32
  rw [Int.mul_emod, Int.emod_emod, ← Int.mul_emod]

/-- The decoder's line size when the bit count of a row does not wrap. -/
theorem decode_linesize_of_fit (w d : Int) (hw : 0 ≤ w) (hd : 0 ≤ d)
    (hfit : w * d + 31 < 4294967296) :
    mpff_decode_linesize w d = ((w * d + 7) / 8 + 3) / 4 * 4 := by
  rw [decode_linesize_eq, toUInt32_mul]
  have hn : 0 ≤ w * d := Int.mul_nonneg hw hd
  generalize w * d = n at hfit hn ⊢
  unfold toUInt32
  omega

/-- A 32-bit field of value at most 3 has three zero high bytes. -/
theorem get_le32_small (m : Mem) (p v : Int) (h : bytestream_get_le32 m p ≤ v) (hv : v ≤ 3) :
    (((m p).val : Nat) : Int) ≤ v ∧ m (p + 1) = 0 ∧ m (p + 2) = 0 ∧ m (p + 3) = 0 := by
  unfold bytestream_get_le32 at h
  have b0 := byte_val_bounds (m p)
  have b1 := byte_val_bounds (m (p + 1))
  have b2 := byte_val_bounds (m (p + 2))
  have b3 := byte_val_bounds (m (p + 3))
  refine ⟨by omega, ?_, ?_, ?_⟩ <;> apply Fin.ext <;> simp only [Fin.val_zero] <;> omega

theorem get_le32_congr (m k : Mem) (p : Int)
    (h : ∀ j : Int, p ≤ j → j < p + 4 → m j = k j) :
    bytestream_get_le32 m p = bytestream_get_le32 k p := by
  unfold bytestream_get_le32
  rw [h p (by omega) (by omega), h (p + 1) (by omega) (by omega),
    h (p + 2) (by omega) (by omega), h (p + 3) (by omega) (by omega)]

theorem get_le16_congr (m k : Mem) (p : Int)
    (h : ∀ j : Int, p ≤ j → j < p + 2 → m j = k j) :
    bytestream_get_le16 m p = bytestream_get_le16 k p := by
  unfold bytestream_get_le16
  rw [h p (by omega) (by omega), h (p + 1) (by omega) (by omega)]

/-- Two packets that agree outside the `info_header_size` field and both
pass the checking block agree from `header_size` on. -/
theorem pixel_data_agree (p1 p2 : AVPacket)
    (hsame : ∀ j : Int, j < 12 ∨ 16 ≤ j → p1.data j = p2.data j)
    (hs : Int)
    (h1 : bytestream_get_le32 p1.data 12 + 12 ≤ hs)
    (h2 : bytestream_get_le32 p2.data 12 + 12 ≤ hs) :
    ∀ j : Int, hs ≤ j → p1.data j = p2.data j := by
  intro j hj
  have c1 := get_le32_bounds p1.data 12
  have c2 := get_le32_bounds p2.data 12
  by_cases hj16 : 16 ≤ j
  · exact hsame j (Or.inr hj16)
  · obtain ⟨a0, a1, a2, a3⟩ := get_le32_small p1.data 12 (j - 12) (by omega) (by omega)
    obtain ⟨b0, b1, b2, b3⟩ := get_le32_small p2.data 12 (j - 12) (by omega) (by omega)
    have hb1 := byte_val_bounds (p1.data 12)
    have hb2 := byte_val_bounds (p2.data 12)
    have hcases : j = 12 ∨ j = 12 + 1 ∨ j = 12 + 2 ∨ j = 12 + 3 := by omega
    rcases hcases with e | e | e | e
    · subst e
      apply Fin.ext
      omega
    · rw [e, a1, b1]
    · rw [e, a2, b2]
    · rw [e, a3, b3]

/-- Overwriting the `info_header_size` field leaves the size and every other
byte of a packet as they were. -/
theorem with_info_header_size_same (p : AVPacket) (v : Int) :
    (with_info_header_size p v).size = p.size ∧
    ∀ j : Int, j < 12 ∨ 16 ≤ j → p.data j = (with_info_header_size p v).data j := by
  refine ⟨rfl, ?_⟩
  intro j hj
  simp only [with_info_header_size, bytestream_put_le32, store]
  rw [if_neg (by omega), if_neg (by omega), if_neg (by omega), if_neg (by omega)]

theorem get_le16_bounds (m : Mem) (p : Int) :
    0 ≤ bytestream_get_le16 m p ∧ bytestream_get_le16 m p < 65536 := by
  unfold bytestream_get_le16
  have b0 := byte_val_bounds (m p)
  have b1 := byte_val_bounds (m (p + 1))
  omega

/-- With a line size of zero the row loop copies nothing: a successful decode
leaves the pixel memory of the allocated frame as it was. -/
theorem decode_frame_data_of_zero_linesize
    (gb : AVCodecContext → AVFrame → Int × AVFrame)
    (avctx : AVCodecContext) (data : AVFrame) (gf : Int) (avpkt : AVPacket)
    (log : List LogEvent) (hdr : DecHeader)
    (hh : mpff_decode_header avpkt = (log, Except.ok hdr))
    (hret : 0 ≤ (gb (mpff_decode_dims avctx avpkt) data).1)
    (hz : mpff_decode_linesize (mpff_decode_dims avctx avpkt).width
      (bytestream_get_le16 avpkt.data 24) = 0) :
    (mpff_decode_frame gb avctx data gf avpkt).picture.data
      = (gb (mpff_decode_dims avctx avpkt) data).2.data := by
  have hd := (decode_frame_ok_data gb avctx data gf avpkt log hdr hh hret).2
  rw [hz] at hd
  generalize mpff_decode_frame gb avctx data gf avpkt = dec at hd ⊢
  rw [hd]
  funext j
  apply decode_rows_untouched _ _ _ (Int.le_refl 0) (by decide)
  intro r _
  omega

/-- Rows of the frame returned by a successful decode, in the decoder's own
terms: for every row below the stored height and every column below the line
size `mpff_decode_linesize width depth`, the output byte is the input byte at
`header_size + r * linesize + c`, provided the frame's line size is at least
that line size.  The stored height is the absolute value of the height field
unless that field is `INT_MIN`. -/
theorem decode_frame_rows_copied
    (gb : AVCodecContext → AVFrame → Int × AVFrame)
    (avctx : AVCodecContext) (data : AVFrame) (gf : Int) (avpkt : AVPacket)
    (log : List LogEvent) (hdr : DecHeader)
    (hh : mpff_decode_header avpkt = (log, Except.ok hdr))
    (hret : 0 ≤ (gb (mpff_decode_dims avctx avpkt) data).1)
    (hstride : mpff_decode_linesize (toInt32 (bytestream_get_le32 avpkt.data 16))
        (bytestream_get_le16 avpkt.data 24)
      ≤ (gb (mpff_decode_dims avctx avpkt) data).2.linesize) :
    (mpff_decode_frame gb avctx data gf avpkt).avctx.height
      = (mpff_decode_dims avctx avpkt).height ∧
    (-2147483648 < toInt32 (bytestream_get_le32 avpkt.data 20) →
      (mpff_decode_dims avctx avpkt).height
        = |toInt32 (bytestream_get_le32 avpkt.data 20)|) ∧
    (mpff_decode_frame gb avctx data gf avpkt).picture.linesize
      = (gb (mpff_decode_dims avctx avpkt) data).2.linesize ∧
    (∀ (r : Nat) (c : Int), (r : Int) < (mpff_decode_dims avctx avpkt).height →
      0 ≤ c →
      c < mpff_decode_linesize (toInt32 (bytestream_get_le32 avpkt.data 16))
        (bytestream_get_le16 avpkt.data 24) →
      (mpff_decode_frame gb avctx data gf avpkt).picture.data
          ((r : Int) * (mpff_decode_frame gb avctx data gf avpkt).picture.linesize + c)
        = avpkt.data (bytestream_get_le32 avpkt.data 8
            + (r : Int) * mpff_decode_linesize (toInt32 (bytestream_get_le32 avpkt.data 16))
                (bytestream_get_le16 avpkt.data 24) + c)) := by
  have hf := decode_frame_ok_fields gb avctx data gf avpkt log hdr hh hret
  have hd := decode_frame_ok_data gb avctx data gf avpkt log hdr hh hret
  have hb := decode_linesize_bounds (toInt32 (bytestream_get_le32 avpkt.data 16))
    (bytestream_get_le16 avpkt.data 24)
  obtain ⟨-, -, -, -, h5, -⟩ := decode_header_ok_inv avpkt log hdr hh
  have hhs : hdr.header_size = bytestream_get_le32 avpkt.data 8 := by rw [h5]
  refine ⟨congrArg AVCodecContext.height hf.2.1, decode_dims_height_abs avctx avpkt, hd.1, ?_⟩
  intro r c hr hc0 hc1
  have hp := decode_frame_pixel gb avctx data gf avpkt log hdr
    (toInt32 (bytestream_get_le32 avpkt.data 16)) (mpff_decode_dims avctx avpkt).height
    (bytestream_get_le16 avpkt.data 24) hh hret (decode_dims_fields avctx avpkt).1 rfl rfl
    (Int.le_trans hb.1 hstride) r c hr hc0 hc1 (Int.lt_of_lt_of_le hc1 hstride)
  rw [hhs] at hp
  exact hp

/-- Writes of a successful decode in the decoder's own terms: in every row
below the stored height the first `mpff_decode_linesize width depth` bytes
come from the input and the bytes from there up to the frame's line size are
left as they were. -/
theorem decode_frame_rows_written
    (gb : AVCodecContext → AVFrame → Int × AVFrame)
    (avctx : AVCodecContext) (data : AVFrame) (gf : Int) (avpkt : AVPacket)
    (log : List LogEvent) (hdr : DecHeader)
    (hh : mpff_decode_header avpkt = (log, Except.ok hdr))
    (hret : 0 ≤ (gb (mpff_decode_dims avctx avpkt) data).1)
    (hstride : mpff_decode_linesize (toInt32 (bytestream_get_le32 avpkt.data 16))
        (bytestream_get_le16 avpkt.data 24)
      ≤ (gb (mpff_decode_dims avctx avpkt) data).2.linesize) :
    (bytestream_get_le16 avpkt.data 24 = 8 →
      0 ≤ toInt32 (bytestream_get_le32 avpkt.data 16) →
      toInt32 (bytestream_get_le32 avpkt.data 16) * 8 + 31 < 4294967296 →
      mpff_decode_linesize (toInt32 (bytestream_get_le32 avpkt.data 16))
          (bytestream_get_le16 avpkt.data 24)
        = align_up_to_4 (toInt32 (bytestream_get_le32 avpkt.data 16))) ∧
    (∀ (r : Nat) (c : Int), (r : Int) < (mpff_decode_dims avctx avpkt).height →
      0 ≤ c →
      c < mpff_decode_linesize (toInt32 (bytestream_get_le32 avpkt.data 16))
        (bytestream_get_le16 avpkt.data 24) →
      (mpff_decode_frame gb avctx data gf avpkt).picture.data
          ((r : Int) * (gb (mpff_decode_dims avctx avpkt) data).2.linesize + c)
        = avpkt.data (bytestream_get_le32 avpkt.data 8
            + (r : Int) * mpff_decode_linesize (toInt32 (bytestream_get_le32 avpkt.data 16))
                (bytestream_get_le16 avpkt.data 24) + c)) ∧
    (∀ (r : Nat) (c : Int), (r : Int) < (mpff_decode_dims avctx avpkt).height →
      mpff_decode_linesize (toInt32 (bytestream_get_le32 avpkt.data 16))
        (bytestream_get_le16 avpkt.data 24) ≤ c →
      c < (gb (mpff_decode_dims avctx avpkt) data).2.linesize →
      (mpff_decode_frame gb avctx data gf avpkt).picture.data
          ((r : Int) * (gb (mpff_decode_dims avctx avpkt) data).2.linesize + c)
        = (gb (mpff_decode_dims avctx avpkt) data).2.data
          ((r : Int) * (gb (mpff_decode_dims avctx avpkt) data).2.linesize + c)) := by
  have hd := decode_frame_ok_data gb avctx data gf avpkt log hdr hh hret
  have hb := decode_linesize_bounds (toInt32 (bytestream_get_le32 avpkt.data 16))
    (bytestream_get_le16 avpkt.data 24)
  obtain ⟨-, -, -, -, h5, -⟩ := decode_header_ok_inv avpkt log hdr hh
  have hhs : hdr.header_size = bytestream_get_le32 avpkt.data 8 := by rw [h5]
  have hwd := (decode_dims_fields avctx avpkt).1
  have hpix := decode_frame_pixel gb avctx data gf avpkt log hdr
    (toInt32 (bytestream_get_le32 avpkt.data 16)) (mpff_decode_dims avctx avpkt).height
    (bytestream_get_le16 avpkt.data 24) hh hret hwd rfl rfl
  have p1 : bytestream_get_le16 avpkt.data 24 = 8 →
      0 ≤ toInt32 (bytestream_get_le32 avpkt.data 16) →
      toInt32 (bytestream_get_le32 avpkt.data 16) * 8 + 31 < 4294967296 →
      mpff_decode_linesize (toInt32 (bytestream_get_le32 avpkt.data 16))
          (bytestream_get_le16 avpkt.data 24)
        = align_up_to_4 (toInt32 (bytestream_get_le32 avpkt.data 16)) := by
    intro h8 hw0 hfit
    rw [h8, decode_linesize_depth8 _ hw0 hfit]
    unfold align_up_to_4
    omega
  rw [hwd] at hd
  generalize mpff_decode_frame gb avctx data gf avpkt = dec at hd hpix ⊢
  generalize mpff_decode_dims avctx avpkt = D at hret hstride hd hpix ⊢
  generalize gb D data = G at hret hstride hd hpix ⊢
  generalize mpff_decode_linesize (toInt32 (bytestream_get_le32 avpkt.data 16))
    (bytestream_get_le16 avpkt.data 24) = bls at hstride hb hd hpix p1 ⊢
  obtain ⟨hd1, hd2⟩ := hd
  refine ⟨p1, ?_, ?_⟩
  · intro r c hr hc0 hc1
    have hp := hpix (Int.le_trans hb.1 hstride) r c hr hc0 hc1 (Int.lt_of_lt_of_le hc1 hstride)
    rw [hhs, hd1] at hp
    exact hp
  · intro r c hr hc0 hc1
    rw [hd2]
    generalize G.2.linesize = s at hstride hc1 ⊢
    apply decode_rows_untouched _ _ _ hb.1 hb.2
    intro k hk
    have hs0 : 0 ≤ s := by omega
    by_cases hkr : k ≤ r
    · have h1 : (k : Int) * s ≤ (r : Int) * s :=
        Int.mul_le_mul_of_nonneg_right (by omega) hs0
      omega
    · have h1 : ((r : Int) + 1) * s ≤ (k : Int) * s :=
        Int.mul_le_mul_of_nonneg_right (by omega) hs0
      have h2 : ((r : Int) + 1) * s = (r : Int) * s + s := by ring
      omega

/-! ## The claims -/

/-- Counterexample to C1 as stated: width `2^29`, height 1, depth 8, a source
frame of stride `2^29` whose every byte is 200.  Every size fits an `int`
(the file size is 536870938), the packet allocator grants the request and the
frame allocator a line size equal to the width; encoding returns 0 and
decoding returns the packet size with `got_frame = 1`, width `2^29` and
height 1.  But the decoder's line size `((width * depth + 31) / 8) & ~3` has
wrapped to 0, no byte is copied, and the decoded pixel at row 0, column 0 is
0, not the source pixel 200. -/
theorem roundtrip_wrap_counterexample :
    (0 : Int) < (ctx8 536870912 1).width ∧ (0 : Int) < (ctx8 536870912 1).height ∧
    (ctx8 536870912 1).width ≤ (flat_frame 200 536870912).linesize ∧
    (mpff_encode_sizes (ctx8 536870912 1)).file_size = 536870938 ∧
    AllocGrants alloc_any (mpff_encode_sizes (ctx8 536870912 1)).file_size ∧
    GetBufferGrants get_buffer_any 536870912 1 ∧
    (mpff_encode_frame alloc_any (ctx8 536870912 1) pkt0 (flat_frame 200 536870912) 0).ret
      = 0 ∧
    (mpff_encode_frame alloc_any (ctx8 536870912 1) pkt0
      (flat_frame 200 536870912) 0).pkt.size = 536870938 ∧
    (mpff_decode_frame get_buffer_any (ctx8 0 0) frame0 0
      (mpff_encode_frame alloc_any (ctx8 536870912 1) pkt0
        (flat_frame 200 536870912) 0).pkt).ret = 536870938 ∧
    (mpff_decode_frame get_buffer_any (ctx8 0 0) frame0 0
      (mpff_encode_frame alloc_any (ctx8 536870912 1) pkt0
        (flat_frame 200 536870912) 0).pkt).got_frame = 1 ∧
    (mpff_decode_frame get_buffer_any (ctx8 0 0) frame0 0
      (mpff_encode_frame alloc_any (ctx8 536870912 1) pkt0
        (flat_frame 200 536870912) 0).pkt).avctx.width = 536870912 ∧
    (mpff_decode_frame get_buffer_any (ctx8 0 0) frame0 0
      (mpff_encode_frame alloc_any (ctx8 536870912 1) pkt0
        (flat_frame 200 536870912) 0).pkt).avctx.height = 1 ∧
    (flat_frame 200 536870912).data 0 = 200 ∧
    (mpff_decode_frame get_buffer_any (ctx8 0 0) frame0 0
      (mpff_encode_frame alloc_any (ctx8 536870912 1) pkt0
        (flat_frame 200 536870912) 0).pkt).picture.data 0 = 0 := by
  have ha : AllocGrants alloc_any (mpff_encode_sizes (ctx8 536870912 1)).file_size :=
    fun _ _ => ⟨Int.le_refl 0, rfl⟩
  have hg : GetBufferGrants get_buffer_any 536870912 1 :=
    fun c _ hcw _ => ⟨Int.le_refl 0, Int.le_of_eq hcw.symm⟩
  have hfs : (mpff_encode_sizes (ctx8 536870912 1)).file_size = 536870938 := by decide
  obtain ⟨a1, a2, a3, a4, a5⟩ := decode_header_of_encode alloc_any (ctx8 536870912 1) pkt0
    (flat_frame 200 536870912) 0 rfl (by decide) (by decide) (by decide) (by decide) ha
  have a2b : (mpff_encode_frame alloc_any (ctx8 536870912 1) pkt0
      (flat_frame 200 536870912) 0).pkt.size = 536870938 := a2.trans (by decide)
  generalize mpff_encode_frame alloc_any (ctx8 536870912 1) pkt0
    (flat_frame 200 536870912) 0 = enc at a1 a2b a3 a4 a5 ⊢
  obtain ⟨hdw, hdh⟩ := a5 (ctx8 0 0)
  have hdw2 : (mpff_decode_dims (ctx8 0 0) enc.pkt).width = 536870912 := hdw
  have hdh2 : (mpff_decode_dims (ctx8 0 0) enc.pkt).height = 1 := hdh
  have hf := decode_frame_ok_fields get_buffer_any (ctx8 0 0) frame0 0 enc.pkt _ _ a3
    (Int.le_refl 0)
  have hz : mpff_decode_linesize (mpff_decode_dims (ctx8 0 0) enc.pkt).width
      (bytestream_get_le16 enc.pkt.data 24) = 0 := by
    rw [hdw2, a4, decode_linesize_eq]; decide
  have hdata := decode_frame_data_of_zero_linesize get_buffer_any (ctx8 0 0) frame0 0
    enc.pkt _ _ a3 (Int.le_refl 0) hz
  generalize mpff_decode_frame get_buffer_any (ctx8 0 0) frame0 0 enc.pkt = dec at hf hdata ⊢
  refine ⟨by decide, by decide, by decide, hfs, ha, hg, a1, a2b, hf.1.trans a2b, hf.2.2.1,
    (congrArg AVCodecContext.width hf.2.1).trans hdw2,
    (congrArg AVCodecContext.height hf.2.1).trans hdh2, rfl, ?_⟩
  rw [hdata]
  rfl

/-- C1 (round trip, amended).  For every width > 0 with
`width * 8 + 31 < 2^32` (the bit count of a row does not wrap in the decoder's
32-bit unsigned arithmetic) and every height > 0 at depth 8, every source
frame (whatever its stride), every packet allocator that grants the requested
size and every frame allocator that grants a line size of at least the
width: provided the file size fits an `int`, encoding succeeds, decoding the
produced packet succeeds (it returns the packet size, sets `got_frame`, logs
nothing), the context receives the same width and height, and the decoded
pixel at row `r < height`, column `c < width` equals the source pixel at
`(r, c)`. -/
theorem roundtrip_decode_encode
    (alloc : AVCodecContext → AVPacket → Int → Int × AVPacket)
    (gb : AVCodecContext → AVFrame → Int × AVFrame)
    (avctx : AVCodecContext) (pkt : AVPacket) (pict : AVFrame) (gp : Int)
    (dctx : AVCodecContext) (data : AVFrame) (gf : Int)
    (hd : avctx.bits_per_coded_sample = 8)
    (hw : 0 < avctx.width) (hh : 0 < avctx.height)
    (hbits : avctx.width * 8 + 31 < 4294967296)
    (hfile : 26 + avctx.height * ((mpff_encode_sizes avctx).image_row_size
        + (mpff_encode_sizes avctx).padding_row_size) ≤ 2147483647)
    (halloc : AllocGrants alloc (mpff_encode_sizes avctx).file_size)
    (hgb : GetBufferGrants gb avctx.width avctx.height) :
    (mpff_encode_frame alloc avctx pkt pict gp).ret = 0 ∧
    (mpff_encode_frame alloc avctx pkt pict gp).pkt.size
      = 26 + avctx.height * ((mpff_encode_sizes avctx).image_row_size
          + (mpff_encode_sizes avctx).padding_row_size) ∧
    (mpff_decode_frame gb dctx data gf (mpff_encode_frame alloc avctx pkt pict gp).pkt).ret
      = (mpff_encode_frame alloc avctx pkt pict gp).pkt.size ∧
    (mpff_decode_frame gb dctx data gf
      (mpff_encode_frame alloc avctx pkt pict gp).pkt).got_frame = 1 ∧
    (mpff_decode_frame gb dctx data gf
      (mpff_encode_frame alloc avctx pkt pict gp).pkt).log = [] ∧
    (mpff_decode_frame gb dctx data gf
      (mpff_encode_frame alloc avctx pkt pict gp).pkt).avctx.width = avctx.width ∧
    (mpff_decode_frame gb dctx data gf
      (mpff_encode_frame alloc avctx pkt pict gp).pkt).avctx.height = avctx.height ∧
    (∀ (r : Nat) (c : Int), (r : Int) < avctx.height → 0 ≤ c → c < avctx.width →
      (mpff_decode_frame gb dctx data gf
        (mpff_encode_frame alloc avctx pkt pict gp).pkt).picture.data
          ((r : Int) * (mpff_decode_frame gb dctx data gf
            (mpff_encode_frame alloc avctx pkt pict gp).pkt).picture.linesize + c)
        = pict.data ((r : Int) * pict.linesize + c)) :=
  decode_encode alloc gb avctx pkt pict gp dctx data gf hd hw hh hbits hfile halloc hgb

/-- Witness of C1 (amended): a 3 x 2 image with source stride 5; the decoded
context has width 3 and height 2 and the pixel at row 1, column 2 comes
back. -/
theorem roundtrip_decode_encode_witness :
    AllocGrants alloc_any (mpff_encode_sizes (ctx8 3 2)).file_size ∧
    GetBufferGrants get_buffer_any 3 2 ∧
    (mpff_decode_frame get_buffer_any (ctx8 0 0) frame0 0
      (mpff_encode_frame alloc_any (ctx8 3 2) pkt0 (ramp_frame 5) 0).pkt).avctx.width = 3 ∧
    (mpff_decode_frame get_buffer_any (ctx8 0 0) frame0 0
      (mpff_encode_frame alloc_any (ctx8 3 2) pkt0 (ramp_frame 5) 0).pkt).avctx.height = 2 ∧
    (mpff_decode_frame get_buffer_any (ctx8 0 0) frame0 0
        (mpff_encode_frame alloc_any (ctx8 3 2) pkt0 (ramp_frame 5) 0).pkt).picture.data
          (((1 : Nat) : Int) * (mpff_decode_frame get_buffer_any (ctx8 0 0) frame0 0
            (mpff_encode_frame alloc_any (ctx8 3 2) pkt0 (ramp_frame 5) 0).pkt).picture.linesize
            + 2)
        = (ramp_frame 5).data (((1 : Nat) : Int) * (ramp_frame 5).linesize + 2) := by
  have ha : AllocGrants alloc_any (mpff_encode_sizes (ctx8 3 2)).file_size :=
    fun _ _ => ⟨Int.le_refl 0, rfl⟩
  have hg : GetBufferGrants get_buffer_any 3 2 :=
    fun c _ hcw _ => ⟨Int.le_refl 0, Int.le_of_eq hcw.symm⟩
  have h := roundtrip_decode_encode alloc_any get_buffer_any (ctx8 3 2) pkt0 (ramp_frame 5) 0
    (ctx8 0 0) frame0 0 rfl (by decide) (by decide) (by decide) (by decide) ha hg
  exact ⟨ha, hg, h.2.2.2.2.2.1, h.2.2.2.2.2.2.1,
    h.2.2.2.2.2.2.2 1 2 (by decide) (by decide) (by decide)⟩

/-- C2 (minimal image).  Encoding a 1 x 1 image at depth 8 whose pixel is `p`
produces a packet of size 30 whose 30 bytes are the 26 header bytes (with
`file_size = 30`, `header_size = 26`, `info_header_size = 14`, width 1,
height 1, depth 8) followed by `p` and three zero bytes; decoding that
packet succeeds with width 1, height 1 and the single pixel equal to `p`.
This holds for every byte `p`. -/
theorem minimal_image
    (alloc : AVCodecContext → AVPacket → Int → Int × AVPacket)
    (gb : AVCodecContext → AVFrame → Int × AVFrame)
    (avctx : AVCodecContext) (pkt : AVPacket) (pict : AVFrame) (gp : Int)
    (dctx : AVCodecContext) (data : AVFrame) (gf : Int) (p : Byte)
    (hd : avctx.bits_per_coded_sample = 8)
    (hw : avctx.width = 1) (hh : avctx.height = 1)
    (hp : pict.data 0 = p)
    (halloc : AllocGrants alloc 30)
    (hgb : GetBufferGrants gb 1 1) :
    (mpff_encode_frame alloc avctx pkt pict gp).ret = 0 ∧
    (mpff_encode_frame alloc avctx pkt pict gp).pkt.size = 30 ∧
    bytes (mpff_encode_frame alloc avctx pkt pict gp).pkt.data 30
      = [77, 80, 70, 70, 30, 0, 0, 0, 26, 0, 0, 0, 14, 0, 0, 0,
         1, 0, 0, 0, 1, 0, 0, 0, 8, 0, p, 0, 0, 0] ∧
    (mpff_decode_frame gb dctx data gf (mpff_encode_frame alloc avctx pkt pict gp).pkt).ret
      = 30 ∧
    (mpff_decode_frame gb dctx data gf
      (mpff_encode_frame alloc avctx pkt pict gp).pkt).got_frame = 1 ∧
    (mpff_decode_frame gb dctx data gf
      (mpff_encode_frame alloc avctx pkt pict gp).pkt).avctx.width = 1 ∧
    (mpff_decode_frame gb dctx data gf
      (mpff_encode_frame alloc avctx pkt pict gp).pkt).avctx.height = 1 ∧
    (mpff_decode_frame gb dctx data gf
      (mpff_encode_frame alloc avctx pkt pict gp).pkt).picture.data 0 = p := by
  obtain ⟨e1, e2, e3⟩ := encode_sizes_depth8 avctx hd (by omega) (by omega)
  rw [hw] at e1 e2
  have e2b : (mpff_encode_sizes avctx).padding_row_size = 3 := by rw [e2]; decide
  have hwire : (mpff_encode_sizes avctx).image_row_size
      + (mpff_encode_sizes avctx).padding_row_size = 4 := by rw [e1, e2b]; decide
  have hfile : 26 + avctx.height * ((mpff_encode_sizes avctx).image_row_size
      + (mpff_encode_sizes avctx).padding_row_size) = 30 := by rw [hwire, hh]; decide
  have hfs : (mpff_encode_sizes avctx).file_size = 30 :=
    (encode_file_size_eq avctx hd (by omega) (by omega) (by omega) (by omega)
      (by omega)).trans hfile
  have halloc2 : AllocGrants alloc (mpff_encode_sizes avctx).file_size := by
    rw [hfs]; exact halloc
  have hgb2 : GetBufferGrants gb avctx.width avctx.height := by
    rw [hw, hh]; exact hgb
  have hret := (halloc2 (mpff_encode_props avctx) pkt).1
  have hhdr := encode_frame_header_bytes alloc avctx pkt pict gp hd hret
    (Or.inl ⟨by omega, by omega⟩)
  rw [hfs, hw, hh] at hhdr
  have b26 := encode_frame_pixel_at alloc avctx pkt pict gp hd (by omega) (by omega) hret
    0 0 (by omega) (Int.le_refl 0) (by omega)
  have b27 := encode_frame_padding_at alloc avctx pkt pict gp hd (by omega) (by omega) hret
    0 1 (by omega) (by omega) (by omega)
  have b28 := encode_frame_padding_at alloc avctx pkt pict gp hd (by omega) (by omega) hret
    0 2 (by omega) (by omega) (by omega)
  have b29 := encode_frame_padding_at alloc avctx pkt pict gp hd (by omega) (by omega) hret
    0 3 (by omega) (by omega) (by omega)
  obtain ⟨r1, r2, r3, r4, -, r6, r7, r8⟩ := decode_encode alloc gb avctx pkt pict gp dctx data gf
    hd (by omega) (by omega) (by omega) (by omega) halloc2 hgb2
  have r8b := r8 0 0 (by omega) (Int.le_refl 0) (by omega)
  rw [r2] at r3
  rw [hfile] at r2 r3
  generalize mpff_encode_frame alloc avctx pkt pict gp = enc at *
  generalize mpff_decode_frame gb dctx data gf enc.pkt = dec at *
  rw [hwire] at b26 b27 b28 b29
  simp only [Nat.cast_zero, Int.zero_mul, Int.add_zero] at b26 b27 b28 b29 r8b
  rw [hp] at b26 r8b
  have e27 : (26 : Int) + 1 = 27 := by decide
  have e28 : (26 : Int) + 2 = 28 := by decide
  have e29 : (26 : Int) + 3 = 29 := by decide
  rw [e27] at b27
  rw [e28] at b28
  rw [e29] at b29
  refine ⟨r1, r2, ?_, r3, r4, r6.trans hw, r7.trans hh, r8b⟩
  have hb : bytes enc.pkt.data 30
      = bytes enc.pkt.data 26 ++ [enc.pkt.data 26] ++ [enc.pkt.data 27]
          ++ [enc.pkt.data 28] ++ [enc.pkt.data 29] := by
    rw [show (30 : Nat) = 26 + 1 + 1 + 1 + 1 from rfl, bytes_succ, bytes_succ, bytes_succ,
      bytes_succ]
    rfl
  have hwh : wire_header (toUInt32 30) 26 14 (toUInt32 1) (toUInt32 1) 8
      = [77, 80, 70, 70, 30, 0, 0, 0, 26, 0, 0, 0, 14, 0, 0, 0,
         1, 0, 0, 0, 1, 0, 0, 0, 8, 0] := by decide
  rw [hb, hhdr, b26, b27, b28, b29, hwh]
  rfl

/-- Witness of C2: the single pixel 200. -/
theorem minimal_image_witness :
    AllocGrants alloc_any 30 ∧ GetBufferGrants get_buffer_any 1 1 ∧
    bytes (mpff_encode_frame alloc_any (ctx8 1 1) pkt0 (solid_frame 200) 0).pkt.data 30
      = [77, 80, 70, 70, 30, 0, 0, 0, 26, 0, 0, 0, 14, 0, 0, 0,
         1, 0, 0, 0, 1, 0, 0, 0, 8, 0, 200, 0, 0, 0] ∧
    (mpff_decode_frame get_buffer_any (ctx8 0 0) frame0 0
      (mpff_encode_frame alloc_any (ctx8 1 1) pkt0 (solid_frame 200) 0).pkt).picture.data 0
      = 200 := by
  have ha : AllocGrants alloc_any 30 := fun _ _ => ⟨Int.le_refl 0, rfl⟩
  have hg : GetBufferGrants get_buffer_any 1 1 :=
    fun c _ hcw _ => ⟨Int.le_refl 0, Int.le_of_eq hcw.symm⟩
  have h := minimal_image alloc_any get_buffer_any (ctx8 1 1) pkt0 (solid_frame 200) 0
    (ctx8 0 0) frame0 0 200 rfl rfl rfl rfl ha hg
  exact ⟨ha, hg, h.2.2.1, h.2.2.2.2.2.2.2⟩

/-- C3 (encoder header layout).  At depth 8, for every width and height, the
header block of the encoder writes, at offsets 0..25 of whatever memory it is
given, the bytes 'M','P','F','F', then `file_size`, `header_size = 26`,
`info_header_size = 14`, `width`, `height` as little-endian 32-bit fields and
`depth = 8` as a little-endian 16-bit field.  When the allocation succeeds
these are the first 26 bytes of the returned packet (for a width that is
non-negative, or when no row is written), and the `file_size` field equals the
size of the returned packet. -/
theorem encode_header_layout
    (alloc : AVCodecContext → AVPacket → Int → Int × AVPacket)
    (avctx : AVCodecContext) (pkt : AVPacket) (pict : AVFrame) (gp : Int)
    (hd : avctx.bits_per_coded_sample = 8)
    (halloc : AllocGrants alloc (mpff_encode_sizes avctx).file_size)
    (hfs : 0 ≤ (mpff_encode_sizes avctx).file_size) :
    (∀ b : Mem,
      bytes (mpff_encode_header b (mpff_encode_sizes avctx) avctx.width avctx.height
          avctx.bits_per_coded_sample) 26
        = wire_header (toUInt32 (mpff_encode_sizes avctx).file_size) 26 14
            (toUInt32 avctx.width) (toUInt32 avctx.height) 8) ∧
    ((0 ≤ avctx.width ∧ avctx.width ≤ 2147483647) ∨ avctx.height ≤ 0 →
      bytes (mpff_encode_frame alloc avctx pkt pict gp).pkt.data 26
        = wire_header (toUInt32 (mpff_encode_sizes avctx).file_size) 26 14
            (toUInt32 avctx.width) (toUInt32 avctx.height) 8) ∧
    toUInt32 (mpff_encode_sizes avctx).file_size
      = (mpff_encode_frame alloc avctx pkt pict gp).pkt.size := by
  have hret := (halloc (mpff_encode_props avctx) pkt).1
  have hsize := (halloc (mpff_encode_props avctx) pkt).2
  refine ⟨fun b => encode_header_wire b avctx hd, ?_, ?_⟩
  · intro hw
    exact encode_frame_header_bytes alloc avctx pkt pict gp hd hret hw
  · rw [encode_frame_ok alloc avctx pkt pict gp hret]
    simp only
    rw [hsize]
    have : (mpff_encode_sizes avctx).file_size ≤ 2147483647 := by
      rw [encode_sizes_file_size]; unfold toInt32; omega
    exact toUInt32_of_range _ hfs (by omega)

/-- Witness of C3: the header of a 5 x 3 image, whose packet has 50 bytes. -/
theorem encode_header_layout_witness :
    bytes (mpff_encode_frame alloc_any (ctx8 5 3) pkt0 frame0 0).pkt.data 26
      = [77, 80, 70, 70, 50, 0, 0, 0, 26, 0, 0, 0, 14, 0, 0, 0,
         5, 0, 0, 0, 3, 0, 0, 0, 8, 0] ∧
    (mpff_encode_frame alloc_any (ctx8 5 3) pkt0 frame0 0).pkt.size = 50 := by
  have h := encode_header_layout alloc_any (ctx8 5 3) pkt0 frame0 0 rfl
    (fun _ _ => ⟨Int.le_refl 0, rfl⟩) (by decide)
  refine ⟨?_, ?_⟩
  · rw [h.2.1 (Or.inl (by decide))]
    decide
  · rw [← h.2.2]
    decide

/-- C5 (encoder pixel rows).  At depth 8, for every width >= 0, height >= 0
(sizes fitting an `int`) and every source frame with line size `s`, after a
successful encode: the packed row size is `ceil(width * 8 / 8)`; for every
row `r < height` the packet byte at offset `26 + r * wireRowSize + c` is the
source byte at `r * s + c` for `0 <= c < packedRowSize` and is 0 for
`packedRowSize <= c < wireRowSize` (rows in source order, no reversal); the
packet size is `file_size = 26 + height * wireRowSize`; no byte at an offset
`>= file_size` (or below 0) is changed, and every byte at an offset below
`file_size` is determined by the encoder whatever the memory held before, so
the last byte written is at offset `file_size - 1`.  The source frame is an
argument that the function only reads: the state it returns holds no frame. -/
theorem encode_pixel_rows
    (alloc : AVCodecContext → AVPacket → Int → Int × AVPacket)
    (avctx : AVCodecContext) (pkt : AVPacket) (pict : AVFrame) (gp : Int)
    (hd : avctx.bits_per_coded_sample = 8)
    (hw0 : 0 ≤ avctx.width) (hw1 : avctx.width ≤ 2147483647)
    (hh0 : 0 ≤ avctx.height)
    (hrow : (mpff_encode_sizes avctx).image_row_size
        + (mpff_encode_sizes avctx).padding_row_size ≤ 2147483647)
    (hfile : 26 + avctx.height * ((mpff_encode_sizes avctx).image_row_size
        + (mpff_encode_sizes avctx).padding_row_size) ≤ 2147483647)
    (halloc : AllocGrants alloc (mpff_encode_sizes avctx).file_size) :
    (mpff_encode_sizes avctx).image_row_size = ⌈((avctx.width : ℚ) * 8) / 8⌉ ∧
    (∀ (r : Nat) (c : Int), (r : Int) < avctx.height →
      0 ≤ c → c < (mpff_encode_sizes avctx).image_row_size →
      (mpff_encode_frame alloc avctx pkt pict gp).pkt.data
          (26 + (r : Int) * ((mpff_encode_sizes avctx).image_row_size
            + (mpff_encode_sizes avctx).padding_row_size) + c)
        = pict.data ((r : Int) * pict.linesize + c)) ∧
    (∀ (r : Nat) (c : Int), (r : Int) < avctx.height →
      (mpff_encode_sizes avctx).image_row_size ≤ c →
      c < (mpff_encode_sizes avctx).image_row_size
        + (mpff_encode_sizes avctx).padding_row_size →
      (mpff_encode_frame alloc avctx pkt pict gp).pkt.data
          (26 + (r : Int) * ((mpff_encode_sizes avctx).image_row_size
            + (mpff_encode_sizes avctx).padding_row_size) + c)
        = 0) ∧
    (mpff_encode_sizes avctx).file_size
      = 26 + avctx.height * ((mpff_encode_sizes avctx).image_row_size
          + (mpff_encode_sizes avctx).padding_row_size) ∧
    (mpff_encode_frame alloc avctx pkt pict gp).pkt.size = (mpff_encode_sizes avctx).file_size ∧
    (∀ j : Int, j < 0 ∨ (mpff_encode_sizes avctx).file_size ≤ j →
      (mpff_encode_frame alloc avctx pkt pict gp).pkt.data j
        = (alloc (mpff_encode_props avctx) pkt (mpff_encode_sizes avctx).file_size).2.data j) ∧
    (∀ (alloc2 : AVCodecContext → AVPacket → Int → Int × AVPacket) (pkt2 : AVPacket),
      AllocGrants alloc2 (mpff_encode_sizes avctx).file_size →
      ∀ j : Int, 0 ≤ j → j < (mpff_encode_sizes avctx).file_size →
        (mpff_encode_frame alloc avctx pkt pict gp).pkt.data j
          = (mpff_encode_frame alloc2 avctx pkt2 pict gp).pkt.data j) := by
  obtain ⟨e1, e2, e3⟩ := encode_sizes_depth8 avctx hd (by omega) hw1
  have hp := padding_bounds avctx
  have hret := (halloc (mpff_encode_props avctx) pkt).1
  have hsize := (halloc (mpff_encode_props avctx) pkt).2
  have hi0 : 0 ≤ (mpff_encode_sizes avctx).image_row_size := by omega
  have hi1 : (mpff_encode_sizes avctx).image_row_size < 4294967296 := by omega
  have hwire0 : 0 ≤ (mpff_encode_sizes avctx).image_row_size
      + (mpff_encode_sizes avctx).padding_row_size := by omega
  have hhw : 0 ≤ avctx.height * ((mpff_encode_sizes avctx).image_row_size
      + (mpff_encode_sizes avctx).padding_row_size) := Int.mul_nonneg hh0 hwire0
  have hfs := encode_file_size_eq avctx hd hw0 hw1 hrow (by omega) hfile
  have hdata := encode_frame_ok alloc avctx pkt pict gp hret
  have htn : ((avctx.height.toNat : Nat) : Int) = avctx.height := by omega
  refine ⟨encode_image_row_size_ceil avctx hd (by omega) hw1, ?_, ?_, hfs, ?_, ?_, ?_⟩
  · intro r c hr hc0 hc1
    exact encode_frame_pixel_at alloc avctx pkt pict gp hd hw0 hw1 hret r c hr hc0 hc1
  · intro r c hr hc0 hc1
    exact encode_frame_padding_at alloc avctx pkt pict gp hd hw0 hw1 hret r c hr hc0 hc1
  · rw [hdata]
    exact hsize
  · intro j hj
    rw [hdata]
    simp only
    rw [e3]
    rcases hj with hj | hj
    · rw [encode_rows_below _ _ _ _ hi0 hi1 hp.1 (by omega) _ _ _ _ _ (by omega)]
      exact encode_header_frame _ _ _ _ _ _ (Or.inl hj)
    · rw [encode_rows_above _ _ _ _ hi0 hi1 hp.1 (by omega) _ _ _ _ _ (by rw [htn]; omega)]
      exact encode_header_frame _ _ _ _ _ _ (Or.inr (by omega))
  · intro alloc2 pkt2 halloc2 j hj0 hj1
    have hret2 := (halloc2 (mpff_encode_props avctx) pkt2).1
    rw [hdata, encode_frame_ok alloc2 avctx pkt2 pict gp hret2]
    simp only
    rw [e3]
    by_cases hj : j < 26
    · rw [encode_rows_below _ _ _ _ hi0 hi1 hp.1 (by omega) _ _ _ _ _ hj,
        encode_rows_below _ _ _ _ hi0 hi1 hp.1 (by omega) _ _ _ _ _ hj]
      apply bytes_eq_pointwise _ _ 26 _ j hj0 (by omega)
      rw [encode_header_wire _ avctx hd, encode_header_wire _ avctx hd]
    · exact encode_rows_covered _ _ _ _ hi0 hi1 hp.1 (by omega) _ _ _ _ _ _ (by omega)
        (by rw [htn]; omega)

/-- Witness of C5: a 5 x 3 image with source stride 7; row 2, column 4 of the
source lands at offset `26 + 2 * 8 + 4`, and the packet has 50 bytes. -/
theorem encode_pixel_rows_witness :
    (mpff_encode_frame alloc_any (ctx8 5 3) pkt0 (ramp_frame 7) 0).pkt.data
        (26 + ((2 : Nat) : Int) * ((mpff_encode_sizes (ctx8 5 3)).image_row_size
          + (mpff_encode_sizes (ctx8 5 3)).padding_row_size) + 4)
      = (ramp_frame 7).data (((2 : Nat) : Int) * (ramp_frame 7).linesize + 4) ∧
    (mpff_encode_frame alloc_any (ctx8 5 3) pkt0 (ramp_frame 7) 0).pkt.size
      = (mpff_encode_sizes (ctx8 5 3)).file_size ∧
    (mpff_encode_sizes (ctx8 5 3)).file_size = 50 := by
  have h := encode_pixel_rows alloc_any (ctx8 5 3) pkt0 (ramp_frame 7) 0 rfl (by decide)
    (by decide) (by decide) (by decide) (by decide) (fun _ _ => ⟨Int.le_refl 0, rfl⟩)
  exact ⟨h.2.1 2 4 (by decide) (by decide) (by decide), h.2.2.2.2.1, by decide⟩

/-- C6 (row alignment).  At depth 8, for every width >= 0 with `width * 8 + 7`
inside the range of `int`: `image_row_size` is `(width * depth + 7) >> 3`,
which is `ceil(width * 8 / 8)`; `padding_row_size` is
`(4 - image_row_size) & 3`; and the wire row size
`image_row_size + padding_row_size` is a multiple of 4, is at least
`image_row_size`, and exceeds it by at most 3. -/
theorem row_alignment (avctx : AVCodecContext) (hd : avctx.bits_per_coded_sample = 8)
    (h0 : 0 ≤ avctx.width) (h1 : avctx.width * 8 + 7 ≤ 2147483647) :
    (mpff_encode_sizes avctx).image_row_size
        = toInt32 ((avctx.width * avctx.bits_per_coded_sample + 7) / 8) ∧
    (mpff_encode_sizes avctx).padding_row_size
        = and32 (toInt32 (4 - (mpff_encode_sizes avctx).image_row_size)) 3 ∧
    (mpff_encode_sizes avctx).image_row_size = ⌈((avctx.width : ℚ) * 8) / 8⌉ ∧
    ((mpff_encode_sizes avctx).image_row_size
        + (mpff_encode_sizes avctx).padding_row_size) % 4 = 0 ∧
    (mpff_encode_sizes avctx).image_row_size
        ≤ (mpff_encode_sizes avctx).image_row_size
          + (mpff_encode_sizes avctx).padding_row_size ∧
    (mpff_encode_sizes avctx).image_row_size
          + (mpff_encode_sizes avctx).padding_row_size
        ≤ (mpff_encode_sizes avctx).image_row_size + 3 := by
  obtain ⟨e1, e2, -⟩ := encode_sizes_depth8 avctx hd (by omega) (by omega)
  refine ⟨rfl, rfl, encode_image_row_size_ceil avctx hd (by omega) (by omega), ?_, ?_, ?_⟩
  · rw [e1, e2]; omega
  · rw [e1, e2]; omega
  · rw [e1, e2]; omega

/-- Witness of C6: width 5 gives a packed row of 5 bytes, 3 bytes of padding
and a wire row of 8 bytes. -/
theorem row_alignment_witness :
    (mpff_encode_sizes (ctx8 5 3)).image_row_size = 5 ∧
    (mpff_encode_sizes (ctx8 5 3)).padding_row_size = 3 ∧
    ((mpff_encode_sizes (ctx8 5 3)).image_row_size
        + (mpff_encode_sizes (ctx8 5 3)).padding_row_size) % 4 = 0 := by
  have h := row_alignment (ctx8 5 3) rfl (by decide) (by decide)
  exact ⟨by decide, by decide, h.2.2.2.1⟩

/-- C7 (magic rejection).  For every packet of size >= 12 whose first four
bytes are not 'M','P','F','F', the decoder returns `AVERROR_INVALIDDATA` (a
negative value) and logs the magic-number message only; the context, the
frame behind `data` and `*got_frame` are exactly as they were, and the result
does not depend on the frame allocator, which is not called. -/
theorem decode_magic_rejection
    (gb : AVCodecContext → AVFrame → Int × AVFrame)
    (avctx : AVCodecContext) (data : AVFrame) (gf : Int) (avpkt : AVPacket)
    (hsize : 12 ≤ avpkt.size) (hmagic : ¬ MagicOk avpkt) :
    mpff_decode_frame gb avctx data gf avpkt =
      { ret := AVERROR_INVALIDDATA, avctx := avctx, picture := data, got_frame := gf,
        log := [LogEvent.incorrect_magic_number] } ∧
    AVERROR_INVALIDDATA < 0 :=
  ⟨decode_frame_of_header_error gb avctx data gf avpkt _ _
    (decode_header_bad_magic avpkt hsize hmagic), by decide⟩

/-- Witness of C7: a 100-byte packet starting with "MPFG". -/
theorem decode_magic_rejection_witness :
    12 ≤ (packet_of [77, 80, 70, 71] 100).size ∧
    ¬ MagicOk (packet_of [77, 80, 70, 71] 100) ∧
    mpff_decode_frame get_buffer_any (ctx8 0 0) frame0 0 (packet_of [77, 80, 70, 71] 100) =
      { ret := AVERROR_INVALIDDATA, avctx := ctx8 0 0, picture := frame0, got_frame := 0,
        log := [LogEvent.incorrect_magic_number] } :=
  ⟨by decide, by decide,
    (decode_magic_rejection get_buffer_any (ctx8 0 0) frame0 0
      (packet_of [77, 80, 70, 71] 100) (by decide) (by decide)).1⟩

/-- C8 (oversize rejection).  For a packet of size >= 12 with valid magic
whose 32-bit fields at offsets 8 and 12 are `header_size` and
`info_header_size`: if `info_header_size + 12 > header_size` as integers (no
32-bit wrap) the decoder returns `AVERROR_INVALIDDATA`, its last message is
the invalid-header-size one, and no other state changes; if
`info_header_size + 12 = header_size` the invalid-header-size message is not
logged, that is, this check does not fail. -/
theorem decode_oversize_rejection
    (gb : AVCodecContext → AVFrame → Int × AVFrame)
    (avctx : AVCodecContext) (data : AVFrame) (gf : Int) (avpkt : AVPacket)
    (header_size info_header_size : Int)
    (hsize : 12 ≤ avpkt.size) (hmagic : MagicOk avpkt)
    (hhs : bytestream_get_le32 avpkt.data 8 = header_size)
    (hihs : bytestream_get_le32 avpkt.data 12 = info_header_size) :
    (info_header_size + 12 > header_size →
      mpff_decode_frame gb avctx data gf avpkt =
        { ret := AVERROR_INVALIDDATA, avctx := avctx, picture := data, got_frame := gf,
          log := (if toUInt32 avpkt.size < bytestream_get_le32 avpkt.data 4 then
              [LogEvent.expected_more_data avpkt.size (bytestream_get_le32 avpkt.data 4)]
            else []) ++ [LogEvent.invalid_header_size header_size] }) ∧
    (info_header_size + 12 = header_size →
      ∀ x, LogEvent.invalid_header_size x ∉ (mpff_decode_frame gb avctx data gf avpkt).log) := by
  have hdr := decode_header_after_magic avpkt hsize hmagic
  rw [hhs, hihs] at hdr
  constructor
  · intro h
    rw [if_pos h] at hdr
    exact decode_frame_of_header_error gb avctx data gf avpkt _ _ hdr
  · intro h x
    rw [if_neg (by omega)] at hdr
    rw [decode_frame_log, hdr]
    split_ifs <;> simp

/-- Witness of C8: `info_header_size = 2^32 - 1` with `header_size = 26` is
rejected, the sum being taken without wrap-around. -/
theorem decode_oversize_rejection_witness :
    bytestream_get_le32 (packet_of oversize_header 1024).data 12 = 4294967295 ∧
    (mpff_decode_frame get_buffer_any (ctx8 0 0) frame0 0
      (packet_of oversize_header 1024)).ret = AVERROR_INVALIDDATA ∧
    (mpff_decode_frame get_buffer_any (ctx8 0 0) frame0 0
      (packet_of oversize_header 1024)).log = [LogEvent.invalid_header_size 26] := by
  have h := (decode_oversize_rejection get_buffer_any (ctx8 0 0) frame0 0
    (packet_of oversize_header 1024) 26 4294967295 (by decide) (by decide) (by decide)
    (by decide)).1 (by decide)
  rw [h]
  exact ⟨by decide, rfl, by decide⟩

/-- Counterexample to C9 as stated: a 20-byte packet with valid magic,
`header_size = 26`, `info_header_size = 14` and declared
`file_size = 26 = info_header_size + 12`.  The clamp first replaces
`file_size` by 20, so the quirk test does not fire: the effective `file_size`
is 20, not `20 - 2`. -/
theorem decode_quirk_clamped_counterexample :
    12 ≤ (packet_of quirk_header 20).size ∧
    MagicOk (packet_of quirk_header 20) ∧
    bytestream_get_le32 (packet_of quirk_header 20).data 12 + 12
      ≤ bytestream_get_le32 (packet_of quirk_header 20).data 8 ∧
    bytestream_get_le32 (packet_of quirk_header 20).data 4
      = bytestream_get_le32 (packet_of quirk_header 20).data 12 + 12 ∧
    mpff_decode_file_size (packet_of quirk_header 20) = 20 ∧
    mpff_decode_file_size (packet_of quirk_header 20) ≠ (packet_of quirk_header 20).size - 2 ∧
    mpff_decode_header (packet_of quirk_header 20)
      = ([LogEvent.expected_more_data 20 26, LogEvent.file_size_less_than_header 20 26],
          Except.error AVERROR_INVALIDDATA) := by
  refine ⟨by decide, by decide, by decide, by decide, by decide, by decide, by decide⟩

/-- C9 (quirk normalization, amended).  For every packet of size `L >= 12`
(an `int`) with valid magic and `info_header_size + 12 <= header_size` whose
declared `file_size` is 12 or `info_header_size + 12`: if the declared
`file_size` is at most `L`, or `L = 12`, the effective `file_size` is
`L - 2`; otherwise the clamp has replaced it by `L` and it stays `L`.  In
every case the `file_size > header_size` check is made on the effective
value, and the checking block succeeds exactly when `L - 2 > header_size`,
in which case it yields `file_size = L - 2`. -/
theorem decode_quirk_normalization (avpkt : AVPacket)
    (file_size header_size info_header_size : Int)
    (hsize : 12 ≤ avpkt.size) (hint : avpkt.size ≤ 2147483647)
    (hmagic : MagicOk avpkt)
    (hfs : bytestream_get_le32 avpkt.data 4 = file_size)
    (hhs : bytestream_get_le32 avpkt.data 8 = header_size)
    (hihs : bytestream_get_le32 avpkt.data 12 = info_header_size)
    (hle : info_header_size + 12 ≤ header_size)
    (hq : file_size = 12 ∨ file_size = info_header_size + 12) :
    (file_size ≤ avpkt.size ∨ avpkt.size = 12 →
      mpff_decode_file_size avpkt = avpkt.size - 2) ∧
    (avpkt.size < file_size → avpkt.size ≠ 12 →
      mpff_decode_file_size avpkt = avpkt.size) ∧
    (avpkt.size - 2 > header_size →
      mpff_decode_header avpkt
        = ([], Except.ok ⟨avpkt.size - 2, header_size, info_header_size⟩)) ∧
    (¬ avpkt.size - 2 > header_size →
      mpff_decode_header avpkt
        = ((if avpkt.size < file_size then
              [LogEvent.expected_more_data avpkt.size file_size] else [])
            ++ [LogEvent.file_size_less_than_header (mpff_decode_file_size avpkt) header_size],
          Except.error AVERROR_INVALIDDATA)) := by
  have hb4 := get_le32_bounds avpkt.data 4
  have hb8 := get_le32_bounds avpkt.data 8
  have hb12 := get_le32_bounds avpkt.data 12
  rw [hfs] at hb4
  rw [hhs] at hb8
  rw [hihs] at hb12
  have hu : toUInt32 avpkt.size = avpkt.size := toUInt32_of_range _ (by omega) (by omega)
  have hu2 : toUInt32 (avpkt.size - 2) = avpkt.size - 2 :=
    toUInt32_of_range _ (by omega) (by omega)
  have hu3 : toUInt32 (info_header_size + 12) = info_header_size + 12 :=
    toUInt32_of_range _ (by omega) (by omega)
  have hdr := decode_header_after_magic avpkt hsize hmagic
  rw [hfs, hhs, hihs, hu, if_neg (by omega)] at hdr
  have hfsz : mpff_decode_file_size avpkt =
      if (if avpkt.size < file_size then avpkt.size else file_size) = 12 ∨
          (if avpkt.size < file_size then avpkt.size else file_size) = info_header_size + 12
      then avpkt.size - 2
      else (if avpkt.size < file_size then avpkt.size else file_size) := by
    simp only [mpff_decode_file_size, mpff_decode_clamped_file_size, hfs, hihs, hu, hu2, hu3]
  have e1 : file_size ≤ avpkt.size ∨ avpkt.size = 12 →
      mpff_decode_file_size avpkt = avpkt.size - 2 := by
    intro h
    rw [hfsz]
    split_ifs <;> omega
  have e2 : avpkt.size < file_size → avpkt.size ≠ 12 →
      mpff_decode_file_size avpkt = avpkt.size := by
    intro h h2
    rw [hfsz]
    split_ifs <;> omega
  refine ⟨e1, e2, ?_, ?_⟩
  · intro h
    have hno : ¬ avpkt.size < file_size := by omega
    have hv := e1 (Or.inl (by omega))
    rw [hdr, if_neg (by omega), if_neg hno, hv]
  · intro h
    have hv : mpff_decode_file_size avpkt ≤ header_size := by
      by_cases hc : file_size ≤ avpkt.size ∨ avpkt.size = 12
      · rw [e1 hc]; omega
      · rw [e2 (by omega) (by omega)]; omega
    rw [hdr, if_pos hv]

/-- Witness of C9 (amended): `header_size = 26`, `info_header_size = 14`,
declared `file_size = 26`, 1000 bytes: the effective `file_size` is 998 and
the header is accepted. -/
theorem decode_quirk_normalization_witness :
    mpff_decode_file_size (packet_of quirk_header 1000) = 998 ∧
    mpff_decode_header (packet_of quirk_header 1000)
      = ([], Except.ok ⟨998, 26, 14⟩) := by
  have h := decode_quirk_normalization (packet_of quirk_header 1000) 26 26 14
    (by decide) (by decide) (by decide) (by decide) (by decide) (by decide) (by decide)
    (Or.inr (by decide))
  exact ⟨h.1 (Or.inl (by decide)), h.2.2.1 (by decide)⟩

/-- C10 (truncation clamp).  For every packet of size `L >= 12` (an `int`)
with valid magic whose declared `file_size` is greater than `L`, and with
`info_header_size + 12 <= header_size < L`: the clamp sets `file_size` to
`L`, the quirk test leaves it, the `file_size > header_size` check passes and
the checking block succeeds, having logged only the more-data-expected
warning. -/
theorem decode_truncation_clamp (avpkt : AVPacket)
    (file_size header_size info_header_size : Int)
    (hsize : 12 ≤ avpkt.size) (hint : avpkt.size ≤ 2147483647)
    (hmagic : MagicOk avpkt)
    (hfs : bytestream_get_le32 avpkt.data 4 = file_size)
    (hhs : bytestream_get_le32 avpkt.data 8 = header_size)
    (hihs : bytestream_get_le32 avpkt.data 12 = info_header_size)
    (hbig : avpkt.size < file_size)
    (hle : info_header_size + 12 ≤ header_size) (hlt : header_size < avpkt.size) :
    mpff_decode_clamped_file_size avpkt = avpkt.size ∧
    mpff_decode_file_size avpkt = avpkt.size ∧
    mpff_decode_header avpkt
      = ([LogEvent.expected_more_data avpkt.size file_size],
          Except.ok ⟨avpkt.size, header_size, info_header_size⟩) := by
  have hb8 := get_le32_bounds avpkt.data 8
  have hb12 := get_le32_bounds avpkt.data 12
  rw [hhs] at hb8
  rw [hihs] at hb12
  have hu : toUInt32 avpkt.size = avpkt.size := toUInt32_of_range _ (by omega) (by omega)
  have hu3 : toUInt32 (info_header_size + 12) = info_header_size + 12 :=
    toUInt32_of_range _ (by omega) (by omega)
  have hc : mpff_decode_clamped_file_size avpkt = avpkt.size := by
    simp only [mpff_decode_clamped_file_size, hfs, hu]
    rw [if_pos hbig]
  have hf : mpff_decode_file_size avpkt = avpkt.size := by
    simp only [mpff_decode_file_size, hc, hihs, hu3]
    rw [if_neg (by omega)]
  have hdr := decode_header_after_magic avpkt hsize hmagic
  rw [hfs, hhs, hihs, hu, if_neg (by omega), hf, if_neg (by omega), if_pos hbig] at hdr
  exact ⟨hc, hf, hdr⟩

/-- Witness of C10: declared `file_size = 5000`, 500 bytes, `header_size = 26`:
the header is accepted with `file_size = 500`. -/
theorem decode_truncation_clamp_witness :
    mpff_decode_header (packet_of long_header 500)
      = ([LogEvent.expected_more_data 500 5000], Except.ok ⟨500, 26, 14⟩) :=
  (decode_truncation_clamp (packet_of long_header 500) 5000 26 14
    (by decide) (by decide) (by decide) (by decide) (by decide) (by decide) (by decide)
    (by decide) (by decide)).2.2

/-- C11 (unsupported depth), evaluated at the failing input: a 1000-byte
input that passes the size, magic and header-size checks and whose depth
field is 16.  The decoder raises no error: it returns the packet size 1000,
sets `got_frame` and logs nothing; the frame it asks for is an `RGB8` frame
of width 4 (4 bytes per row), while the row size it copies, computed from
depth 16, is 8 bytes. -/
theorem decode_depth16_accepted :
    bytestream_get_le16 (packet_of depth16_header 1000).data 24 = 16 ∧
    mpff_decode_header (packet_of depth16_header 1000)
      = ([], Except.ok ⟨1000, 26, 14⟩) ∧
    (mpff_decode_frame get_buffer_any (ctx8 0 0) frame0 0
      (packet_of depth16_header 1000)).ret = 1000 ∧
    (mpff_decode_frame get_buffer_any (ctx8 0 0) frame0 0
      (packet_of depth16_header 1000)).got_frame = 1 ∧
    (mpff_decode_frame get_buffer_any (ctx8 0 0) frame0 0
      (packet_of depth16_header 1000)).log = [] ∧
    (mpff_decode_frame get_buffer_any (ctx8 0 0) frame0 0
      (packet_of depth16_header 1000)).avctx.pix_fmt = AVPixelFormat.AV_PIX_FMT_RGB8 ∧
    (mpff_decode_frame get_buffer_any (ctx8 0 0) frame0 0
      (packet_of depth16_header 1000)).avctx.width = 4 ∧
    mpff_decode_linesize
      (toInt32 (bytestream_get_le32 (packet_of depth16_header 1000).data 16))
      (bytestream_get_le16 (packet_of depth16_header 1000).data 24) = 8 := by
  have hh : mpff_decode_header (packet_of depth16_header 1000)
      = ([], Except.ok ⟨1000, 26, 14⟩) := by decide
  have hw : (mpff_decode_dims (ctx8 0 0) (packet_of depth16_header 1000)).width = 4 := by
    rw [(decode_dims_fields _ _).1]; decide
  have hp := (decode_dims_fields (ctx8 0 0) (packet_of depth16_header 1000)).2.2
  have h := decode_frame_ok_fields get_buffer_any (ctx8 0 0) frame0 0
    (packet_of depth16_header 1000) _ _ hh (Int.le_refl 0)
  generalize mpff_decode_frame get_buffer_any (ctx8 0 0) frame0 0
    (packet_of depth16_header 1000) = dec at h ⊢
  exact ⟨by decide, hh, h.1, h.2.2.1, h.2.2.2.1,
    (congrArg AVCodecContext.pix_fmt h.2.1).trans hp,
    (congrArg AVCodecContext.width h.2.1).trans hw, by decide⟩

/-- C12 (truncated pixel data), evaluated at the failing input: a 27-byte
input whose header is accepted (`header_size = 26`, 4 x 2 pixels at depth 8,
so `header_size + abs(height) * stride = 34 > 27`).  The decoder raises no
error: it returns 27 with `got_frame = 1`, and the row loop reads the input
index 33, which is not below 27. -/
theorem decode_truncated_accepted :
    mpff_decode_header (packet_of long_header 27)
      = ([LogEvent.expected_more_data 27 5000], Except.ok ⟨27, 26, 14⟩) ∧
    bytestream_get_le32 (packet_of long_header 27).data 8
        + |toInt32 (bytestream_get_le32 (packet_of long_header 27).data 20)|
          * mpff_decode_linesize
              (toInt32 (bytestream_get_le32 (packet_of long_header 27).data 16))
              (bytestream_get_le16 (packet_of long_header 27).data 24)
      > (packet_of long_header 27).size ∧
    (mpff_decode_frame get_buffer_any (ctx8 0 0) frame0 0 (packet_of long_header 27)).ret = 27 ∧
    (mpff_decode_frame get_buffer_any (ctx8 0 0) frame0 0
      (packet_of long_header 27)).got_frame = 1 ∧
    IsRead (mpff_decode_reads (ctx8 0 0) (packet_of long_header 27)) 33 ∧
    ¬ (33 : Int) < (packet_of long_header 27).size := by
  have hh : mpff_decode_header (packet_of long_header 27)
      = ([LogEvent.expected_more_data 27 5000], Except.ok ⟨27, 26, 14⟩) := by decide
  have h := decode_frame_ok_fields get_buffer_any (ctx8 0 0) frame0 0
    (packet_of long_header 27) _ _ hh (Int.le_refl 0)
  exact ⟨hh, by decide, h.1, h.2.2.1, by decide, by decide⟩

/-- C13 (accepted headers place the pixel data inside the input).  For every
input of length `L` (an `int`) on which the checking block succeeds: `L >= 12`,
the magic is valid, the locals are the fields at offsets 8 and 12 and the
effective `file_size` (after clamp and quirk normalization),
`info_header_size + 12 <= header_size`, `file_size > header_size`, and so
`12 <= header_size < L`, in particular `header_size <= L`. -/
theorem accepted_header_inside_input (avpkt : AVPacket) (log : List LogEvent)
    (hdr : DecHeader) (hint : avpkt.size ≤ 2147483647)
    (hh : mpff_decode_header avpkt = (log, Except.ok hdr)) :
    12 ≤ avpkt.size ∧ MagicOk avpkt ∧
    hdr.header_size = bytestream_get_le32 avpkt.data 8 ∧
    hdr.info_header_size = bytestream_get_le32 avpkt.data 12 ∧
    hdr.file_size = mpff_decode_file_size avpkt ∧
    hdr.info_header_size + 12 ≤ hdr.header_size ∧
    hdr.header_size < hdr.file_size ∧
    12 ≤ hdr.header_size ∧ hdr.header_size < avpkt.size ∧
    hdr.header_size ≤ avpkt.size := by
  obtain ⟨h1, h2, h3, h4, h5, -⟩ := decode_header_ok_inv avpkt log hdr hh
  have h6 := decode_file_size_le avpkt h1 hint
  have hb := get_le32_bounds avpkt.data 12
  subst h5
  refine ⟨h1, h2, rfl, rfl, rfl, h3, h4, ?_, ?_, ?_⟩ <;> dsimp only <;> omega

/-- Witness of C13: with 500 bytes and `header_size = 26`, 26 is below the
input length. -/
theorem accepted_header_inside_input_witness :
    (26 : Int) < (packet_of long_header 500).size :=
  (accepted_header_inside_input (packet_of long_header 500)
    [LogEvent.expected_more_data 500 5000] ⟨500, 26, 14⟩ (by decide)
    (by decide)).2.2.2.2.2.2.2.2.1

/-- Counterexample to C14 as stated: an accepted 1000-byte input of width
`2^29`, height 1 and depth 8 whose first pixel byte (offset 26) is 11,
decoded into a zeroed frame of line size `2^29`.  The stride of the claim,
`pixelsPerRowStride`, is `2^29`, so row 0, column 0 is in range; but the
decoder's line size has wrapped to 0, nothing is copied, and output byte 0
is 0, not the input byte 11. -/
theorem decode_row_copy_wrap_counterexample :
    mpff_decode_header (packet_of wide_image 1000) = ([], Except.ok ⟨1000, 26, 14⟩) ∧
    (mpff_decode_frame get_buffer_any (ctx8 0 0) frame0 0
      (packet_of wide_image 1000)).ret = 1000 ∧
    (mpff_decode_frame get_buffer_any (ctx8 0 0) frame0 0
      (packet_of wide_image 1000)).got_frame = 1 ∧
    pixelsPerRowStride (toInt32 (bytestream_get_le32 (packet_of wide_image 1000).data 16))
      (bytestream_get_le16 (packet_of wide_image 1000).data 24) = 536870912 ∧
    (mpff_decode_frame get_buffer_any (ctx8 0 0) frame0 0
      (packet_of wide_image 1000)).picture.linesize = 536870912 ∧
    |toInt32 (bytestream_get_le32 (packet_of wide_image 1000).data 20)| = 1 ∧
    (packet_of wide_image 1000).data 26 = 11 ∧
    (mpff_decode_frame get_buffer_any (ctx8 0 0) frame0 0
      (packet_of wide_image 1000)).picture.data 0 = 0 := by
  have hh : mpff_decode_header (packet_of wide_image 1000)
      = ([], Except.ok ⟨1000, 26, 14⟩) := by decide
  have hw : (mpff_decode_dims (ctx8 0 0) (packet_of wide_image 1000)).width
      = 536870912 := by
    rw [(decode_dims_fields _ _).1]; decide
  have hf := decode_frame_ok_fields get_buffer_any (ctx8 0 0) frame0 0
    (packet_of wide_image 1000) _ _ hh (Int.le_refl 0)
  have hl := (decode_frame_ok_data get_buffer_any (ctx8 0 0) frame0 0
    (packet_of wide_image 1000) _ _ hh (Int.le_refl 0)).1
  have hz : mpff_decode_linesize (mpff_decode_dims (ctx8 0 0) (packet_of wide_image 1000)).width
      (bytestream_get_le16 (packet_of wide_image 1000).data 24) = 0 := by
    rw [hw, decode_linesize_eq]; decide
  have hdata := decode_frame_data_of_zero_linesize get_buffer_any (ctx8 0 0) frame0 0
    (packet_of wide_image 1000) _ _ hh (Int.le_refl 0) hz
  have hpps : pixelsPerRowStride
      (toInt32 (bytestream_get_le32 (packet_of wide_image 1000).data 16))
      (bytestream_get_le16 (packet_of wide_image 1000).data 24) = 536870912 := by
    rw [pixelsPerRowStride_eq]; decide
  generalize mpff_decode_frame get_buffer_any (ctx8 0 0) frame0 0
    (packet_of wide_image 1000) = dec at hf hl hdata ⊢
  refine ⟨hh, hf.1, hf.2.2.1, hpps, hl.trans hw, by decide, by decide, ?_⟩
  rw [hdata]
  rfl

/-- C14 (decoder row copy, amended).  For every accepted input whose width
field is >= 0 with `width * depth + 31 < 2^32` (the decoder's line size does
not wrap) and whose height field is not `INT_MIN`, and every frame whose
line size `s` is at least `pixelsPerRowStride`, after a successful decode,
for every row `r` with `0 <= r < abs(height)` and every
`0 <= c < pixelsPerRowStride`, output byte `r * s + c` equals input byte
`header_size + r * pixelsPerRowStride + c`.  The pixel data start at
`header_size`, the field at offset 8; the offset is built from it and from
the stride (width and depth fields) only: `info_header_size` does not occur
in it. -/
theorem decode_row_copy
    (gb : AVCodecContext → AVFrame → Int × AVFrame)
    (avctx : AVCodecContext) (data : AVFrame) (gf : Int) (avpkt : AVPacket)
    (log : List LogEvent) (hdr : DecHeader)
    (hh : mpff_decode_header avpkt = (log, Except.ok hdr))
    (hret : 0 ≤ (gb (mpff_decode_dims avctx avpkt) data).1)
    (hw : 0 ≤ toInt32 (bytestream_get_le32 avpkt.data 16))
    (hfit : toInt32 (bytestream_get_le32 avpkt.data 16) * bytestream_get_le16 avpkt.data 24
      + 31 < 4294967296)
    (hmin : -2147483648 < toInt32 (bytestream_get_le32 avpkt.data 20))
    (hstride : pixelsPerRowStride (toInt32 (bytestream_get_le32 avpkt.data 16))
        (bytestream_get_le16 avpkt.data 24)
      ≤ (gb (mpff_decode_dims avctx avpkt) data).2.linesize) :
    (mpff_decode_frame gb avctx data gf avpkt).picture.linesize
      = (gb (mpff_decode_dims avctx avpkt) data).2.linesize ∧
    hdr.header_size = bytestream_get_le32 avpkt.data 8 ∧
    (∀ (r : Nat) (c : Int),
      (r : Int) < |toInt32 (bytestream_get_le32 avpkt.data 20)| →
      0 ≤ c →
      c < pixelsPerRowStride (toInt32 (bytestream_get_le32 avpkt.data 16))
        (bytestream_get_le16 avpkt.data 24) →
      (mpff_decode_frame gb avctx data gf avpkt).picture.data
          ((r : Int) * (mpff_decode_frame gb avctx data gf avpkt).picture.linesize + c)
        = avpkt.data (hdr.header_size
            + (r : Int) * pixelsPerRowStride (toInt32 (bytestream_get_le32 avpkt.data 16))
                (bytestream_get_le16 avpkt.data 24) + c)) := by
  have hps : mpff_decode_linesize (toInt32 (bytestream_get_le32 avpkt.data 16))
      (bytestream_get_le16 avpkt.data 24)
      = pixelsPerRowStride (toInt32 (bytestream_get_le32 avpkt.data 16))
        (bytestream_get_le16 avpkt.data 24) := by
    rw [pixelsPerRowStride_eq,
      decode_linesize_of_fit _ _ hw (get_le16_bounds avpkt.data 24).1 hfit]
  have habs := decode_dims_height_abs avctx avpkt hmin
  obtain ⟨-, -, -, -, h5, -⟩ := decode_header_ok_inv avpkt log hdr hh
  have hhs : hdr.header_size = bytestream_get_le32 avpkt.data 8 := by rw [h5]
  obtain ⟨-, -, h3, h4⟩ := decode_frame_rows_copied gb avctx data gf avpkt log hdr hh hret
    (by rw [hps]; exact hstride)
  rw [hps, habs, ← hhs] at h4
  exact ⟨h3, hhs, h4⟩

/-- Witness of C14 (amended): the first output byte of the 1 x 1 image is the
input byte at offset 26. -/
theorem decode_row_copy_witness :
    (mpff_decode_frame (get_buffer_stride 8) (ctx8 0 0) frame0 0
        (packet_of padded_image 30)).picture.data 0 = 200 := by
  have h := (decode_row_copy (get_buffer_stride 8) (ctx8 0 0) frame0 0
    (packet_of padded_image 30) [] ⟨30, 26, 14⟩ (by decide) (Int.le_refl 0)
    (by decide) (by decide) (by decide)
    (by rw [pixelsPerRowStride_eq]; decide)).2.2 0 0 (by decide) (by decide)
    (by rw [pixelsPerRowStride_eq]; decide)
  generalize mpff_decode_frame (get_buffer_stride 8) (ctx8 0 0) frame0 0
      (packet_of padded_image 30) = dec at h ⊢
  simp only [Nat.cast_zero, Int.zero_mul, Int.zero_add, Int.add_zero] at h
  rw [h]
  decide

/-- C15 (height sign), evaluated at the failing input: an accepted 1000-byte
input whose height field is `0x80000000`, that is `h = INT_MIN`.  The
negation `-height` wraps, so the height the decoder stores is `-2147483648`
(whether or not the frame is granted): it is negative and is not
`abs(h) = 2147483648`; with the frame granted the decoder returns 1000 with
`got_frame = 1` and copies no row. -/
theorem decode_height_int_min :
    mpff_decode_header (packet_of min_height_header 1000)
      = ([], Except.ok ⟨1000, 26, 14⟩) ∧
    toInt32 (bytestream_get_le32 (packet_of min_height_header 1000).data 20) = -2147483648 ∧
    |toInt32 (bytestream_get_le32 (packet_of min_height_header 1000).data 20)| = 2147483648 ∧
    (mpff_decode_frame get_buffer_any (ctx8 0 0) frame0 0
      (packet_of min_height_header 1000)).ret = 1000 ∧
    (mpff_decode_frame get_buffer_any (ctx8 0 0) frame0 0
      (packet_of min_height_header 1000)).got_frame = 1 ∧
    (mpff_decode_frame get_buffer_any (ctx8 0 0) frame0 0
      (packet_of min_height_header 1000)).avctx.height = -2147483648 ∧
    (mpff_decode_frame get_buffer_none (ctx8 0 0) frame0 0
      (packet_of min_height_header 1000)).avctx.height = -2147483648 ∧
    (mpff_decode_frame get_buffer_any (ctx8 0 0) frame0 0
      (packet_of min_height_header 1000)).picture.data = frame0.data := by
  have hh : mpff_decode_header (packet_of min_height_header 1000)
      = ([], Except.ok ⟨1000, 26, 14⟩) := by decide
  have hht : (mpff_decode_dims (ctx8 0 0) (packet_of min_height_header 1000)).height
      = -2147483648 := by
    rw [(decode_dims_fields _ _).2.1]; decide
  have hf := decode_frame_ok_fields get_buffer_any (ctx8 0 0) frame0 0
    (packet_of min_height_header 1000) _ _ hh (Int.le_refl 0)
  have hd := (decode_frame_ok_data get_buffer_any (ctx8 0 0) frame0 0
    (packet_of min_height_header 1000) _ _ hh (Int.le_refl 0)).2
  have hn := decode_frame_alloc_fail_fields get_buffer_none (ctx8 0 0) frame0 0
    (packet_of min_height_header 1000) _ _ hh (by decide)
  rw [hht] at hd
  generalize mpff_decode_frame get_buffer_any (ctx8 0 0) frame0 0
    (packet_of min_height_header 1000) = dec at hf hd ⊢
  generalize mpff_decode_frame get_buffer_none (ctx8 0 0) frame0 0
    (packet_of min_height_header 1000) = dec2 at hn ⊢
  refine ⟨hh, by decide, by decide, hf.1, hf.2.2.1,
    (congrArg AVCodecContext.height hf.2.1).trans hht,
    (congrArg AVCodecContext.height hn.2.1).trans hht, ?_⟩
  rw [hd]
  rfl

/-- Counterexample to C16 as stated: for width `2^29` and depth 8 the bit count
`width * depth` is `2^32`, which wraps to 0 in `unsigned int`: the decoder's
line size is 0, while `align_up_to_4(ceil(width * depth / 8))` and the
encoder's wire row size are both `2^29`. -/
theorem decode_linesize_wrap_counterexample :
    mpff_decode_linesize 536870912 8 = 0 ∧
    pixelsPerRowStride 536870912 8 = 536870912 ∧
    (mpff_encode_sizes (ctx8 536870912 1)).image_row_size
      + (mpff_encode_sizes (ctx8 536870912 1)).padding_row_size = 536870912 ∧
    mpff_decode_linesize 536870912 8 ≠ pixelsPerRowStride 536870912 8 ∧
    mpff_decode_linesize (ctx8 536870912 1).width 8
      ≠ (mpff_encode_sizes (ctx8 536870912 1)).image_row_size
        + (mpff_encode_sizes (ctx8 536870912 1)).padding_row_size := by
  have h1 : mpff_decode_linesize 536870912 8 = 0 := by
    rw [decode_linesize_eq]; decide
  have h2 : pixelsPerRowStride 536870912 8 = 536870912 := by
    rw [pixelsPerRowStride_eq]; decide
  have h3 : (mpff_encode_sizes (ctx8 536870912 1)).image_row_size
      + (mpff_encode_sizes (ctx8 536870912 1)).padding_row_size = 536870912 := by decide
  refine ⟨h1, h2, h3, ?_, ?_⟩
  · rw [h1, h2]; decide
  · rw [h3]
    show mpff_decode_linesize 536870912 8 ≠ 536870912
    rw [h1]; decide

/-- C16 (decoder wire stride, amended).  For every width >= 0 and depth >= 0
with `width * depth + 31 < 2^32` (the bit count does not wrap in 32-bit
unsigned arithmetic), the decoder's
`buffer_linesize = ((width * depth + 31) / 8) & ~3` equals
`align_up_to_4(ceil(width * depth / 8))`; and for depth 8 and such a width it
equals the encoder's wire row size `image_row_size + padding_row_size` for
the same width. -/
theorem decode_linesize_stride (width depth : Int) (hw : 0 ≤ width) (hd : 0 ≤ depth)
    (hfit : width * depth + 31 < 4294967296) :
    mpff_decode_linesize width depth = pixelsPerRowStride width depth ∧
    (depth = 8 → ∀ avctx : AVCodecContext, avctx.width = width →
      avctx.bits_per_coded_sample = 8 →
      mpff_decode_linesize width depth
        = (mpff_encode_sizes avctx).image_row_size
          + (mpff_encode_sizes avctx).padding_row_size) := by
  refine ⟨?_, ?_⟩
  · rw [pixelsPerRowStride_eq, decode_linesize_of_fit width depth hw hd hfit]
  · intro h8 avctx hwd hbits
    subst h8
    obtain ⟨e1, e2, -⟩ := encode_sizes_depth8 avctx hbits (by omega) (by omega)
    rw [e1, e2, hwd, decode_linesize_of_fit width 8 hw hd hfit]
    omega

/-- Witness of C16 (amended): width 5 at depth 8 gives the line size 8 on all
three sides. -/
theorem decode_linesize_stride_witness :
    mpff_decode_linesize 5 8 = pixelsPerRowStride 5 8 ∧
    mpff_decode_linesize 5 8
      = (mpff_encode_sizes (ctx8 5 3)).image_row_size
        + (mpff_encode_sizes (ctx8 5 3)).padding_row_size ∧
    mpff_decode_linesize 5 8 = 8 := by
  have h := decode_linesize_stride 5 8 (by decide) (by decide) (by decide)
  exact ⟨h.1, h.2 rfl (ctx8 5 3) rfl rfl, by rw [decode_linesize_eq]; decide⟩

/-- Counterexample to C17 as stated: a complete 30-byte file holding a 1 x 1
image at depth 8 (pixel 200, padding bytes 1, 2, 3), decoded into a frame of
line size 8 whose memory is zero.  Output offset 1 (row 0, column 1, with
`width <= 1 < stride`) held 0 before the call and holds the padding byte 1
after it. -/
theorem decode_padding_written_counterexample :
    mpff_decode_header (packet_of padded_image 30) = ([], Except.ok ⟨30, 26, 14⟩) ∧
    bytestream_get_le16 (packet_of padded_image 30).data 24 = 8 ∧
    (mpff_decode_frame (get_buffer_stride 8) (ctx8 0 0) frame0 0
      (packet_of padded_image 30)).ret = 30 ∧
    (mpff_decode_frame (get_buffer_stride 8) (ctx8 0 0) frame0 0
      (packet_of padded_image 30)).avctx.width = 1 ∧
    (mpff_decode_frame (get_buffer_stride 8) (ctx8 0 0) frame0 0
      (packet_of padded_image 30)).picture.linesize = 8 ∧
    (get_buffer_stride 8 (mpff_decode_dims (ctx8 0 0) (packet_of padded_image 30))
      frame0).2.data 1 = 0 ∧
    (mpff_decode_frame (get_buffer_stride 8) (ctx8 0 0) frame0 0
      (packet_of padded_image 30)).picture.data 1 = 1 := by
  have hh : mpff_decode_header (packet_of padded_image 30)
      = ([], Except.ok ⟨30, 26, 14⟩) := by decide
  have hw : (mpff_decode_dims (ctx8 0 0) (packet_of padded_image 30)).width = 1 := by
    rw [(decode_dims_fields _ _).1]; decide
  have hht : (mpff_decode_dims (ctx8 0 0) (packet_of padded_image 30)).height = 1 := by
    rw [(decode_dims_fields _ _).2.1]; decide
  have hf := decode_frame_ok_fields (get_buffer_stride 8) (ctx8 0 0) frame0 0
    (packet_of padded_image 30) _ _ hh (Int.le_refl 0)
  have hl := (decode_frame_ok_data (get_buffer_stride 8) (ctx8 0 0) frame0 0
    (packet_of padded_image 30) _ _ hh (Int.le_refl 0)).1
  have hp := decode_frame_pixel (get_buffer_stride 8) (ctx8 0 0) frame0 0
    (packet_of padded_image 30) _ _ 1 1 8 hh (Int.le_refl 0) hw hht
    (by decide) (by decide) 0 1 (by decide) (by decide) (by decide) (by decide)
  generalize mpff_decode_frame (get_buffer_stride 8) (ctx8 0 0) frame0 0
      (packet_of padded_image 30) = dec at hp hl hf ⊢
  have hl2 : dec.picture.linesize = 8 := hl
  rw [hl2] at hp
  simp only [Nat.cast_zero, Int.zero_mul, Int.zero_add, Int.add_zero] at hp
  refine ⟨hh, by decide, hf.1, (congrArg AVCodecContext.width hf.2.1).trans hw, hl2, rfl, ?_⟩
  rw [hp]
  decide

/-- C17 (decoder output padding, amended).  For every accepted depth-8 input
whose width field is >= 0 with `width * 8 + 31 < 2^32`, and every frame whose
line size `s` is at least `align_up_to_4(width)`: the decoder's
`buffer_linesize` is `align_up_to_4(width)`, which is at least `width`; a
successful decode writes, in every output row `r` below the height stored in
the context, the first `align_up_to_4(width)` bytes, the packed row and the
padding bytes of the wire row: output byte `r * s + c` is input byte
`header_size + r * align_up_to_4(width) + c` for
`0 <= c < align_up_to_4(width)`; every output byte at an offset `c` with
`align_up_to_4(width) <= c < s` within the row keeps the value it had in the
frame before the row loop. -/
theorem decode_row_writes
    (gb : AVCodecContext → AVFrame → Int × AVFrame)
    (avctx : AVCodecContext) (data : AVFrame) (gf : Int) (avpkt : AVPacket)
    (log : List LogEvent) (hdr : DecHeader)
    (hh : mpff_decode_header avpkt = (log, Except.ok hdr))
    (hret : 0 ≤ (gb (mpff_decode_dims avctx avpkt) data).1)
    (h8 : bytestream_get_le16 avpkt.data 24 = 8)
    (hw : 0 ≤ toInt32 (bytestream_get_le32 avpkt.data 16))
    (hfit : toInt32 (bytestream_get_le32 avpkt.data 16) * 8 + 31 < 4294967296)
    (hstride : align_up_to_4 (toInt32 (bytestream_get_le32 avpkt.data 16))
      ≤ (gb (mpff_decode_dims avctx avpkt) data).2.linesize) :
    mpff_decode_linesize (toInt32 (bytestream_get_le32 avpkt.data 16))
        (bytestream_get_le16 avpkt.data 24)
      = align_up_to_4 (toInt32 (bytestream_get_le32 avpkt.data 16)) ∧
    toInt32 (bytestream_get_le32 avpkt.data 16)
      ≤ align_up_to_4 (toInt32 (bytestream_get_le32 avpkt.data 16)) ∧
    (∀ (r : Nat) (c : Int), (r : Int) < (mpff_decode_dims avctx avpkt).height →
      0 ≤ c → c < align_up_to_4 (toInt32 (bytestream_get_le32 avpkt.data 16)) →
      (mpff_decode_frame gb avctx data gf avpkt).picture.data
          ((r : Int) * (gb (mpff_decode_dims avctx avpkt) data).2.linesize + c)
        = avpkt.data (bytestream_get_le32 avpkt.data 8
            + (r : Int) * align_up_to_4 (toInt32 (bytestream_get_le32 avpkt.data 16)) + c)) ∧
    (∀ (r : Nat) (c : Int), (r : Int) < (mpff_decode_dims avctx avpkt).height →
      align_up_to_4 (toInt32 (bytestream_get_le32 avpkt.data 16)) ≤ c →
      c < (gb (mpff_decode_dims avctx avpkt) data).2.linesize →
      (mpff_decode_frame gb avctx data gf avpkt).picture.data
          ((r : Int) * (gb (mpff_decode_dims avctx avpkt) data).2.linesize + c)
        = (gb (mpff_decode_dims avctx avpkt) data).2.data
          ((r : Int) * (gb (mpff_decode_dims avctx avpkt) data).2.linesize + c)) := by
  have hps : mpff_decode_linesize (toInt32 (bytestream_get_le32 avpkt.data 16))
      (bytestream_get_le16 avpkt.data 24)
      = align_up_to_4 (toInt32 (bytestream_get_le32 avpkt.data 16)) := by
    rw [h8, decode_linesize_depth8 _ hw hfit]
    unfold align_up_to_4
    omega
  have hle : toInt32 (bytestream_get_le32 avpkt.data 16)
      ≤ align_up_to_4 (toInt32 (bytestream_get_le32 avpkt.data 16)) := by
    unfold align_up_to_4
    omega
  obtain ⟨-, h2, h3⟩ := decode_frame_rows_written gb avctx data gf avpkt log hdr hh hret
    (by rw [hps]; exact hstride)
  rw [hps] at h2 h3
  exact ⟨hps, hle, h2, h3⟩

/-- Witness of C17 (amended): in the 1 x 1 image decoded into a frame of line
size 8, output offset 5 keeps its value. -/
theorem decode_row_writes_witness :
    (mpff_decode_frame (get_buffer_stride 8) (ctx8 0 0) frame0 0
        (packet_of padded_image 30)).picture.data 5 = frame0.data 5 := by
  have h := (decode_row_writes (get_buffer_stride 8) (ctx8 0 0) frame0 0
    (packet_of padded_image 30) [] ⟨30, 26, 14⟩ (by decide) (Int.le_refl 0)
    (by decide) (by decide) (by decide) (by decide)).2.2.2 0 5
    (by rw [(decode_dims_fields _ _).2.1]; decide) (by decide) (by decide)
  generalize mpff_decode_frame (get_buffer_stride 8) (ctx8 0 0) frame0 0
      (packet_of padded_image 30) = dec at h ⊢
  simp only [Nat.cast_zero, Int.zero_mul, Int.zero_add] at h
  exact h

/-- C18 (`info_header_size` does not influence the decoded image).  For any
two inputs of equal length that agree on every byte outside offsets 12..15
and both pass header validation, `mpff_decode_frame` leaves the same state:
the same return value, context (width, height, pixel format), frame (every
byte of the pixel memory), `got_frame` and messages, for every frame
allocator. -/
theorem decode_info_header_size_irrelevant
    (gb : AVCodecContext → AVFrame → Int × AVFrame)
    (avctx : AVCodecContext) (data : AVFrame) (gf : Int) (p1 p2 : AVPacket)
    (log1 log2 : List LogEvent) (hdr1 hdr2 : DecHeader)
    (hsize : p1.size = p2.size)
    (hsame : ∀ j : Int, j < 12 ∨ 16 ≤ j → p1.data j = p2.data j)
    (h1 : mpff_decode_header p1 = (log1, Except.ok hdr1))
    (h2 : mpff_decode_header p2 = (log2, Except.ok hdr2)) :
    mpff_decode_frame gb avctx data gf p1 = mpff_decode_frame gb avctx data gf p2 := by
  obtain ⟨-, -, a3, -, a5, a6⟩ := decode_header_ok_inv p1 log1 hdr1 h1
  obtain ⟨-, -, b3, -, b5, b6⟩ := decode_header_ok_inv p2 log2 hdr2 h2
  have e4 : bytestream_get_le32 p1.data 4 = bytestream_get_le32 p2.data 4 :=
    get_le32_congr _ _ 4 (fun j _ _ => hsame j (Or.inl (by omega)))
  have e8 : bytestream_get_le32 p1.data 8 = bytestream_get_le32 p2.data 8 :=
    get_le32_congr _ _ 8 (fun j _ _ => hsame j (Or.inl (by omega)))
  have e16 : bytestream_get_le32 p1.data 16 = bytestream_get_le32 p2.data 16 :=
    get_le32_congr _ _ 16 (fun j _ _ => hsame j (Or.inr (by omega)))
  have e20 : bytestream_get_le32 p1.data 20 = bytestream_get_le32 p2.data 20 :=
    get_le32_congr _ _ 20 (fun j _ _ => hsame j (Or.inr (by omega)))
  have e24 : bytestream_get_le16 p1.data 24 = bytestream_get_le16 p2.data 24 :=
    get_le16_congr _ _ 24 (fun j _ _ => hsame j (Or.inr (by omega)))
  have hD : mpff_decode_dims avctx p1 = mpff_decode_dims avctx p2 := by
    simp only [mpff_decode_dims, e16, e20]
  have hlog : log1 = log2 := by rw [a6, b6, e4, hsize]
  have hhs1 : hdr1.header_size = bytestream_get_le32 p2.data 8 := by rw [a5, e8]
  have hhs2 : hdr2.header_size = bytestream_get_le32 p2.data 8 := by rw [b5]
  rw [e8] at a3
  have hsrc := pixel_data_agree p1 p2 hsame _ a3 b3
  by_cases hret : 0 ≤ (gb (mpff_decode_dims avctx p2) data).1
  · have d1 := decode_frame_ok gb avctx data gf p1 log1 hdr1 h1 (by rw [hD]; exact hret)
    have d2 := decode_frame_ok gb avctx data gf p2 log2 hdr2 h2 hret
    rw [hD, e24, hhs1, hsize, hlog] at d1
    rw [hhs2] at d2
    have hb := decode_linesize_bounds (mpff_decode_dims avctx p2).width
      (bytestream_get_le16 p2.data 24)
    rw [decode_rows_congr p1.data p2.data _ _ hb.1 hb.2 _ _ _ _ hsrc] at d1
    exact d1.trans d2.symm
  · have d1 := decode_frame_alloc_fail gb avctx data gf p1 log1 hdr1 h1
      (by rw [hD]; omega)
    have d2 := decode_frame_alloc_fail gb avctx data gf p2 log2 hdr2 h2 (by omega)
    rw [hD, hlog] at d1
    exact d1.trans d2.symm

/-- Witness of C18: `header_size = 40` with `info_header_size = 28` and with
`info_header_size = 14`. -/
theorem decode_info_header_size_irrelevant_witness :
    bytestream_get_le32 (packet_of wide_info_header 1000).data 12 = 28 ∧
    bytestream_get_le32
      (with_info_header_size (packet_of wide_info_header 1000) 14).data 12 = 14 ∧
    mpff_decode_frame get_buffer_any (ctx8 0 0) frame0 0 (packet_of wide_info_header 1000)
      = mpff_decode_frame get_buffer_any (ctx8 0 0) frame0 0
          (with_info_header_size (packet_of wide_info_header 1000) 14) :=
  ⟨by decide, by decide,
    decode_info_header_size_irrelevant get_buffer_any (ctx8 0 0) frame0 0
      (packet_of wide_info_header 1000)
      (with_info_header_size (packet_of wide_info_header 1000) 14)
      [] [] ⟨1000, 40, 28⟩ ⟨1000, 40, 14⟩
      (with_info_header_size_same _ 14).1.symm (with_info_header_size_same _ 14).2
      (by decide) (by decide)⟩

/-- C19 (header reads stay inside the input), evaluated at the failing input:
a 16-byte input declaring `file_size = 16`, `header_size = 12` and
`info_header_size = 0`.  The checking block accepts it and the decoder
returns 16 with `got_frame = 1`, although the input is shorter than the 26
header bytes; the width is read at offsets 16..19, outside the input: a
second packet with the same 16 bytes and the same size, followed in memory by
the byte 5, decodes to width 5 instead of 0. -/
theorem decode_short_input_accepted :
    (packet_of short_header 16).size = 16 ∧
    mpff_decode_header (packet_of short_header 16) = ([], Except.ok ⟨16, 12, 0⟩) ∧
    (mpff_decode_frame get_buffer_any (ctx8 0 0) frame0 0
      (packet_of short_header 16)).ret = 16 ∧
    (mpff_decode_frame get_buffer_any (ctx8 0 0) frame0 0
      (packet_of short_header 16)).got_frame = 1 ∧
    bytes (packet_of (short_header ++ [5]) 16).data 16
      = bytes (packet_of short_header 16).data 16 ∧
    (mpff_decode_frame get_buffer_any (ctx8 0 0) frame0 0
      (packet_of short_header 16)).avctx.width = 0 ∧
    (mpff_decode_frame get_buffer_any (ctx8 0 0) frame0 0
      (packet_of (short_header ++ [5]) 16)).avctx.width = 5 := by
  have hh : mpff_decode_header (packet_of short_header 16)
      = ([], Except.ok ⟨16, 12, 0⟩) := by decide
  have hh2 : mpff_decode_header (packet_of (short_header ++ [5]) 16)
      = ([], Except.ok ⟨16, 12, 0⟩) := by decide
  have hw : (mpff_decode_dims (ctx8 0 0) (packet_of short_header 16)).width = 0 := by
    rw [(decode_dims_fields _ _).1]; decide
  have hw2 : (mpff_decode_dims (ctx8 0 0) (packet_of (short_header ++ [5]) 16)).width
      = 5 := by
    rw [(decode_dims_fields _ _).1]; decide
  have hf := decode_frame_ok_fields get_buffer_any (ctx8 0 0) frame0 0
    (packet_of short_header 16) _ _ hh (Int.le_refl 0)
  have hf2 := decode_frame_ok_fields get_buffer_any (ctx8 0 0) frame0 0
    (packet_of (short_header ++ [5]) 16) _ _ hh2 (Int.le_refl 0)
  exact ⟨rfl, hh, hf.1, hf.2.2.1, by decide,
    (congrArg AVCodecContext.width hf.2.1).trans hw,
    (congrArg AVCodecContext.width hf2.2.1).trans hw2⟩

/-- C20 (order of the two `file_size` normalizations).  For every input of
length `L >= 12` (an `int`) whose 32-bit fields satisfy
`info_header_size + 12 <= header_size`, the test `file_size > header_size`
gives the same answer on the `file_size` the code computes (truncation clamp
first, quirk test second) and on the `file_size` obtained with the quirk test
on the declared value first and the clamp afterwards. -/
theorem file_size_order_immaterial (avpkt : AVPacket)
    (hsize : 12 ≤ avpkt.size) (hint : avpkt.size ≤ 2147483647)
    (hle : bytestream_get_le32 avpkt.data 12 + 12 ≤ bytestream_get_le32 avpkt.data 8) :
    (bytestream_get_le32 avpkt.data 8 < mpff_decode_file_size avpkt
      ↔ bytestream_get_le32 avpkt.data 8 < file_size_quirk_then_clamp avpkt) := by
  have hb4 := get_le32_bounds avpkt.data 4
  have hb8 := get_le32_bounds avpkt.data 8
  have hb12 := get_le32_bounds avpkt.data 12
  have hu : toUInt32 avpkt.size = avpkt.size := toUInt32_of_range _ (by omega) (by omega)
  have hu2 : toUInt32 (avpkt.size - 2) = avpkt.size - 2 :=
    toUInt32_of_range _ (by omega) (by omega)
  have hu3 : toUInt32 (bytestream_get_le32 avpkt.data 12 + 12)
      = bytestream_get_le32 avpkt.data 12 + 12 :=
    toUInt32_of_range _ (by omega) (by omega)
  simp only [mpff_decode_file_size, mpff_decode_clamped_file_size, file_size_quirk_then_clamp,
    hu, hu2, hu3]
  generalize bytestream_get_le32 avpkt.data 4 = fs at *
  generalize bytestream_get_le32 avpkt.data 8 = hs at *
  generalize bytestream_get_le32 avpkt.data 12 = ihs at *
  generalize avpkt.size = L at *
  split_ifs <;> omega

/-- Witness of C20: with 20 bytes, `header_size = 26`, `info_header_size = 14`
and declared `file_size = 26` the two orders give 20 and 18, and both are
rejected. -/
theorem file_size_order_immaterial_witness :
    mpff_decode_file_size (packet_of quirk_header 20) = 20 ∧
    file_size_quirk_then_clamp (packet_of quirk_header 20) = 18 ∧
    (bytestream_get_le32 (packet_of quirk_header 20).data 8
        < mpff_decode_file_size (packet_of quirk_header 20)
      ↔ bytestream_get_le32 (packet_of quirk_header 20).data 8
        < file_size_quirk_then_clamp (packet_of quirk_header 20)) :=
  ⟨by decide, by decide,
    file_size_order_immaterial (packet_of quirk_header 20) (by decide) (by decide)
      (by decide)⟩

/-! ## Further properties -/

/-- The height sign for every height field but `INT_MIN`: when the header is
accepted and the height field `h` is not `-2147483648`, the height the
decoder stores in the context, whether or not the frame is granted, is
`abs(h)`, it is non-negative, and the row loop runs `abs(h)` times. -/
theorem decode_height_abs_representable
    (gb : AVCodecContext → AVFrame → Int × AVFrame)
    (avctx : AVCodecContext) (data : AVFrame) (gf : Int) (avpkt : AVPacket)
    (log : List LogEvent) (hdr : DecHeader)
    (hh : mpff_decode_header avpkt = (log, Except.ok hdr))
    (hmin : -2147483648 < toInt32 (bytestream_get_le32 avpkt.data 20)) :
    (mpff_decode_frame gb avctx data gf avpkt).avctx.height
      = |toInt32 (bytestream_get_le32 avpkt.data 20)| ∧
    0 ≤ (mpff_decode_frame gb avctx data gf avpkt).avctx.height ∧
    (((mpff_decode_dims avctx avpkt).height.toNat : Nat) : Int)
      = |toInt32 (bytestream_get_le32 avpkt.data 20)| := by
  have habs := decode_dims_height_abs avctx avpkt hmin
  have hctx : (mpff_decode_frame gb avctx data gf avpkt).avctx
      = mpff_decode_dims avctx avpkt := by
    by_cases hret : 0 ≤ (gb (mpff_decode_dims avctx avpkt) data).1
    · exact (decode_frame_ok_fields gb avctx data gf avpkt log hdr hh hret).2.1
    · exact (decode_frame_alloc_fail_fields gb avctx data gf avpkt log hdr hh
        (by omega)).2.1
  have hE : (mpff_decode_frame gb avctx data gf avpkt).avctx.height
      = |toInt32 (bytestream_get_le32 avpkt.data 20)| :=
    (congrArg AVCodecContext.height hctx).trans habs
  refine ⟨hE, ?_, ?_⟩
  · rw [hE]
    exact abs_nonneg _
  · rw [habs]
    exact Int.toNat_of_nonneg (abs_nonneg _)

/-- Witness: the height field `-2` is stored as 2. -/
theorem decode_height_abs_representable_witness :
    toInt32 (bytestream_get_le32 (packet_of neg_height_header 1000).data 20) = -2 ∧
    (mpff_decode_frame get_buffer_any (ctx8 0 0) frame0 0
      (packet_of neg_height_header 1000)).avctx.height
      = |toInt32 (bytestream_get_le32 (packet_of neg_height_header 1000).data 20)| :=
  ⟨by decide,
    (decode_height_abs_representable get_buffer_any (ctx8 0 0) frame0 0
      (packet_of neg_height_header 1000) [] ⟨1000, 26, 14⟩ (by decide) (by decide)).1⟩

/-- Header reads of accepted inputs with a full-size header: when the header
is accepted and `header_size` is at least 25, the input has at least 26
bytes, so the fields at offsets 12..25 lie inside it. -/
theorem accepted_full_header_inside_input (avpkt : AVPacket) (log : List LogEvent)
    (hdr : DecHeader) (hint : avpkt.size ≤ 2147483647)
    (hh : mpff_decode_header avpkt = (log, Except.ok hdr))
    (h25 : 25 ≤ hdr.header_size) :
    26 ≤ avpkt.size := by
  obtain ⟨h1, -, -, h4, h5, -⟩ := decode_header_ok_inv avpkt log hdr hh
  have h6 := decode_file_size_le avpkt h1 hint
  have hhs : hdr.header_size = bytestream_get_le32 avpkt.data 8 := by rw [h5]
  omega

/-- Witness: a 27-byte input with `header_size = 26`. -/
theorem accepted_full_header_inside_input_witness :
    (26 : Int) ≤ (packet_of long_header 27).size :=
  accepted_full_header_inside_input (packet_of long_header 27)
    [LogEvent.expected_more_data 27 5000] ⟨27, 26, 14⟩ (by decide) (by decide) (by decide)

/-- Reads of the row loop when the rows fit: for every input of length `L`
whose header is accepted, if `header_size + rows * buffer_linesize <= L`,
with `rows` the number of iterations of the row loop and `buffer_linesize`
the line size the decoder computes, every input index read by the row loop
is at least `header_size` and below `L`. -/
theorem decode_reads_inside_input
    (avctx : AVCodecContext) (avpkt : AVPacket) (log : List LogEvent) (hdr : DecHeader)
    (hh : mpff_decode_header avpkt = (log, Except.ok hdr))
    (hfit : hdr.header_size
        + ((mpff_decode_dims avctx avpkt).height.toNat : Int)
          * mpff_decode_linesize (mpff_decode_dims avctx avpkt).width
              (bytestream_get_le16 avpkt.data 24)
        ≤ avpkt.size) :
    ∀ i, IsRead (mpff_decode_reads avctx avpkt) i → hdr.header_size ≤ i ∧ i < avpkt.size := by
  obtain ⟨-, -, -, -, h5, -⟩ := decode_header_ok_inv avpkt log hdr hh
  intro i hi
  have hb := decode_linesize_bounds (mpff_decode_dims avctx avpkt).width
    (bytestream_get_le16 avpkt.data 24)
  have hhs : hdr.header_size = bytestream_get_le32 avpkt.data 8 := by rw [h5]
  rw [hhs] at hfit ⊢
  have := decode_row_reads_range _ hb.1 hb.2 _ _ i hi
  omega

/-- Witness: with 500 bytes the two rows of four bytes fit; the index 33 is
read and is inside the input. -/
theorem decode_reads_inside_input_witness :
    IsRead (mpff_decode_reads (ctx8 0 0) (packet_of long_header 500)) 33 ∧
    (33 : Int) < (packet_of long_header 500).size :=
  ⟨by decide,
    (decode_reads_inside_input (ctx8 0 0) (packet_of long_header 500)
      [LogEvent.expected_more_data 500 5000] ⟨500, 26, 14⟩ (by decide) (by decide) 33
      (by decide)).2⟩

end MPFF
